import Mathlib

/-!
# OpenFV synthetic-aperture refocusing: combiner, stack driver, loader, solver

A shallow embedding of the view-combination and thresholding code, the depth
stack drivers, the calibration loader and the refractive ray solver of
`src/modules/refocusing.cpp` (class `saRefocus`), with theorems about them.

Conventions of the embedding.

* Pixel values live in a linearly ordered field `α` (the reals for the
  exact-arithmetic reading, the rationals for evaluation); rounding of
  `float`/`double` is not modelled.
* An image (`cv::Mat` / `gpu::GpuMat` of type `CV_32F` and size `img_size_`)
  is a function from (row, column) to its pixel value.
* The geometric warp (`calc_refocus_H` + `warpPerspective`, or
  `calc_ref_refocus_map` + `remap`) is an input: `W i` is the image the warp
  left in `cputemp` / `res` / `warped_[i]` for camera `i`.
* OpenCV primitives whose value is not fixed by the repository (`cv::pow` with
  a `double` exponent, the square root inside `meanStdDev`, the CUDA NLCA
  kernels) are parameters of the functions that call them.
* `INT_IMG_MODE` is 0 (floating-point images), as every constructor sets it.
* The C math functions called by `img_refrac` (`sqrt`, `pow(., 1.5)`, `cos`,
  `sin`, `atan2`) are parameters as well; theorems that need their real
  meaning assume `CMath.IsReal`, which the real functions satisfy.
* Loops without a static bound (the depth loops) take a fuel argument and
  return `none` when it runs out; the theorems give the fuel that suffices.
-/

namespace OpenFV

/-- Image of `rows × cols` pixels, indexed by row and column. -/
abbrev Mat (rows cols : ℕ) (α : Type) := Fin rows → Fin cols → α

/-- Fields of `saRefocus` that the combiner and the threshold read. The flags
are C++ `int`s tested for being non-zero; `num_cams_` is an `int` that holds a
camera count and is a natural number here; the `double` fields are in `α`. -/
structure saRefocus (α : Type) where
  num_cams_ : ℕ
  mult_ : ℤ
  minlos_ : ℤ
  nlca_ : ℤ
  nlca_fast_ : ℤ
  mult_exp_ : α
  thresh_ : α
  fact_ : α
  GPU_FLAG : ℤ
  REF_FLAG : ℤ
  CORNER_FLAG : ℤ
  STDEV_THRESH : ℤ
  BENCHMARK_MODE : ℤ

section Primitives

variable {α : Type} [LinearOrderedField α] {rows cols : ℕ}

/-- Source `cv::multiply(src, Scalar(k), dst)`: every pixel times `k`. -/
def cvScale (A : Mat rows cols α) (k : α) : Mat rows cols α :=
  fun r c => A r c * k

/-- Source `src / double(k)` on a `cv::Mat`: every pixel divided by `k`. -/
def cvDivide (A : Mat rows cols α) (k : α) : Mat rows cols α :=
  fun r c => A r c / k

/-- Source `cv::add(a, b, dst)` and `a += b`. -/
def cvAdd (A B : Mat rows cols α) : Mat rows cols α :=
  fun r c => A r c + B r c

/-- Source `cv::multiply(a, b, dst)`: per-pixel product. -/
def cvMultiply (A B : Mat rows cols α) : Mat rows cols α :=
  fun r c => A r c * B r c

/-- Source `cv::min(a, b, dst)`: per-pixel minimum. -/
def cvMin (A B : Mat rows cols α) : Mat rows cols α :=
  fun r c => min (A r c) (B r c)

/-- Source `cv::pow(src, p, dst)`, with the scalar power function `pw base exponent`
of the library as a parameter. -/
def cvPow (pw : α → α → α) (A : Mat rows cols α) (p : α) : Mat rows cols α :=
  fun r c => pw (A r c) p

/-- Source `cv::threshold(src, dst, t, 0, THRESH_TOZERO)`: a pixel keeps its value
when it is greater than `t` and becomes 0 otherwise. -/
def cvThresholdToZero (A : Mat rows cols α) (t : α) : Mat rows cols α :=
  fun r c => if A r c > t then A r c else 0

/-- The all-zero image `blank_`. -/
def blank : Mat rows cols α := fun _ _ => 0

/-- Round to the nearest integer, ties to even (`cvRound`, `__float2int_rn`). -/
def cvRound [FloorRing α] (x : α) : ℤ :=
  let f : ℤ := ⌊x⌋
  let d : α := x - (f : α)
  if d < 1 / 2 then f
  else if 1 / 2 < d then f + 1
  else if f % 2 = 0 then f else f + 1

/-- Source `saturate_cast<uchar>` of an integer: clamp to `0..255`. -/
def saturate_cast_uchar (v : ℤ) : ℕ :=
  if v < 0 then 0 else if 255 < v then 255 else v.toNat

/-- Source `convertTo(dst, CV_8UC1)` of a float image. -/
def convertTo8U [FloorRing α] (A : Mat rows cols α) : Mat rows cols ℕ :=
  fun r c => saturate_cast_uchar (cvRound (A r c))

/-- Source `meanStdDev`: mean and (population) standard deviation over all pixels;
`sqrt` is the library square root. -/
def meanStdDev (sqrt : α → α) (A : Mat rows cols α) : α × α :=
  let n : α := ((rows * cols : ℕ) : α)
  let mean : α := (∑ r, ∑ c, A r c) / n
  let var : α := (∑ r, ∑ c, (A r c - mean) ^ 2) / n
  (mean, sqrt var)

end Primitives

/-- Library functions whose values the repository does not fix: the scalar
power behind `cv::pow` / `gpu::pow`, the square root behind `meanStdDev`, and
the two CUDA NLCA kernels (called with `warped_` and `refocused`). -/
structure Lib (rows cols : ℕ) (α : Type) where
  pow : α → α → α
  sqrt : α → α
  gpu_calc_nlca_image : (ℕ → Mat rows cols α) → Mat rows cols α → Mat rows cols α
  gpu_calc_nlca_image_fast : (ℕ → Mat rows cols α) → Mat rows cols α → Mat rows cols α

namespace saRefocus

section CPU

variable {α : Type} [LinearOrderedField α] {rows cols : ℕ}

/-- Source `CPUrefocus`, lines 1345-1360: camera 0 initialises `cpurefocused`. -/
def CPUrefocus_init (pw : α → α → α) (s : saRefocus α) (W : ℕ → Mat rows cols α) :
    Mat rows cols α :=
  let fact : α := 1 / (s.num_cams_ : α)
  let cputemp := W 0
  if s.mult_ ≠ 0 then cvPow pw cputemp s.mult_exp_
  else if s.minlos_ ≠ 0 then cputemp
  else cvScale cputemp fact

/-- Source `CPUrefocus`, body of the loop over cameras `i = 1 .. num_cams_-1`. -/
def CPUrefocus_body (pw : α → α → α) (s : saRefocus α) (W : ℕ → Mat rows cols α)
    (cpurefocused : Mat rows cols α) (i : ℕ) : Mat rows cols α :=
  let fact : α := 1 / (s.num_cams_ : α)
  let cputemp := W i
  if s.mult_ ≠ 0 then cvMultiply cpurefocused (cvPow pw cputemp s.mult_exp_)
  else if s.minlos_ ≠ 0 then cvMin cputemp cpurefocused
  else cvAdd cpurefocused (cvScale cputemp fact)

/-- Source `CPUrefocus` up to (not including) the call of `threshold`: the value of
`cpurefocused` after the camera loop. Reading `imgs[0]` requires
`num_cams_ ≥ 1`. -/
def CPUrefocus_combined (pw : α → α → α) (s : saRefocus α) (W : ℕ → Mat rows cols α) :
    Mat rows cols α :=
  (List.range' 1 (s.num_cams_ - 1)).foldl (CPUrefocus_body pw s W) (CPUrefocus_init pw s W)

/-- Source `saRefocus::CPUrefocus`: the value stored in `result_`. -/
def CPUrefocus (pw : α → α → α) (s : saRefocus α) (W : ℕ → Mat rows cols α) :
    Mat rows cols α :=
  cvThresholdToZero (CPUrefocus_combined pw s W) s.thresh_

/-- Source `saRefocus::CPUrefocus_ref`: the value stored in `result_`. The function
reads none of `mult_`, `minlos_`, `thresh_`; its threshold is a TODO comment. -/
def CPUrefocus_ref (s : saRefocus α) (W : ℕ → Mat rows cols α) : Mat rows cols α :=
  (List.range' 1 (s.num_cams_ - 1)).foldl
    (fun refocused_host_ i => cvAdd refocused_host_ (cvDivide (W i) (s.num_cams_ : α)))
    (cvDivide (W 0) (s.num_cams_ : α))

/-- Source `CPUrefocus_ref_corner`, lines 1432-1440: camera 0 initialises
`refocused_host_`. -/
def CPUrefocus_ref_corner_init (pw : α → α → α) (s : saRefocus α)
    (W : ℕ → Mat rows cols α) : Mat rows cols α :=
  let res := W 0
  if s.mult_ ≠ 0 then cvPow pw res s.mult_exp_
  else if s.minlos_ ≠ 0 then res
  else cvDivide res (s.num_cams_ : α)

/-- Source `CPUrefocus_ref_corner`, body of the loop over cameras `1 .. num_cams_-1`. -/
def CPUrefocus_ref_corner_body (pw : α → α → α) (s : saRefocus α)
    (W : ℕ → Mat rows cols α) (refocused_host_ : Mat rows cols α) (i : ℕ) :
    Mat rows cols α :=
  let res := W i
  if s.mult_ ≠ 0 then cvMultiply refocused_host_ (cvPow pw res s.mult_exp_)
  else if s.minlos_ ≠ 0 then cvMin refocused_host_ res
  else cvAdd refocused_host_ (cvDivide res (s.num_cams_ : α))

/-- Source `saRefocus::CPUrefocus_ref_corner`: the value stored in `result_`. No
threshold is applied (a TODO comment stands in its place), so this is also the
image the function has built "before thresholding". -/
def CPUrefocus_ref_corner (pw : α → α → α) (s : saRefocus α) (W : ℕ → Mat rows cols α) :
    Mat rows cols α :=
  (List.range' 1 (s.num_cams_ - 1)).foldl (CPUrefocus_ref_corner_body pw s W)
    (CPUrefocus_ref_corner_init pw s W)

end CPU

section GPU

variable {α : Type} [LinearOrderedField α] [FloorRing α] {rows cols : ℕ}

/-- Source `threshold_image(GpuMat&)`: in STDEV mode the statistics are taken from
the 8-bit conversion of `255 * refocused`, and the cut-off handed to
`gpu::threshold` is `(mean + thresh_ * stdev) / 255`. -/
def threshold_image (L : Lib rows cols α) (s : saRefocus α) (refocused : Mat rows cols α) :
    Mat rows cols α :=
  if s.STDEV_THRESH ≠ 0 then
    let temp := cvScale refocused 255
    let temp2 := convertTo8U temp
    let ms := meanStdDev L.sqrt (fun r c => ((temp2 r c : ℕ) : α))
    cvThresholdToZero refocused ((ms.1 + s.thresh_ * ms.2) / 255)
  else
    cvThresholdToZero refocused s.thresh_

/-- Body of the camera loop shared, line for line, by `GPUrefocus` and
`GPUrefocus_ref_corner` (`i` runs from 0). -/
def GPUrefocus_body (L : Lib rows cols α) (s : saRefocus α) (W : ℕ → Mat rows cols α)
    (refocused : Mat rows cols α) (i : ℕ) : Mat rows cols α :=
  if s.mult_ ≠ 0 then
    if i > 0 then cvMultiply refocused (cvPow L.pow (W i) s.mult_exp_)
    else cvPow L.pow (W i) s.mult_exp_
  else if s.minlos_ ≠ 0 then
    if i > 0 then cvMin refocused (W i) else W i
  else if s.nlca_ = 0 ∧ s.nlca_fast_ = 0 then
    cvAdd refocused (cvScale (W i) s.fact_)
  else refocused

/-- Source `GPUrefocus` / `GPUrefocus_ref_corner` after the camera loop: `refocused`
starts as `blank_`. -/
def GPUrefocus_combined (L : Lib rows cols α) (s : saRefocus α) (W : ℕ → Mat rows cols α) :
    Mat rows cols α :=
  (List.range s.num_cams_).foldl (GPUrefocus_body L s W) blank

/-- Tail of `GPUrefocus` / `GPUrefocus_ref_corner` (lines 985-991, 1075-1081):
NLCA kernels, or the threshold unless benchmark mode is on. -/
def GPUrefocus_finish (L : Lib rows cols α) (s : saRefocus α) (W : ℕ → Mat rows cols α)
    (refocused : Mat rows cols α) : Mat rows cols α :=
  if s.nlca_ ≠ 0 then L.gpu_calc_nlca_image W refocused
  else if s.nlca_fast_ ≠ 0 then L.gpu_calc_nlca_image_fast W refocused
  else if s.BENCHMARK_MODE = 0 then threshold_image L s refocused
  else refocused

/-- Source `saRefocus::GPUrefocus`: the value stored in `result_`. -/
def GPUrefocus (L : Lib rows cols α) (s : saRefocus α) (W : ℕ → Mat rows cols α) :
    Mat rows cols α :=
  GPUrefocus_finish L s W (GPUrefocus_combined L s W)

/-- Source `saRefocus::GPUrefocus_ref_corner`: the value stored in `result_`. -/
def GPUrefocus_ref_corner (L : Lib rows cols α) (s : saRefocus α) (W : ℕ → Mat rows cols α) :
    Mat rows cols α :=
  GPUrefocus_finish L s W (GPUrefocus_combined L s W)

/-- Source `GPUrefocus_ref` after the camera loop: every view is scaled by `fact_`
and added, whatever the composition flags. -/
def GPUrefocus_ref_combined (s : saRefocus α) (W : ℕ → Mat rows cols α) : Mat rows cols α :=
  (List.range s.num_cams_).foldl
    (fun refocused i => cvAdd refocused (cvScale (W i) s.fact_)) blank

/-- Source `saRefocus::GPUrefocus_ref`: the value stored in `result_`. -/
def GPUrefocus_ref (L : Lib rows cols α) (s : saRefocus α) (W : ℕ → Mat rows cols α) :
    Mat rows cols α :=
  if s.BENCHMARK_MODE = 0 then threshold_image L s (GPUrefocus_ref_combined s W)
  else GPUrefocus_ref_combined s W

/-- Assignment of `thresh_` at the top of `refocus` (lines 734-738). -/
def refocus_set_thresh (s : saRefocus α) (thresh : α) : saRefocus α :=
  { s with thresh_ := if s.STDEV_THRESH ≠ 0 then thresh else thresh / 255 }

/-- Source `saRefocus::refocus(z, rx, ry, rz, thresh, frame)` in the CUDA build: the
returned `result_`. The pose and the frame only select the warped views, which
are the argument `W` here. -/
def refocus (L : Lib rows cols α) (s : saRefocus α) (W : ℕ → Mat rows cols α) (thresh : α) :
    Mat rows cols α :=
  let s1 := refocus_set_thresh s thresh
  if s1.REF_FLAG ≠ 0 then
    if s1.CORNER_FLAG ≠ 0 then
      if s1.GPU_FLAG ≠ 0 then GPUrefocus_ref_corner L s1 W
      else CPUrefocus_ref_corner L.pow s1 W
    else
      if s1.GPU_FLAG ≠ 0 then GPUrefocus_ref L s1 W
      else CPUrefocus_ref s1 W
  else
    if s1.GPU_FLAG ≠ 0 then GPUrefocus L s1 W
    else CPUrefocus L.pow s1 W

/-- The image the path selected by `refocus` has built when it reaches its
threshold step (or its end, for the two CPU refractive paths). -/
def refocus_combined (L : Lib rows cols α) (s : saRefocus α) (W : ℕ → Mat rows cols α) :
    Mat rows cols α :=
  if s.REF_FLAG ≠ 0 then
    if s.CORNER_FLAG ≠ 0 then
      if s.GPU_FLAG ≠ 0 then GPUrefocus_combined L s W
      else CPUrefocus_ref_corner L.pow s W
    else
      if s.GPU_FLAG ≠ 0 then GPUrefocus_ref_combined s W
      else CPUrefocus_ref s W
  else
    if s.GPU_FLAG ≠ 0 then GPUrefocus_combined L s W
    else CPUrefocus_combined L.pow s W

/-- The cut-off `threshold_image` hands to `gpu::threshold` in STDEV mode. -/
def stdev_cutoff (L : Lib rows cols α) (s : saRefocus α) (refocused : Mat rows cols α) : α :=
  let temp2 := convertTo8U (cvScale refocused 255)
  let ms := meanStdDev L.sqrt (fun r c => ((temp2 r c : ℕ) : α))
  (ms.1 + s.thresh_ * ms.2) / 255

end GPU

end saRefocus

/-! ## Stack driver -/

namespace saRefocus

section Stack

variable {α : Type} [LinearOrderedField α] [FloorRing α] {rows cols : ℕ}

/-- Depth loop `for (double z = zmin; z <= bound; z += dz)` of `return_stack`
and `dump_stack`, whose body pushes `refocus(z, 0, 0, 0, thresh, frame)` on
`stack`. The warped views of the frame at depth `z` are `views z`. The session
is threaded through because `refocus` writes `thresh_`. The argument `fuel`
bounds the number of iterations: the result is `none` when it runs out while
the loop condition still holds. -/
def stack_loop (L : Lib rows cols α) (views : α → ℕ → Mat rows cols α) (bound dz thresh : α) :
    ℕ → saRefocus α → α → List (Mat rows cols α) →
      Option (saRefocus α × List (Mat rows cols α))
  | 0, s, z, stack => if z ≤ bound then none else some (s, stack)
  | fuel + 1, s, z, stack =>
    if z ≤ bound then
      stack_loop L views bound dz thresh fuel (refocus_set_thresh s thresh) (z + dz)
        (stack ++ [refocus L s (views z) thresh])
    else some (s, stack)

/-- Source `saRefocus::return_stack` (the overload without `time`): the
content of `stack` on return; the loop bound is `zmax + dz*0.5`. -/
def return_stack (L : Lib rows cols α) (s : saRefocus α) (views : α → ℕ → Mat rows cols α)
    (zmin zmax dz thresh : α) (stack : List (Mat rows cols α)) (fuel : ℕ) :
    Option (List (Mat rows cols α)) :=
  (stack_loop L views (zmax + dz * (1 / 2)) dz thresh fuel s zmin stack).map Prod.snd

/-- Index of the source frame that `dump_stack` refocuses at position `f` of
`frames_`: the GPU branch uploads frame `f` and refocuses frame 0 of the
upload, the CPU branch refocuses frame `frames_[f]`. -/
def dump_stack_source (s : saRefocus α) (frames_ : List ℕ) (f : ℕ) : ℕ :=
  if s.GPU_FLAG ≠ 0 then f else frames_.getD f 0

/-- Body of the frame loop of `dump_stack` for position `f`: the stack handed
to the image writer (`io << stack`) and the session afterwards. The warped
views of source frame `k` at depth `z` are `views k z`; the loop bound is
`zmax`. -/
def dump_stack_frame (L : Lib rows cols α) (s : saRefocus α) (frames_ : List ℕ)
    (views : ℕ → α → ℕ → Mat rows cols α) (zmin zmax dz thresh : α) (fuel : ℕ) (f : ℕ) :
    Option (saRefocus α × List (Mat rows cols α)) :=
  stack_loop L (views (dump_stack_source s frames_ f)) zmax dz thresh fuel s zmin []

/-- Frame loop of `dump_stack` over the positions `fs`, collecting the stacks
handed to the image writer in order. -/
def dump_stack_frames (L : Lib rows cols α) (frames_ : List ℕ)
    (views : ℕ → α → ℕ → Mat rows cols α) (zmin zmax dz thresh : α) (fuel : ℕ) :
    List ℕ → saRefocus α → Option (List (List (Mat rows cols α)))
  | [], _ => some []
  | f :: rest, s =>
    match dump_stack_frame L s frames_ views zmin zmax dz thresh fuel f with
    | none => none
    | some (s1, stack) =>
      match dump_stack_frames L frames_ views zmin zmax dz thresh fuel rest s1 with
      | none => none
      | some out => some (stack :: out)

/-- Source `saRefocus::dump_stack`: the stacks handed to the image writer, one
per position `f = 0 .. frames_.size()-1`. Directory handling is not modelled. -/
def dump_stack (L : Lib rows cols α) (s : saRefocus α) (frames_ : List ℕ)
    (views : ℕ → α → ℕ → Mat rows cols α) (zmin zmax dz thresh : α) (fuel : ℕ) :
    Option (List (List (Mat rows cols α))) :=
  dump_stack_frames L frames_ views zmin zmax dz thresh fuel (List.range frames_.length) s

end Stack

end saRefocus

/-! ## Refractive solver -/

/-- Scalar functions of the C math library that `img_refrac` calls and whose
values the exact-arithmetic embedding takes as parameters: `sqrt`,
`pow(x, 1.5)`, `cos`, `sin` and `atan2(y, x)`. The call `pow(x, 2)` is the
square `x ^ 2`. -/
structure CMath (α : Type) where
  sqrt : α → α
  pow15 : α → α
  cos : α → α
  sin : α → α
  atan2 : α → α → α

/-- Quantities that stay fixed during the Newton-Raphson loop of `img_refrac`
for one point: the refractive indices and the distances `rp`, `dp`, `da`,
`db`. -/
structure NRParams (α : Type) where
  n1_ : α
  n2_ : α
  n3_ : α
  rp : α
  dp : α
  da : α
  db : α

/-- What `img_refrac` leaves behind for one point: the column written to
`X_out`, the final iterates `ra`, `rb`, the value of the loop counter `i`
after the loop, and whether the maximum-iterations warning was logged. -/
structure RefracResult (α : Type) where
  X_out : Fin 4 → α
  ra : α
  rb : α
  i : ℕ
  warned : Bool

/-- Fields of `saRefocus` that `read_calib_data` and `setRefractive` write and
the projection code reads. `img_size_` is (width, height); `geom` is the
5-entry array `(zW, n1, n2, n3, t)`. -/
structure saRefocusCalib (α : Type) where
  img_size_ : ℤ × ℤ
  scale_ : α
  num_cams_ : ℕ
  fact_ : α
  cam_names_ : List String
  P_mats_ : List (Fin 3 → Fin 4 → α)
  cam_locations_ : List (Fin 3 → α)
  REF_FLAG : ℤ
  geom : Fin 5 → α
  IMG_REFRAC_TOL : α
  MAX_NR_ITERS : ℕ

namespace saRefocus

section Solver

variable {α : Type} [LinearOrderedField α]

/-- Residual `f` of the first Snell equation, as computed in the loop. -/
def nr_f (M : CMath α) (q : NRParams α) (ra rb : α) : α :=
  (ra / M.sqrt (ra ^ 2 + q.da ^ 2))
    - ((q.n2_ / q.n1_) * (rb - ra) / M.sqrt ((rb - ra) ^ 2 + q.db ^ 2))

/-- Residual `g` of the second Snell equation, as computed in the loop. -/
def nr_g (M : CMath α) (q : NRParams α) (ra rb : α) : α :=
  ((rb - ra) / M.sqrt ((rb - ra) ^ 2 + q.db ^ 2))
    - ((q.n3_ / q.n2_) * (q.rp - rb) / M.sqrt ((q.rp - rb) ^ 2 + q.dp ^ 2))

/-- The quantity `dfdra` as computed in the loop. -/
def nr_dfdra (M : CMath α) (q : NRParams α) (ra rb : α) : α :=
  (1 / M.sqrt (ra ^ 2 + q.da ^ 2))
    - (ra ^ 2 / M.pow15 (ra ^ 2 + q.da ^ 2))
    + ((q.n2_ / q.n1_) / M.sqrt ((ra - rb) ^ 2 + q.db ^ 2))
    - ((q.n2_ / q.n1_) * (ra - rb) * (2 * ra - 2 * rb)
        / (2 * M.pow15 ((ra - rb) ^ 2 + q.db ^ 2)))

/-- The quantity `dfdrb` as computed in the loop. -/
def nr_dfdrb (M : CMath α) (q : NRParams α) (ra rb : α) : α :=
  ((q.n2_ / q.n1_) * (ra - rb) * (2 * ra - 2 * rb)
      / (2 * M.pow15 ((ra - rb) ^ 2 + q.db ^ 2)))
    - ((q.n2_ / q.n1_) / M.sqrt ((ra - rb) ^ 2 + q.db ^ 2))

/-- The quantity `dgdra` as computed in the loop. -/
def nr_dgdra (M : CMath α) (q : NRParams α) (ra rb : α) : α :=
  ((ra - rb) * (2 * ra - 2 * rb) / (2 * M.pow15 ((ra - rb) ^ 2 + q.db ^ 2)))
    - (1 / M.sqrt ((ra - rb) ^ 2 + q.db ^ 2))

/-- The quantity `dgdrb` as computed in the loop. -/
def nr_dgdrb (M : CMath α) (q : NRParams α) (ra rb : α) : α :=
  (1 / M.sqrt ((ra - rb) ^ 2 + q.db ^ 2))
    + ((q.n3_ / q.n2_) / M.sqrt ((rb - q.rp) ^ 2 + q.dp ^ 2))
    - ((ra - rb) * (2 * ra - 2 * rb) / (2 * M.pow15 ((ra - rb) ^ 2 + q.db ^ 2)))
    - ((q.n3_ / q.n2_) * (rb - q.rp) * (2 * rb - 2 * q.rp)
        / (2 * M.pow15 ((rb - q.rp) ^ 2 + q.dp ^ 2)))

/-- One pass through the loop body up to the assignments of `ra` and `rb`:
the new pair `(ra, rb)`. Both assignments use `f`, `g` and the four
derivatives computed from the old pair. -/
def nr_update (M : CMath α) (q : NRParams α) (ra rb : α) : α × α :=
  let f := nr_f M q ra rb
  let g := nr_g M q ra rb
  let dfdra := nr_dfdra M q ra rb
  let dfdrb := nr_dfdrb M q ra rb
  let dgdra := nr_dgdra M q ra rb
  let dgdrb := nr_dgdrb M q ra rb
  (ra - ((f * dgdrb - g * dfdrb) / (dfdra * dgdrb - dfdrb * dgdra)),
   rb - ((g * dfdra - f * dgdra) / (dfdra * dgdrb - dfdrb * dgdra)))

/-- The quantity `res = abs(ra1-ra) + abs(rb1-rb)` of one pass, where
`(ra1, rb1)` is the pair before the update. -/
def nr_res (M : CMath α) (q : NRParams α) (ra rb : α) : α :=
  |ra - (nr_update M q ra rb).1| + |rb - (nr_update M q ra rb).2|

/-- The loop `for (i=0; i<MAX_NR_ITERS; i++) { ...; if (res < tol) break; }`.
The first argument counts the passes still allowed, the second is `i`. The
result is `(ra, rb, i)` after the loop: on `break` the counter keeps the index
of the pass that broke, on exhaustion it equals `MAX_NR_ITERS`. -/
def nr_loop (M : CMath α) (q : NRParams α) (tol : α) : ℕ → ℕ → α → α → α × α × ℕ
  | 0, i, ra, rb => (ra, rb, i)
  | k + 1, i, ra, rb =>
    if nr_res M q ra rb < tol then
      ((nr_update M q ra rb).1, (nr_update M q ra rb).2, i)
    else
      nr_loop M q tol k (i + 1) (nr_update M q ra rb).1 (nr_update M q ra rb).2

/-- The straight-line initial guess: `ra` and `rb` computed from the
intersections `a`, `b` of the segment from `c` to `point` with the planes
`z = zW_` and `z = t_ + zW_`. -/
def refrac_init (M : CMath α) (zW_ t_ : α) (c point : Fin 3 → α) : α × α :=
  let a0 := c 0 + (point 0 - c 0) * (zW_ - c 2) / (point 2 - c 2)
  let a1 := c 1 + (point 1 - c 1) * (zW_ - c 2) / (point 2 - c 2)
  let b0 := c 0 + (point 0 - c 0) * (t_ + zW_ - c 2) / (point 2 - c 2)
  let b1 := c 1 + (point 1 - c 1) * (t_ + zW_ - c 2) / (point 2 - c 2)
  (M.sqrt ((a0 - c 0) ^ 2 + (a1 - c 1) ^ 2), M.sqrt ((b0 - c 0) ^ 2 + (b1 - c 1) ^ 2))

/-- The per-point quantities `rp`, `dp`, `da`, `db` with the indices. -/
def refrac_params (M : CMath α) (zW_ n1_ n2_ n3_ t_ : α) (c point : Fin 3 → α) :
    NRParams α where
  n1_ := n1_
  n2_ := n2_
  n3_ := n3_
  rp := M.sqrt ((point 0 - c 0) ^ 2 + (point 1 - c 1) ^ 2)
  dp := point 2 - (t_ + zW_)
  da := zW_ - c 2
  db := (t_ + zW_) - zW_

/-- Body of the point loop of `img_refrac` for one column `point` of `X`, with
the unpacked geometry, the tolerance and the iteration cap as arguments. -/
def img_refrac_body (M : CMath α) (zW_ n1_ n2_ n3_ t_ tol : α) (maxit : ℕ)
    (c point : Fin 3 → α) : RefracResult α :=
  let q := refrac_params M zW_ n1_ n2_ n3_ t_ c point
  let phi := M.atan2 (point 1 - c 1) (point 0 - c 0)
  let init := refrac_init M zW_ t_ c point
  let fin := nr_loop M q tol maxit 0 init.1 init.2
  { X_out := ![fin.1 * M.cos phi + c 0, fin.1 * M.sin phi + c 1, zW_, 1]
    ra := fin.1
    rb := fin.2.1
    i := fin.2.2
    warned := decide (fin.2.2 + 1 = maxit) }

/-- Source `saRefocus::img_refrac` for one column of `X`: the first line
unpacks `zW_ = geom[0]`, `n1_ = geom[1]`, `n2_ = geom[2]`, `n3_ = geom[3]`,
`t_ = geom[4]`. -/
def img_refrac_point (M : CMath α) (s : saRefocusCalib α) (Xcam point : Fin 3 → α) :
    RefracResult α :=
  img_refrac_body M (s.geom 0) (s.geom 1) (s.geom 2) (s.geom 3) (s.geom 4)
    s.IMG_REFRAC_TOL s.MAX_NR_ITERS Xcam point

/-- Source `saRefocus::img_refrac`: the columns written to `X_out`, one per
column of `X`. -/
def img_refrac (M : CMath α) (s : saRefocusCalib α) (Xcam : Fin 3 → α)
    (X : List (Fin 3 → α)) : List (Fin 4 → α) :=
  X.map (fun point => (img_refrac_point M s Xcam point).X_out)

/-- Source `saRefocus::project_point`: refract `X` for camera `cam`, multiply
by `P_mats_[cam]` and divide by the third component. -/
def project_point (M : CMath α) (s : saRefocusCalib α) (cam : ℕ) (X : Fin 3 → α) :
    Option (Fin 2 → α) :=
  match s.cam_locations_[cam]?, s.P_mats_[cam]? with
  | some c, some P =>
    let X_out := (img_refrac_point M s c X).X_out
    let proj : Fin 3 → α := fun i => ∑ j, P i j * X_out j
    some ![proj 0 / proj 2, proj 1 / proj 2]
  | _, _ => none

/-- Source `saRefocus::setRefractive`. -/
def setRefractive (s : saRefocusCalib α) (ref : ℤ) (zW n1 n2 n3 t : α) : saRefocusCalib α :=
  { s with
    REF_FLAG := ref
    geom := Function.update (Function.update (Function.update (Function.update
      (Function.update s.geom 0 zW) 1 n1) 2 n2) 3 n3) 4 t }

end Solver

end saRefocus

/-! ## Calibration loader -/

/-- One camera block of a calibration file: the line kept from the two
`getline` calls, the twelve entries of the 3×4 matrix and the three of the
location. -/
structure CalibCamera (α : Type) where
  cam_name : String
  P_mat : Fin 3 → Fin 4 → α
  loc : Fin 3 → α

/-- Content of a well-formed calibration file, as the extraction operators of
`read_calib_data` see it. The number of cameras announced in the file is the
number of camera blocks. The entry `ref_values` holds the five numbers that
follow the refractive flag, in file order; they are present and read only when
the flag is non-zero. -/
structure CalibFile (α : Type) where
  time_stamp : String
  avg_reproj_error_ : α
  width : ℤ
  height : ℤ
  scale : α
  cameras : List (CalibCamera α)
  ref_flag : ℤ
  ref_values : Fin 5 → α

/-- The two `LOG(FATAL)` exits of `read_calib_data`. -/
inductive Fatal where
  | could_not_open
  | name_clash
  deriving DecidableEq

namespace saRefocus

section Calib

variable {α : Type} [LinearOrderedField α]

/-- Removal of a carriage return at the end of `cam_name` (lines 217-220). -/
def strip_cr (cam_name : String) : String :=
  if cam_name.back = Char.ofNat 13 then cam_name.dropRight 1 else cam_name

/-- The clash check at the end of `read_calib_data`: whether some pair
`i ≠ j` of indices below `num_cams_` has `cam_names_[i] == cam_names_[j]`. -/
def name_clash (cam_names_ : List String) (num_cams_ : ℕ) : Bool :=
  (List.range num_cams_).any fun i =>
    (List.range num_cams_).any fun j =>
      if i = j then false
      else decide (cam_names_.getD i "" = cam_names_.getD j "")

/-- The member assignments of `read_calib_data` up to the clash check: sizes,
scale, camera count and `fact_`, one `push_back` per camera on `cam_names_`,
`P_mats_` and `cam_locations_`, the refractive flag, and, when the flag is
non-zero, `geom[0]`, `geom[4]`, `geom[1]`, `geom[2]`, `geom[3]` from the next
five numbers in that order. -/
def read_calib_fields (s : saRefocusCalib α) (F : CalibFile α) : saRefocusCalib α :=
  { s with
    img_size_ := (F.width, F.height)
    scale_ := F.scale
    num_cams_ := F.cameras.length
    fact_ := 1 / (F.cameras.length : α)
    cam_names_ := s.cam_names_ ++ F.cameras.map (fun cam => strip_cr cam.cam_name)
    P_mats_ := s.P_mats_ ++ F.cameras.map (fun cam => cam.P_mat)
    cam_locations_ := s.cam_locations_ ++ F.cameras.map (fun cam => cam.loc)
    REF_FLAG := F.ref_flag
    geom :=
      if F.ref_flag ≠ 0 then
        Function.update (Function.update (Function.update (Function.update
          (Function.update s.geom 0 (F.ref_values 0)) 4 (F.ref_values 1))
          1 (F.ref_values 2)) 2 (F.ref_values 3)) 3 (F.ref_values 4)
      else s.geom }

/-- Source `saRefocus::read_calib_data`: `file` is `none` when the path cannot
be opened. The result is the session after loading, or the fatal exit taken. -/
def read_calib_data (s : saRefocusCalib α) (file : Option (CalibFile α)) :
    Except Fatal (saRefocusCalib α) :=
  match file with
  | none => Except.error Fatal.could_not_open
  | some F =>
    if name_clash (read_calib_fields s F).cam_names_ (read_calib_fields s F).num_cams_ then
      Except.error Fatal.name_clash
    else
      Except.ok (read_calib_fields s F)

end Calib

end saRefocus

/-! ## Timed stack and depth sequence -/

namespace saRefocus

section StackTimed

variable {α : Type} [LinearOrderedField α] [FloorRing α] {rows cols : ℕ}

/-- Source `saRefocus::return_stack` (the overload with `time`): the content
of `stack` on return; the loop bound is `zmax`. The wall-clock value written
to `time` is not modelled. -/
def return_stack_timed (L : Lib rows cols α) (s : saRefocus α)
    (views : α → ℕ → Mat rows cols α) (zmin zmax dz thresh : α)
    (stack : List (Mat rows cols α)) (fuel : ℕ) : Option (List (Mat rows cols α)) :=
  (stack_loop L views zmax dz thresh fuel s zmin stack).map Prod.snd

/-- Values of `z` at which the body of `for (double z = zmin; z <= bound;
z += dz)` runs, in order. The first argument is the fuel: the result is `none`
when it runs out while the loop condition still holds. -/
def stack_depths (bound dz : α) : ℕ → α → Option (List α)
  | 0, z => if z ≤ bound then none else some []
  | fuel + 1, z =>
    if z ≤ bound then (stack_depths bound dz fuel (z + dz)).map (fun ds => z :: ds)
    else some []

end StackTimed

end saRefocus

/-! ## Composition-mode flags and NLCA window -/

/-- Fields of `saRefocus` that the mode setters, the trackbar callbacks and
the live-view key handler write, with the fields `setNlca` and `setNlcaWindow`
read. `img_size_` is (width, height). -/
structure saRefocusModes (α : Type) where
  num_cams_ : ℕ
  img_size_ : ℤ × ℤ
  mult_ : ℤ
  minlos_ : ℤ
  nlca_ : ℤ
  nlca_fast_ : ℤ
  mult_exp_ : α
  delta_ : α
  nlca_win_ : ℤ

/-- Fatal exits (`LOG(FATAL)`) of the settings constructor, the mode setters
and the image readers. -/
inductive SessionFatal where
  | multiple_modes
  | nlca_needs_four_cams
  | window_not_dividing
  | window_too_large
  | no_images
  | count_mismatch
  | name_mismatch
  | end_frame_beyond
  | mtiff_count_mismatch
  deriving DecidableEq

namespace saRefocus

section Modes

variable {α : Type}

/-- Mode part of the constructor `saRefocus(refocus_settings)`: the flags are
copied from the settings, then `if (mult_ + minlos_ + nlca_ + nlca_fast_ > 1)
LOG(FATAL)`, then `nlca_win_`, `delta_` and `mult_exp_` are copied, and after
the images are read `if (nlca_ || nlca_fast_) if (num_cams_ != 4) LOG(FATAL)`.
Reading the calibration and the images is modelled separately. -/
def settings_modes (s : saRefocusModes α) (mult minlos nlca nlca_fast nlca_win : ℤ)
    (delta mult_exp : α) : Except SessionFatal (saRefocusModes α) :=
  if mult + minlos + nlca + nlca_fast > 1 then .error .multiple_modes
  else if (nlca ≠ 0 ∨ nlca_fast ≠ 0) ∧ s.num_cams_ ≠ 4 then .error .nlca_needs_four_cams
  else .ok { s with
    mult_ := mult
    minlos_ := minlos
    nlca_ := nlca
    nlca_fast_ := nlca_fast
    nlca_win_ := nlca_win
    delta_ := delta
    mult_exp_ := mult_exp }

/-- Source `saRefocus::setMult`. -/
def setMult (s : saRefocusModes α) (flag : ℤ) (exp : α) : saRefocusModes α :=
  { s with mult_ := flag, mult_exp_ := exp, nlca_ := 0, nlca_fast_ := 0, minlos_ := 0 }

/-- Source `saRefocus::setNlca`. -/
def setNlca (s : saRefocusModes α) (flag : ℤ) (delta : α) :
    Except SessionFatal (saRefocusModes α) :=
  if s.num_cams_ ≠ 4 then .error .nlca_needs_four_cams
  else .ok { s with nlca_ := flag, delta_ := delta, nlca_fast_ := 0, mult_ := 0, minlos_ := 0 }

/-- Source `saRefocus::setNlcaFast`. -/
def setNlcaFast (s : saRefocusModes α) (flag : ℤ) (delta : α) :
    Except SessionFatal (saRefocusModes α) :=
  if s.num_cams_ ≠ 4 then .error .nlca_needs_four_cams
  else .ok { s with nlca_fast_ := flag, delta_ := delta, nlca_ := 0, mult_ := 0, minlos_ := 0 }

/-- Source `saRefocus::setNlcaWindow`. The operator `%` of C++ on `int`
truncates towards zero (`Int.tmod`); `size = 0` is undefined in the source. -/
def setNlcaWindow (s : saRefocusModes α) (size : ℤ) :
    Except SessionFatal (saRefocusModes α) :=
  if s.img_size_.1.tmod size ≠ 0 ∧ s.img_size_.2.tmod size ≠ 0 then
    .error .window_not_dividing
  else if size > 32 then .error .window_too_large
  else .ok { s with nlca_win_ := size }

/-- Source `saRefocus::cb_mult`, up to the call of `updateLiveFrame`. -/
def cb_mult (s : saRefocusModes α) (state : ℤ) : saRefocusModes α :=
  if state ≠ 0 then { s with mult_ := state, minlos_ := 0, nlca_ := 0, nlca_fast_ := 0 }
  else { s with mult_ := state }

/-- Source `saRefocus::cb_mlos`, up to the call of `updateLiveFrame`. -/
def cb_mlos (s : saRefocusModes α) (state : ℤ) : saRefocusModes α :=
  if state ≠ 0 then { s with minlos_ := state, mult_ := 0, nlca_ := 0, nlca_fast_ := 0 }
  else { s with minlos_ := state }

/-- Source `saRefocus::cb_nlca`, up to the call of `updateLiveFrame`. -/
def cb_nlca (s : saRefocusModes α) (state : ℤ) : saRefocusModes α :=
  if state ≠ 0 then { s with nlca_ := state, nlca_fast_ := 0, minlos_ := 0, mult_ := 0 }
  else { s with nlca_ := state }

/-- Source `saRefocus::cb_nlca_fast`, up to the call of `updateLiveFrame`. -/
def cb_nlca_fast (s : saRefocusModes α) (state : ℤ) : saRefocusModes α :=
  if state ≠ 0 then { s with nlca_fast_ := state, minlos_ := 0, mult_ := 0, nlca_ := 0 }
  else { s with nlca_fast_ := state }

/-- Key 32 (space) in the key handlers of `CPUliveView` and `GPUliveView`:
`mult_ = (mult_+1)%2;`. -/
def liveView_key_space (s : saRefocusModes α) : saRefocusModes α :=
  { s with mult_ := (s.mult_ + 1).tmod 2 }

end Modes

section Loading

variable {Img : Type}

/-- Loop `for (int j = begin; j < end; j += skip+1)` of `read_imgs`, and with
`end = end_frame_ + 1` the loop `for (int i = start_frame_; i <= end_frame_;
i += skip_frame_+1)` of the constructor: the values of the loop variable at
which the body runs. The first argument is the fuel. -/
def frame_loop (end_ skip : ℕ) : ℕ → ℕ → List ℕ
  | 0, _ => []
  | fuel + 1, j => if j < end_ then j :: frame_loop end_ skip fuel (j + (skip + 1)) else []

/-- Values of the loop variable of `frame_loop` started at `begin`; the fuel
`end_ - begin` is never exhausted before the loop condition fails. Frame
numbers and the skip are taken non-negative. -/
def selected_frames (begin end_ skip : ℕ) : List ℕ :=
  frame_loop end_ skip (end_ - begin) begin

/-- Frame part of the constructor `saRefocus(refocus_settings)`: `frames_`
before the image reader is called. It is filled here only for multi-page
files without the all-frames flag. -/
def settings_frames (MTIFF_FLAG ALL_FRAME_FLAG : ℤ) (start_frame_ end_frame_ skip_frame_ : ℕ) :
    List ℕ :=
  if MTIFF_FLAG ≠ 0 ∧ ALL_FRAME_FLAG = 0 then
    selected_frames start_frame_ (end_frame_ + 1) skip_frame_
  else []

/-- Camera loop of `read_imgs`. Each camera folder is given as its sorted
listing of (file name, image); the folder is taken to exist. The arguments
after the folders are the camera index `i`, the names `img_names_` of camera
0, and the members `imgs` and `frames_`. A loaded image is `img_names.at(j)`
read from disk; the writes to `img_size_` and the call of `updateHinv` at the
first image are not part of this view. -/
def read_imgs_loop (ALL_FRAME_FLAG : ℤ) (start_frame_ end_frame_ skip_frame_ : ℕ) :
    List (List (String × Img)) → ℕ → List String → List (List (Option Img)) → List ℕ →
      Except SessionFatal (List (List (Option Img)) × List ℕ)
  | [], _, _, imgs, frames_ => .ok (imgs, frames_)
  | img_names :: rest, i, img_names_, imgs, frames_ =>
    if img_names.length = 0 then .error .no_images
    else if i ≠ 0 ∧ img_names.length ≠ img_names_.length then .error .count_mismatch
    else if i ≠ 0 ∧ img_names.map Prod.fst ≠ img_names_ then .error .name_mismatch
    else if ALL_FRAME_FLAG = 0 ∧ end_frame_ + 1 > img_names.length then
      .error .end_frame_beyond
    else
      let js :=
        if ALL_FRAME_FLAG ≠ 0 then selected_frames 0 img_names.length 0
        else selected_frames start_frame_ (end_frame_ + 1) skip_frame_
      read_imgs_loop ALL_FRAME_FLAG start_frame_ end_frame_ skip_frame_ rest (i + 1)
        (if i = 0 then img_names.map Prod.fst else img_names_)
        (imgs ++ [js.map (fun j => (img_names[j]?).map Prod.snd)])
        (if i = 0 then frames_ ++ js else frames_)

/-- Source `saRefocus::read_imgs` on a fresh session (`imgs_read_ = 0`, `imgs`
and `frames_` empty): the members `imgs` and `frames_` afterwards. -/
def read_imgs (ALL_FRAME_FLAG : ℤ) (start_frame_ end_frame_ skip_frame_ : ℕ)
    (dirs : List (List (String × Img))) :
    Except SessionFatal (List (List (Option Img)) × List ℕ) :=
  read_imgs_loop ALL_FRAME_FLAG start_frame_ end_frame_ skip_frame_ dirs 0 [] [] []

/-- Camera loop of `read_imgs_mtiff`: `if (frames_.back() >
tiffs[n].num_frames()) LOG(FATAL)`, then `get_frame(frames_.at(f))` for every
position `f`. A file is given as the list of its pages; a page that does not
exist is read as `none`. On an empty `frames_` the call `frames_.back()` is
undefined and the model takes no exit. -/
def read_imgs_mtiff_loop (frames_ : List ℕ) :
    List (List Img) → List (List (Option Img)) →
      Except SessionFatal (List (List (Option Img)) × List ℕ)
  | [], imgs => .ok (imgs, frames_)
  | tiff :: rest, imgs =>
    if (match frames_.getLast? with
        | some b => decide (b > tiff.length)
        | none => false) = true then .error .end_frame_beyond
    else read_imgs_mtiff_loop frames_ rest (imgs ++ [frames_.map (fun k => tiff[k]?)])

/-- Source `saRefocus::read_imgs_mtiff`, with `frames_` as the constructor
left it: the members `imgs` and `frames_` afterwards. The files are given in
sorted order. -/
def read_imgs_mtiff (ALL_FRAME_FLAG : ℤ) (num_cams_ : ℕ) (frames_ : List ℕ)
    (tiffs : List (List Img)) : Except SessionFatal (List (List (Option Img)) × List ℕ) :=
  if tiffs.length ≠ num_cams_ then .error .mtiff_count_mismatch
  else
    read_imgs_mtiff_loop
      (if ALL_FRAME_FLAG ≠ 0 then frames_ ++ List.range (tiffs.headD []).length else frames_)
      tiffs []

end Loading

end saRefocus

/-! ## Pixel-to-world maps -/

/-- Fields of `saRefocus` that hold the pose of the focal plane and the
matrices written by `updateHinv`. -/
structure saRefocusPose (α : Type) where
  INVERT_Y_FLAG : ℤ
  xs_ : α
  ys_ : α
  z_ : α
  D_ : Fin 3 → Fin 3 → α
  hinv_ : Fin 3 → Fin 3 → α

section MatOps

variable {α : Type} [LinearOrderedField α]

/-- Matrix product `A*B` of `cv::Mat`. -/
def cvMatMul {m n p : ℕ} (A : Fin m → Fin n → α) (B : Fin n → Fin p → α) : Fin m → Fin p → α :=
  fun i k => ∑ j, A i j * B j k

/-- Determinant of a 3x3 matrix. -/
def cvDet3 (A : Fin 3 → Fin 3 → α) : α :=
  A 0 0 * (A 1 1 * A 2 2 - A 1 2 * A 2 1)
    - A 0 1 * (A 1 0 * A 2 2 - A 1 2 * A 2 0)
    + A 0 2 * (A 1 0 * A 2 1 - A 1 1 * A 2 0)

/-- Inverse `A.inv()` of a 3x3 `cv::Mat` in exact arithmetic: the adjugate
divided by the determinant. For a singular matrix the result is the zero
matrix, as `inv` with the default method leaves it. -/
def cvInv3 (A : Fin 3 → Fin 3 → α) : Fin 3 → Fin 3 → α :=
  ![![(A 1 1 * A 2 2 - A 1 2 * A 2 1) / cvDet3 A,
      (A 0 2 * A 2 1 - A 0 1 * A 2 2) / cvDet3 A,
      (A 0 1 * A 1 2 - A 0 2 * A 1 1) / cvDet3 A],
    ![(A 1 2 * A 2 0 - A 1 0 * A 2 2) / cvDet3 A,
      (A 0 0 * A 2 2 - A 0 2 * A 2 0) / cvDet3 A,
      (A 0 2 * A 1 0 - A 0 0 * A 1 2) / cvDet3 A],
    ![(A 1 0 * A 2 1 - A 1 1 * A 2 0) / cvDet3 A,
      (A 0 1 * A 2 0 - A 0 0 * A 2 1) / cvDet3 A,
      (A 0 0 * A 1 1 - A 0 1 * A 1 0) / cvDet3 A]]

end MatOps

namespace saRefocus

section Maps

variable {α : Type} [LinearOrderedField α]

/-- Source `saRefocus::updateHinv`. -/
def updateHinv (s : saRefocusCalib α) (p : saRefocusPose α) : saRefocusPose α :=
  let D : Fin 3 → Fin 3 → α :=
    if p.INVERT_Y_FLAG ≠ 0 then
      ![![s.scale_, 0, (s.img_size_.1 : α) * (1 / 2)],
        ![0, -1 * s.scale_, (s.img_size_.2 : α) * (1 / 2)],
        ![0, 0, 1]]
    else
      ![![s.scale_, 0, (s.img_size_.1 : α) * (1 / 2)],
        ![0, s.scale_, (s.img_size_.2 : α) * (1 / 2)],
        ![0, 0, 1]]
  { p with D_ := D, hinv_ := cvInv3 D }

/-- The matrix `X` of `calc_refocus_H` after the corner assignments: column
`k` holds corner `k`, the third row stays 0. -/
def calc_refocus_H_corners (img_size_ : ℤ × ℤ) : Fin 3 → Fin 4 → α :=
  ![![0, ((img_size_.1 - 1 : ℤ) : α), ((img_size_.1 - 1 : ℤ) : α), 0],
    ![0, 0, ((img_size_.2 - 1 : ℤ) : α), ((img_size_.2 - 1 : ℤ) : α)],
    ![0, 0, 0, 0]]

/-- The matrix `X` of `calc_ref_refocus_H` after the corner assignments:
column `k` holds corner `k`, the third row stays 0. -/
def calc_ref_refocus_H_corners (img_size_ : ℤ × ℤ) : Fin 3 → Fin 4 → α :=
  ![![0, 0, ((img_size_.1 - 1 : ℤ) : α), ((img_size_.1 - 1 : ℤ) : α)],
    ![0, ((img_size_.2 - 1 : ℤ) : α), ((img_size_.2 - 1 : ℤ) : α), 0],
    ![0, 0, 0, 0]]

/-- The matrix `X` of `calc_refocus_H` after `X = hinv_*X`, the zeroing of
its third row and `X = R*X`, where `R` is the value of `getRotMat(rx_, ry_,
rz_)`. -/
def calc_refocus_H_plane (s : saRefocusCalib α) (p : saRefocusPose α)
    (R : Fin 3 → Fin 3 → α) : Fin 3 → Fin 4 → α :=
  cvMatMul R (fun i j =>
    if i = 2 then 0 else cvMatMul p.hinv_ (calc_refocus_H_corners s.img_size_) i j)

/-- The matrix `X2` of `calc_refocus_H`: the four world points, one per
column, in homogeneous coordinates. -/
def calc_refocus_H_points (s : saRefocusCalib α) (p : saRefocusPose α)
    (R : Fin 3 → Fin 3 → α) : Fin 4 → Fin 4 → α :=
  ![fun j => calc_refocus_H_plane s p R 0 j + p.xs_,
    fun j => calc_refocus_H_plane s p R 1 j + p.ys_,
    fun j => calc_refocus_H_plane s p R 2 j + p.z_,
    fun _ => 1]

/-- Source `saRefocus::calc_refocus_H`: the matrix written to `H`. The
library routine `findHomography(dp, sp, 0)` and the value `R` of `getRotMat`
are arguments. -/
def calc_refocus_H (findHomography : List (α × α) → List (α × α) → Fin 3 → Fin 3 → α)
    (s : saRefocusCalib α) (p : saRefocusPose α) (R : Fin 3 → Fin 3 → α) (cam : ℕ) :
    Option (Fin 3 → Fin 3 → α) :=
  match s.P_mats_[cam]? with
  | none => none
  | some P =>
    let X := calc_refocus_H_plane s p R
    let proj := cvMatMul P (calc_refocus_H_points s p R)
    let sp := List.ofFn (fun i : Fin 4 => (X 0 i, X 1 i))
    let dp := List.ofFn (fun i : Fin 4 => (proj 0 i / proj 2 i, proj 1 i / proj 2 i))
    some (cvMatMul p.D_ (findHomography dp sp))

/-- The matrix `X2` of `calc_ref_refocus_H`: the four world points handed to
`img_refrac`, one per column. -/
def calc_ref_refocus_H_points (s : saRefocusCalib α) (p : saRefocusPose α) :
    Fin 3 → Fin 4 → α :=
  ![fun j => cvMatMul p.hinv_ (calc_ref_refocus_H_corners s.img_size_) 0 j + p.xs_,
    fun j => cvMatMul p.hinv_ (calc_ref_refocus_H_corners s.img_size_) 1 j + p.ys_,
    fun j => cvMatMul p.hinv_ (calc_ref_refocus_H_corners s.img_size_) 2 j + p.z_]

/-- Source `saRefocus::calc_ref_refocus_H`: the matrix written to `H`. The
library routine `findHomography(dp, sp, 0)` is an argument. -/
def calc_ref_refocus_H (M : CMath α)
    (findHomography : List (α × α) → List (α × α) → Fin 3 → Fin 3 → α)
    (s : saRefocusCalib α) (p : saRefocusPose α) (cam : ℕ) : Option (Fin 3 → Fin 3 → α) :=
  match s.cam_locations_[cam]?, s.P_mats_[cam]? with
  | some c, some P =>
    let X := cvMatMul p.hinv_ (calc_ref_refocus_H_corners s.img_size_)
    let X2 := calc_ref_refocus_H_points s p
    let X_out := img_refrac M s c (List.ofFn (fun j : Fin 4 => fun i => X2 i j))
    let proj : Fin 4 → Fin 3 → α := fun j i => ∑ k, P i k * X_out.getD j 0 k
    let sp := List.ofFn (fun i : Fin 4 => (X 0 i, X 1 i))
    let dp := List.ofFn (fun i : Fin 4 => (proj i 0 / proj i 2, proj i 1 / proj i 2))
    some (cvMatMul p.D_ (findHomography dp sp))
  | _, _ => none

/-- The first pair of loops of `calc_ref_refocus_map`: starting from the zero
matrix, column `i*height+j` of `X` is written with `(i, j, 1)` for
`i < width`, `j < height`, in loop order. Columns are indexed by `ℕ`. -/
def calc_ref_refocus_map_grid (width height : ℕ) : ℕ → Fin 3 → α :=
  (List.range width).foldl (fun X i =>
    (List.range height).foldl (fun X j =>
      Function.update X (i * height + j) ![(i : α), (j : α), 1]) X) (fun _ _ => 0)

/-- The matrix `X` of `calc_ref_refocus_map` handed to `img_refrac`: the grid
multiplied by `hinv = D.inv()`, with the third row overwritten by `z`. -/
def calc_ref_refocus_map_points (s : saRefocusCalib α) (z : α) : ℕ → Fin 3 → α :=
  let D : Fin 3 → Fin 3 → α :=
    ![![s.scale_, 0, (s.img_size_.1 : α) * (1 / 2)],
      ![0, s.scale_, (s.img_size_.2 : α) * (1 / 2)],
      ![0, 0, 1]]
  let hinv := cvInv3 D
  fun k i =>
    if i = 2 then z
    else ∑ j, hinv i j * calc_ref_refocus_map_grid s.img_size_.1.toNat s.img_size_.2.toNat k j

/-- Source `saRefocus::calc_ref_refocus_map`: the maps `x` and `y` afterwards,
as functions of (row `j`, column `i`). Entries outside the image keep the
value passed in. -/
def calc_ref_refocus_map (M : CMath α) (s : saRefocusCalib α) (Xcam : Fin 3 → α) (z : α)
    (x y : ℕ → ℕ → α) (cam : ℕ) : Option ((ℕ → ℕ → α) × (ℕ → ℕ → α)) :=
  match s.P_mats_[cam]? with
  | none => none
  | some P =>
    let width := s.img_size_.1.toNat
    let height := s.img_size_.2.toNat
    let X_out := img_refrac M s Xcam
      ((List.range (height * width)).map (calc_ref_refocus_map_points s z))
    let proj : ℕ → Fin 3 → α := fun ind i => ∑ k, P i k * X_out.getD ind 0 k
    some (fun j i =>
            if i < width ∧ j < height then
              proj (i * height + j) 0 / proj (i * height + j) 2
            else x j i,
          fun j i =>
            if i < width ∧ j < height then
              proj (i * height + j) 1 / proj (i * height + j) 2
            else y j i)

end Maps

end saRefocus

/-! ## Specification-side notions and example inputs -/

/-- A value is the minimum of `f 0, .., f k`: a lower bound that is attained. -/
def IsMinUpTo {α : Type} [LinearOrderedField α] (f : ℕ → α) (k : ℕ) (m : α) : Prop :=
  (∀ i, i ≤ k → m ≤ f i) ∧ ∃ i, i ≤ k ∧ m = f i

/-- The power function on rationals for exponents that are natural numbers,
where `cv::pow` is repeated multiplication; 0 stands in elsewhere. Used for
evaluation only. -/
def ratPow (x p : ℚ) : ℚ :=
  if p.den = 1 ∧ 0 ≤ p.num then x ^ p.num.toNat else 0

/-- Library instance over the rationals used to evaluate the code on examples;
the NLCA kernels are not exercised by them. -/
def ratLib (rows cols : ℕ) : Lib rows cols ℚ where
  pow := ratPow
  sqrt := Rat.sqrt
  gpu_calc_nlca_image := fun _ refocused => refocused
  gpu_calc_nlca_image_fast := fun _ refocused => refocused

/-- Example session: two cameras, mean combiner, CPU pinhole path, absolute
threshold 0. -/
def exState : saRefocus ℚ where
  num_cams_ := 2
  mult_ := 0
  minlos_ := 0
  nlca_ := 0
  nlca_fast_ := 0
  mult_exp_ := 1
  thresh_ := 0
  fact_ := 1 / 2
  GPU_FLAG := 0
  REF_FLAG := 0
  CORNER_FLAG := 0
  STDEV_THRESH := 0
  BENCHMARK_MODE := 0

/-- Example warped views of one pixel: camera `i` sees `(i + 1) / 4`. -/
def exViews : ℕ → Mat 1 1 ℚ := fun i _ _ => ((i : ℚ) + 1) / 4

/-- Example of identical warped views of one pixel: every camera sees `1/2`. -/
def exSame : ℕ → Mat 1 1 ℚ := fun _ _ _ => 1 / 2

/-- Example session: four cameras, mult with exponent 1. -/
def exMult : saRefocus ℚ := { exState with num_cams_ := 4, mult_ := 1, fact_ := 1 / 4 }

/-- Example session: two cameras, minlos. -/
def exMin : saRefocus ℚ := { exState with minlos_ := 1 }

/-- Example session: two cameras, mult with exponent 1, refractive full-map
path (`REF_FLAG = 1`, `CORNER_FLAG = 0`). -/
def exMultFull : saRefocus ℚ := { exState with mult_ := 1, REF_FLAG := 1 }

/-- Example session: two cameras, minlos, refractive full-map path. -/
def exMinFull : saRefocus ℚ := { exState with minlos_ := 1, REF_FLAG := 1 }

/-- Example session: benchmark mode on, absolute threshold `9/10`, CPU pinhole
path. -/
def exBench : saRefocus ℚ := { exState with BENCHMARK_MODE := 1, thresh_ := 9 / 10 }

/-- Example session: refractive paths, absolute threshold `9/10`, benchmark
mode off. -/
def exRefThresh : saRefocus ℚ := { exState with REF_FLAG := 1, thresh_ := 9 / 10 }

/-- Example session: absolute mode with a negative threshold. -/
def exNegThresh : saRefocus ℚ := { exState with thresh_ := -1 / 2 }

/-- Example session: STDEV mode with factor 0. -/
def exStdev : saRefocus ℚ := { exState with STDEV_THRESH := 1, GPU_FLAG := 1, thresh_ := 0 }

/-- Example session: STDEV mode with factor `6/5`. -/
def exStdevFactor : saRefocus ℚ :=
  { exState with STDEV_THRESH := 1, GPU_FLAG := 1, thresh_ := 6 / 5 }

/-- Example image of two pixels, `0.501` and `0.5015`; both round to 128 on
the 8-bit scale. -/
def exClose : Mat 1 2 ℚ := fun _ c => if c.val = 0 then 501 / 1000 else 1003 / 2000

/-- Example image of two pixels, `99/255` and `100.3/255`; they round to 99
and 100 on the 8-bit scale. -/
def exStep : Mat 1 2 ℚ := fun _ c => if c.val = 0 then 99 / 255 else 1003 / 2550

/-- The image `exStep` after one STDEV threshold at factor `6/5`: the first
pixel is zeroed, the second kept. -/
def exStepOnce : Mat 1 2 ℚ := fun _ c => if c.val = 0 then 0 else 1003 / 2550

/-- Pixelwise linear combination `a * A + b * B` of two images. -/
def linComb {α : Type} [LinearOrderedField α] {rows cols : ℕ}
    (a : α) (A : Mat rows cols α) (b : α) (B : Mat rows cols α) : Mat rows cols α :=
  fun r c => a * A r c + b * B r c

/-- A per-camera warp that is a linear resampling operator: it commutes with
linear combinations of source images. -/
def IsLinearWarp {α : Type} [LinearOrderedField α] {rows cols : ℕ}
    (warp : ℕ → Mat rows cols α → Mat rows cols α) : Prop :=
  ∀ i a A b B, warp i (linComb a A b B) = linComb a (warp i A) b (warp i B)

/-- Example session: two cameras, mean combiner, absolute threshold `1/2`. -/
def exHalfThresh : saRefocus ℚ := { exState with thresh_ := 1 / 2 }

/-- Example session: two cameras, minlos, absolute threshold `1/2`. -/
def exHalfThreshMin : saRefocus ℚ := { exState with minlos_ := 1, thresh_ := 1 / 2 }

/-- Example warped views of two pixels: every camera sees `[1/4, 3/4]`. -/
def exQuarter : ℕ → Mat 1 2 ℚ := fun _ _ c => if c.val = 0 then 1 / 4 else 3 / 4

/-- The pair `(ra, rb)` after `k` passes of the Newton-Raphson update with no
`break`. -/
def nr_iterate {α : Type} [LinearOrderedField α] (M : CMath α) (q : NRParams α) :
    ℕ → α × α → α × α
  | 0, p => p
  | k + 1, p => nr_iterate M q k (saRefocus.nr_update M q p.1 p.2)

/-- The step size `res` of pass number `j` (counted from 0) when no earlier
pass has left the loop. -/
def nr_res_at {α : Type} [LinearOrderedField α] (M : CMath α) (q : NRParams α)
    (init : α × α) (j : ℕ) : α :=
  saRefocus.nr_res M q (nr_iterate M q j init).1 (nr_iterate M q j init).2

/-- The fixed quantities of the Newton-Raphson loop that `img_refrac` sets up
for the point `point` and camera centre `c` in session `s`. -/
def point_params {α : Type} [LinearOrderedField α] (M : CMath α) (s : saRefocusCalib α)
    (c point : Fin 3 → α) : NRParams α :=
  saRefocus.refrac_params M (s.geom 0) (s.geom 1) (s.geom 2) (s.geom 3) (s.geom 4) c point

/-- The initial guess `(ra, rb)` that `img_refrac` sets up for the point
`point` and camera centre `c` in session `s`. -/
def point_init {α : Type} [LinearOrderedField α] (M : CMath α) (s : saRefocusCalib α)
    (c point : Fin 3 → α) : α × α :=
  saRefocus.refrac_init M (s.geom 0) (s.geom 4) c point

/-- The properties of the real `sqrt`, `pow(., 1.5)`, `cos`, `sin` and `atan2`
that the theorems on `img_refrac` rely on: `sqrt x` is the non-negative root
of `x ≥ 0`, `pow(x, 1.5) = x * sqrt x`, and
`(x, y) = sqrt(x² + y²) * (cos φ, sin φ)` for `φ = atan2(y, x)`. -/
def CMath.IsReal {α : Type} [LinearOrderedField α] (M : CMath α) : Prop :=
  (∀ x, 0 ≤ x → 0 ≤ M.sqrt x ∧ M.sqrt x * M.sqrt x = x) ∧
  (∀ x, 0 ≤ x → M.pow15 x = x * M.sqrt x) ∧
  (∀ x y, M.cos (M.atan2 y x) * M.sqrt (x ^ 2 + y ^ 2) = x ∧
          M.sin (M.atan2 y x) * M.sqrt (x ^ 2 + y ^ 2) = y)

/-- Homogeneous coordinates `(v, 1)` of a 3D point. -/
def hom {α : Type} [LinearOrderedField α] (v : Fin 3 → α) : Fin 4 → α :=
  ![v 0, v 1, v 2, 1]

/-- Pinhole projection of the world point `X` through the 3×4 matrix `P`:
multiply the homogeneous point and divide by the third component. -/
def pinhole_project {α : Type} [LinearOrderedField α] (P : Fin 3 → Fin 4 → α)
    (X : Fin 3 → α) : Fin 2 → α :=
  ![(∑ j, P 0 j * hom X j) / (∑ j, P 2 j * hom X j),
    (∑ j, P 1 j * hom X j) / (∑ j, P 2 j * hom X j)]

/-- Example calibration state: one camera at `(0, 0, -10)` with matrix
`[I | -c]`, wall at `zW = 0` of thickness `t = 5`, all refractive indices 1,
tolerance `1e-9` and at most 20 iterations. -/
def exCalib (α : Type) [LinearOrderedField α] : saRefocusCalib α where
  img_size_ := (4, 4)
  scale_ := 1
  num_cams_ := 1
  fact_ := 1
  cam_names_ := ["cam0"]
  P_mats_ := [![![1, 0, 0, 0], ![0, 1, 0, 0], ![0, 0, 1, 10]]]
  cam_locations_ := [![0, 0, -10]]
  REF_FLAG := 1
  geom := ![0, 1, 1, 1, 5]
  IMG_REFRAC_TOL := 1 / 1000000000
  MAX_NR_ITERS := 20

/-- Example world point `(10, 5, 50)` behind the wall. -/
def exPoint (α : Type) [LinearOrderedField α] : Fin 3 → α := ![10, 5, 50]

/-- Example of a session before any calibration is loaded: no cameras. -/
def exFresh (α : Type) [LinearOrderedField α] : saRefocusCalib α where
  img_size_ := (0, 0)
  scale_ := 0
  num_cams_ := 0
  fact_ := 0
  cam_names_ := []
  P_mats_ := []
  cam_locations_ := []
  REF_FLAG := 0
  geom := fun _ => 0
  IMG_REFRAC_TOL := 1 / 1000000000
  MAX_NR_ITERS := 20

/-- Example calibration file: two cameras (the second name ends in a carriage
return), refractive flag 1 followed by `zW = 0`, `t = 5`, `n1 = 1`,
`n2 = 3/2`, `n3 = 133/100`. -/
def exFile (α : Type) [LinearOrderedField α] : CalibFile α where
  time_stamp := "t"
  avg_reproj_error_ := 0
  width := 4
  height := 4
  scale := 1
  cameras :=
    [{ cam_name := "cam0", P_mat := ![![1, 0, 0, 0], ![0, 1, 0, 0], ![0, 0, 1, 10]],
       loc := ![0, 0, -10] },
     { cam_name := "cam1\r", P_mat := ![![1, 0, 0, -1], ![0, 1, 0, 0], ![0, 0, 1, 10]],
       loc := ![1, 0, -10] }]
  ref_flag := 1
  ref_values := ![0, 5, 1, 3 / 2, 133 / 100]

/-- Number of depths `zmin + k*dz`, `k ≥ 0`, that do not exceed `bound`, for
`dz > 0`. -/
def depth_count {α : Type} [LinearOrderedField α] [FloorRing α] (zmin bound dz : α) : ℕ :=
  if zmin ≤ bound then ⌊(bound - zmin) / dz⌋₊ + 1 else 0

/-- Example C math over ℚ for the Newton-Raphson step: the exact square root
and `pow(x, 1.5) = x * sqrt x`; the step does not call the other three
functions. -/
def exMath : CMath ℚ where
  sqrt := Rat.sqrt
  pow15 := fun x => x * Rat.sqrt x
  cos := fun _ => 1
  sin := fun _ => 0
  atan2 := fun _ _ => 0

/-- Example Newton-Raphson parameters: indices `1, 2, 1`, `rp = 9` and
`da = db = dp = 4`, so that at `(ra, rb) = (3, 6)` every square root is 5. -/
def exParams : NRParams ℚ where
  n1_ := 1
  n2_ := 2
  n3_ := 1
  rp := 9
  dp := 4
  da := 4
  db := 4

/-- Number of composition flags that are non-zero. -/
def mode_count {α : Type} (s : saRefocusModes α) : ℕ :=
  (if s.mult_ ≠ 0 then 1 else 0) + (if s.minlos_ ≠ 0 then 1 else 0)
    + (if s.nlca_ ≠ 0 then 1 else 0) + (if s.nlca_fast_ ≠ 0 then 1 else 0)

/-- Exclusivity of the composition mode: at most one of `mult_`, `minlos_`,
`nlca_`, `nlca_fast_` is non-zero. -/
def ExclusiveModes {α : Type} (s : saRefocusModes α) : Prop :=
  mode_count s ≤ 1

/-- Example mode state: four cameras, images of 64 x 48 pixels, no flag set,
window 16. -/
def exModes : saRefocusModes ℚ where
  num_cams_ := 4
  img_size_ := (64, 48)
  mult_ := 0
  minlos_ := 0
  nlca_ := 0
  nlca_fast_ := 0
  mult_exp_ := 1
  delta_ := 1 / 10
  nlca_win_ := 16

/-- Example mode state with minimum line of sight selected. -/
def exModesMinlos : saRefocusModes ℚ := { exModes with minlos_ := 1 }

/-- Example camera folders: two cameras with five images each, named `f0` to
`f4`; image `k` of camera 0 is `k`, image `k` of camera 1 is `10 + k`. -/
def exDirs : List (List (String × ℕ)) :=
  [[("f0", 0), ("f1", 1), ("f2", 2), ("f3", 3), ("f4", 4)],
   [("f0", 10), ("f1", 11), ("f2", 12), ("f3", 13), ("f4", 14)]]

/-- Example multi-page files: two cameras with five pages each; page `k` of
camera 0 is `k`, page `k` of camera 1 is `10 + k`. -/
def exTiffs : List (List ℕ) :=
  [[0, 1, 2, 3, 4], [10, 11, 12, 13, 14]]

/-- Example session on the GPU backend. -/
def exGpu : saRefocus ℚ := { exState with GPU_FLAG := 1 }

/-- Image that `refocus` reads for camera `cam` when `dump_stack` is at
position `f`: entry `dump_stack_source s frames_ f` of the images loaded for
that camera, or `none` when that index is not valid. -/
def dump_stack_image {α Img : Type} [LinearOrderedField α] (s : saRefocus α)
    (loaded : List (List (Option Img)) × List ℕ) (cam f : ℕ) : Option Img :=
  ((loaded.1.getD cam [])[saRefocus.dump_stack_source s loaded.2 f]?).join

/-- Example pose before `updateHinv`: focal plane at depth 7, no shift, y axis
not inverted, matrices not yet computed. -/
def exPose0 (α : Type) [LinearOrderedField α] : saRefocusPose α where
  INVERT_Y_FLAG := 0
  xs_ := 0
  ys_ := 0
  z_ := 7
  D_ := fun _ _ => 0
  hinv_ := fun _ _ => 0

/-- Example pose with `D_` and `hinv_` as `updateHinv` computes them for the
example calibration (4 x 4 pixels, scale 1). -/
def exPose (α : Type) [LinearOrderedField α] : saRefocusPose α :=
  saRefocus.updateHinv (exCalib α) (exPose0 α)

/-- The rotation matrix of zero rotation: the identity. -/
def rot_zero (α : Type) [LinearOrderedField α] : Fin 3 → Fin 3 → α :=
  fun i j => if i = j then 1 else 0

/-- World point of the destination pixel at column `i` and row `j` in full
mode: `((i - W/2)/scale, (j - H/2)/scale, z)`. -/
def full_mode_point {α : Type} [LinearOrderedField α] (s : saRefocusCalib α) (z : α)
    (i j : ℕ) : Fin 3 → α :=
  ![((i : α) - (s.img_size_.1 : α) / 2) / s.scale_,
    ((j : α) - (s.img_size_.2 : α) / 2) / s.scale_, z]

/-- The product `P * a` for `a = img_refrac(Xcam, point)`. -/
def refracted_projection {α : Type} [LinearOrderedField α] (M : CMath α)
    (s : saRefocusCalib α) (Xcam : Fin 3 → α) (P : Fin 3 → Fin 4 → α) (point : Fin 3 → α) :
    Fin 3 → α :=
  fun r => ∑ k, P r k * (saRefocus.img_refrac_point M s Xcam point).X_out k

/-- The first Snell equation as the specification writes it:
`f(ra,rb) = ra/√(ra²+da²) − (n2/n1)·(rb−ra)/√((rb−ra)²+db²)`. -/
def snell_f_spec {α : Type} [LinearOrderedField α] (sqrt : α → α) (n1 n2 da db ra rb : α) : α :=
  ra / sqrt (ra ^ 2 + da ^ 2) - (n2 / n1) * ((rb - ra) / sqrt ((rb - ra) ^ 2 + db ^ 2))

/-- The second Snell equation as the specification writes it:
`g(ra,rb) = (rb−ra)/√((rb−ra)²+db²) − (n3/n2)·(rp−rb)/√((rp−rb)²+dp²)`. -/
def snell_g_spec {α : Type} [LinearOrderedField α] (sqrt : α → α)
    (n2 n3 db dp rp ra rb : α) : α :=
  (rb - ra) / sqrt ((rb - ra) ^ 2 + db ^ 2)
    - (n3 / n2) * ((rp - rb) / sqrt ((rp - rb) ^ 2 + dp ^ 2))

/-- Example session: STDEV mode with factor 0 and minimum line of sight. -/
def exStdevMin : saRefocus ℚ := { exStdev with minlos_ := 1 }

/-- Example warped views of two pixels with intensities in `[0,1]`: both
cameras see `2/5` at the first pixel; at the second pixel camera 0 sees 0 and
the other cameras see `9/10`. -/
def exSparse : ℕ → Mat 1 2 ℚ :=
  fun i _ c => if c.val = 0 then 2 / 5 else if i = 0 then 0 else 9 / 10

/-- Example of a session that has already loaded two cameras named `a` and
`b`. -/
def exLoaded (α : Type) [LinearOrderedField α] : saRefocusCalib α :=
  { exFresh α with
    num_cams_ := 2
    cam_names_ := ["a", "b"]
    P_mats_ := [fun _ _ => 0, fun _ _ => 0]
    cam_locations_ := [fun _ => 0, fun _ => 0] }

/-- Example calibration file with two cameras that are both named `c`. -/
def exFileSameName (α : Type) [LinearOrderedField α] : CalibFile α :=
  { exFile α with
    cameras :=
      [{ cam_name := "c", P_mat := fun _ _ => 0, loc := fun _ => 0 },
       { cam_name := "c", P_mat := fun _ _ => 0, loc := fun _ => 0 }] }

/-! ## Theorems -/

section Theorems

variable {α : Type} [LinearOrderedField α] {rows cols : ℕ}

open saRefocus

/-- Mean mode: after cameras `0..k` the CPU pinhole accumulator is the sum of
the scaled views. -/
theorem CPUrefocus_mean_fold (pw : α → α → α) (s : saRefocus α) (W : ℕ → Mat rows cols α)
    (hmult : s.mult_ = 0) (hmin : s.minlos_ = 0) (k : ℕ) :
    (List.range' 1 k).foldl (CPUrefocus_body pw s W) (CPUrefocus_init pw s W)
      = fun r c => ∑ i in Finset.range (k + 1), W i r c * (1 / (s.num_cams_ : α)) := by
  induction k with
  | zero =>
    funext r c
    simp [CPUrefocus_init, hmult, hmin, cvScale]
  | succ k ih =>
    rw [List.range'_concat, List.foldl_append, ih]
    funext r c
    rw [Finset.sum_range_succ _ (k + 1)]
    simp [CPUrefocus_body, hmult, hmin, cvAdd, cvScale, Nat.add_comm 1 k]

/-- Mean mode: after cameras `0..k` the accumulator of the refractive corner
path is the sum of the divided views. -/
theorem CPUrefocus_ref_corner_mean_fold (pw : α → α → α) (s : saRefocus α)
    (W : ℕ → Mat rows cols α) (hmult : s.mult_ = 0) (hmin : s.minlos_ = 0) (k : ℕ) :
    (List.range' 1 k).foldl (CPUrefocus_ref_corner_body pw s W)
        (CPUrefocus_ref_corner_init pw s W)
      = fun r c => ∑ i in Finset.range (k + 1), W i r c / (s.num_cams_ : α) := by
  induction k with
  | zero =>
    funext r c
    simp [CPUrefocus_ref_corner_init, hmult, hmin, cvDivide]
  | succ k ih =>
    rw [List.range'_concat, List.foldl_append, ih]
    funext r c
    rw [Finset.sum_range_succ _ (k + 1)]
    simp [CPUrefocus_ref_corner_body, hmult, hmin, cvAdd, cvDivide, Nat.add_comm 1 k]

/-- Mult mode: after cameras `0..k` the CPU pinhole accumulator is the product
of the powered views. -/
theorem CPUrefocus_mult_fold (pw : α → α → α) (s : saRefocus α) (W : ℕ → Mat rows cols α)
    (hmult : s.mult_ ≠ 0) (k : ℕ) :
    (List.range' 1 k).foldl (CPUrefocus_body pw s W) (CPUrefocus_init pw s W)
      = fun r c => ∏ i in Finset.range (k + 1), pw (W i r c) s.mult_exp_ := by
  induction k with
  | zero =>
    funext r c
    simp [CPUrefocus_init, hmult, cvPow]
  | succ k ih =>
    rw [List.range'_concat, List.foldl_append, ih]
    funext r c
    rw [Finset.prod_range_succ _ (k + 1)]
    simp [CPUrefocus_body, hmult, cvMultiply, cvPow, Nat.add_comm 1 k]

/-- Mult mode: after cameras `0..k` the accumulator of the refractive corner
path is the product of the powered views. -/
theorem CPUrefocus_ref_corner_mult_fold (pw : α → α → α) (s : saRefocus α)
    (W : ℕ → Mat rows cols α) (hmult : s.mult_ ≠ 0) (k : ℕ) :
    (List.range' 1 k).foldl (CPUrefocus_ref_corner_body pw s W)
        (CPUrefocus_ref_corner_init pw s W)
      = fun r c => ∏ i in Finset.range (k + 1), pw (W i r c) s.mult_exp_ := by
  induction k with
  | zero =>
    funext r c
    simp [CPUrefocus_ref_corner_init, hmult, cvPow]
  | succ k ih =>
    rw [List.range'_concat, List.foldl_append, ih]
    funext r c
    rw [Finset.prod_range_succ _ (k + 1)]
    simp [CPUrefocus_ref_corner_body, hmult, cvMultiply, cvPow, Nat.add_comm 1 k]

/-- Taking the minimum with the next value extends `IsMinUpTo` by one index. -/
theorem IsMinUpTo.step {f : ℕ → α} {k : ℕ} {m : α} (h : IsMinUpTo f k m) :
    IsMinUpTo f (k + 1) (min m (f (k + 1))) := by
  obtain ⟨hle, j, hj, hmj⟩ := h
  refine ⟨fun i hi => ?_, ?_⟩
  · rcases Nat.lt_or_ge i (k + 1) with hlt | hge
    · exact le_trans (min_le_left _ _) (hle i (Nat.lt_succ_iff.mp hlt))
    · have : i = k + 1 := le_antisymm hi hge
      subst this
      exact min_le_right _ _
  · rcases le_total m (f (k + 1)) with hm | hm
    · exact ⟨j, Nat.le_succ_of_le hj, by rw [min_eq_left hm, hmj]⟩
    · exact ⟨k + 1, le_refl _, by rw [min_eq_right hm]⟩

/-- MinLoS mode: after cameras `0..k` every pixel of the CPU pinhole
accumulator is the minimum of that pixel over the views. -/
theorem CPUrefocus_min_fold (pw : α → α → α) (s : saRefocus α) (W : ℕ → Mat rows cols α)
    (hmult : s.mult_ = 0) (hmin : s.minlos_ ≠ 0) (r : Fin rows) (c : Fin cols) (k : ℕ) :
    IsMinUpTo (fun i => W i r c) k
      ((List.range' 1 k).foldl (CPUrefocus_body pw s W) (CPUrefocus_init pw s W) r c) := by
  induction k with
  | zero =>
    refine ⟨fun i hi => ?_, 0, le_refl _, ?_⟩
    · have : i = 0 := Nat.le_zero.mp hi
      subst this
      simp [CPUrefocus_init, hmult, hmin]
    · simp [CPUrefocus_init, hmult, hmin]
  | succ k ih =>
    rw [List.range'_concat, List.foldl_append]
    have h := ih.step
    simpa [CPUrefocus_body, hmult, hmin, cvMin, Nat.add_comm 1 k, min_comm] using h

/-- MinLoS mode: after cameras `0..k` every pixel of the accumulator of the
refractive corner path is the minimum of that pixel over the views. -/
theorem CPUrefocus_ref_corner_min_fold (pw : α → α → α) (s : saRefocus α)
    (W : ℕ → Mat rows cols α) (hmult : s.mult_ = 0) (hmin : s.minlos_ ≠ 0)
    (r : Fin rows) (c : Fin cols) (k : ℕ) :
    IsMinUpTo (fun i => W i r c) k
      ((List.range' 1 k).foldl (CPUrefocus_ref_corner_body pw s W)
        (CPUrefocus_ref_corner_init pw s W) r c) := by
  induction k with
  | zero =>
    refine ⟨fun i hi => ?_, 0, le_refl _, ?_⟩
    · have : i = 0 := Nat.le_zero.mp hi
      subst this
      simp [CPUrefocus_ref_corner_init, hmult, hmin]
    · simp [CPUrefocus_ref_corner_init, hmult, hmin]
  | succ k ih =>
    rw [List.range'_concat, List.foldl_append]
    have h := ih.step
    simpa [CPUrefocus_ref_corner_body, hmult, hmin, cvMin, Nat.add_comm 1 k] using h

/-- C1: with none of mult/minlos/nlca/nlca_fast active and `N ≥ 1` cameras,
the image `CPUrefocus` has built before thresholding, and the image
`CPUrefocus_ref_corner` builds, equal `(1/N) * Σ_i W_i` at every pixel. -/
theorem C1_mean_is_average (pw : α → α → α) (s : saRefocus α) (W : ℕ → Mat rows cols α)
    (hN : 1 ≤ s.num_cams_) (hmult : s.mult_ = 0) (hmin : s.minlos_ = 0)
    (_hnlca : s.nlca_ = 0) (_hfast : s.nlca_fast_ = 0) :
    (∀ r c, CPUrefocus_combined pw s W r c
        = (1 / (s.num_cams_ : α)) * ∑ i in Finset.range s.num_cams_, W i r c) ∧
    (∀ r c, CPUrefocus_ref_corner pw s W r c
        = (1 / (s.num_cams_ : α)) * ∑ i in Finset.range s.num_cams_, W i r c) := by
  have hk : s.num_cams_ - 1 + 1 = s.num_cams_ := Nat.sub_add_cancel hN
  constructor
  · intro r c
    unfold CPUrefocus_combined
    rw [CPUrefocus_mean_fold pw s W hmult hmin, hk, Finset.mul_sum]
    exact Finset.sum_congr rfl (fun i _ => mul_comm _ _)
  · intro r c
    unfold CPUrefocus_ref_corner
    rw [CPUrefocus_ref_corner_mean_fold pw s W hmult hmin, hk, Finset.mul_sum]
    exact Finset.sum_congr rfl (fun i _ => by rw [div_eq_mul_one_div, mul_comm])

/-- C1 at two cameras seeing `1/4` and `1/2`: the mean is `3/8`. -/
theorem C1_mean_is_average_witness :
    1 ≤ exState.num_cams_ ∧
    ((∀ r c, CPUrefocus_combined ratPow exState exViews r c
        = (1 / (exState.num_cams_ : ℚ)) * ∑ i in Finset.range exState.num_cams_, exViews i r c) ∧
     (∀ r c, CPUrefocus_ref_corner ratPow exState exViews r c
        = (1 / (exState.num_cams_ : ℚ)) * ∑ i in Finset.range exState.num_cams_, exViews i r c)) :=
  ⟨by decide, C1_mean_is_average ratPow exState exViews (by decide) rfl rfl rfl rfl⟩

/-- C2: with mult active, exponent `p` and `N ≥ 1` cameras, the pre-threshold
image of `CPUrefocus` and the image of `CPUrefocus_ref_corner` are, at every
pixel, the un-normalised product over the cameras of `pow(W_i, p)`; when
moreover `p = 1` (where `pow(x, 1) = x`) and the four views are one image `V`,
the result is `V^4` at every pixel. -/
theorem C2_mult_is_product (pw : α → α → α) (s : saRefocus α) (W : ℕ → Mat rows cols α)
    (hN : 1 ≤ s.num_cams_) (hmult : s.mult_ ≠ 0) :
    (∀ r c, CPUrefocus_combined pw s W r c
        = ∏ i in Finset.range s.num_cams_, pw (W i r c) s.mult_exp_) ∧
    (∀ r c, CPUrefocus_ref_corner pw s W r c
        = ∏ i in Finset.range s.num_cams_, pw (W i r c) s.mult_exp_) ∧
    (∀ V : Mat rows cols α, (∀ x, pw x 1 = x) → s.mult_exp_ = 1 → s.num_cams_ = 4 →
        (∀ i, i < 4 → W i = V) →
        ∀ r c, CPUrefocus_combined pw s W r c = V r c ^ 4 ∧
               CPUrefocus_ref_corner pw s W r c = V r c ^ 4) := by
  have hk : s.num_cams_ - 1 + 1 = s.num_cams_ := Nat.sub_add_cancel hN
  have h1 : ∀ r c, CPUrefocus_combined pw s W r c
      = ∏ i in Finset.range s.num_cams_, pw (W i r c) s.mult_exp_ := by
    intro r c
    unfold CPUrefocus_combined
    rw [CPUrefocus_mult_fold pw s W hmult, hk]
  have h2 : ∀ r c, CPUrefocus_ref_corner pw s W r c
      = ∏ i in Finset.range s.num_cams_, pw (W i r c) s.mult_exp_ := by
    intro r c
    unfold CPUrefocus_ref_corner
    rw [CPUrefocus_ref_corner_mult_fold pw s W hmult, hk]
  refine ⟨h1, h2, ?_⟩
  intro V hpw hp hfour hV r c
  have hprod : ∏ i in Finset.range s.num_cams_, pw (W i r c) s.mult_exp_ = V r c ^ 4 := by
    rw [hfour, hp]
    have : ∀ i ∈ Finset.range 4, pw (W i r c) 1 = V r c := by
      intro i hi
      rw [hpw, hV i (Finset.mem_range.mp hi)]
    rw [Finset.prod_congr rfl this, Finset.prod_const, Finset.card_range]
  exact ⟨(h1 r c).trans hprod, (h2 r c).trans hprod⟩

/-- C3: with minlos active, mult off and `N ≥ 1` cameras, every pixel of the
pre-threshold image of `CPUrefocus` and of the image of `CPUrefocus_ref_corner`
is the minimum over the cameras of `W_i` at that pixel: it is below every
`W_i` and equal to one of them. -/
theorem C3_minlos_is_minimum (pw : α → α → α) (s : saRefocus α) (W : ℕ → Mat rows cols α)
    (hN : 1 ≤ s.num_cams_) (hmult : s.mult_ = 0) (hmin : s.minlos_ ≠ 0) :
    ∀ r c,
      ((∀ i, i < s.num_cams_ → CPUrefocus_combined pw s W r c ≤ W i r c) ∧
        ∃ i, i < s.num_cams_ ∧ CPUrefocus_combined pw s W r c = W i r c) ∧
      ((∀ i, i < s.num_cams_ → CPUrefocus_ref_corner pw s W r c ≤ W i r c) ∧
        ∃ i, i < s.num_cams_ ∧ CPUrefocus_ref_corner pw s W r c = W i r c) := by
  intro r c
  have hlt : ∀ i, i < s.num_cams_ ↔ i ≤ s.num_cams_ - 1 := fun i => by omega
  obtain ⟨ha, j, hj, hja⟩ := CPUrefocus_min_fold pw s W hmult hmin r c (s.num_cams_ - 1)
  obtain ⟨hb, k, hk, hkb⟩ :=
    CPUrefocus_ref_corner_min_fold pw s W hmult hmin r c (s.num_cams_ - 1)
  exact ⟨⟨fun i hi => ha i ((hlt i).mp hi), j, (hlt j).mpr hj, hja⟩,
    ⟨fun i hi => hb i ((hlt i).mp hi), k, (hlt k).mpr hk, hkb⟩⟩

/-- The rational power used in the examples is the identity at exponent 1. -/
theorem ratPow_one (x : ℚ) : ratPow x 1 = x := by
  simp [ratPow]

/-- C2 at four cameras all seeing `1/2`, exponent 1: the result is
`(1/2)^4`. -/
theorem C2_mult_is_product_witness :
    1 ≤ exMult.num_cams_ ∧ exMult.mult_ ≠ 0 ∧
    ∀ r c, CPUrefocus_combined ratPow exMult exSame r c = exSame 0 r c ^ 4 ∧
           CPUrefocus_ref_corner ratPow exMult exSame r c = exSame 0 r c ^ 4 :=
  ⟨by decide, by decide,
    (C2_mult_is_product ratPow exMult exSame (by decide) (by decide)).2.2 (exSame 0)
      ratPow_one rfl rfl (fun _ _ => rfl)⟩

/-- C3 at two cameras seeing `1/4` and `1/2`. -/
theorem C3_minlos_is_minimum_witness :
    1 ≤ exMin.num_cams_ ∧ exMin.mult_ = 0 ∧ exMin.minlos_ ≠ 0 ∧
    ∀ r c,
      ((∀ i, i < exMin.num_cams_ → CPUrefocus_combined ratPow exMin exViews r c ≤ exViews i r c) ∧
        ∃ i, i < exMin.num_cams_ ∧ CPUrefocus_combined ratPow exMin exViews r c = exViews i r c) ∧
      ((∀ i, i < exMin.num_cams_ →
          CPUrefocus_ref_corner ratPow exMin exViews r c ≤ exViews i r c) ∧
        ∃ i, i < exMin.num_cams_ ∧
          CPUrefocus_ref_corner ratPow exMin exViews r c = exViews i r c) :=
  ⟨by decide, rfl, by decide,
    C3_minlos_is_minimum ratPow exMin exViews (by decide) rfl (by decide)⟩

/-- C4 (evaluation at the failing inputs): with mult on, exponent 1 and two
views equal to `1/2`, `CPUrefocus_ref` and `GPUrefocus_ref` return the mean
`1/2`, not the product `1/4`; with minlos on and views `1/4`, `1/2` they return
the mean `3/8`, not the minimum `1/4`. -/
theorem C4_full_map_paths_ignore_mode :
    (exMultFull.mult_ ≠ 0 ∧
      CPUrefocus_ref exMultFull exSame 0 0 = 1 / 2 ∧
      GPUrefocus_ref (ratLib 1 1) exMultFull exSame 0 0 = 1 / 2 ∧
      ∏ i in Finset.range exMultFull.num_cams_, ratPow (exSame i 0 0) exMultFull.mult_exp_
        = 1 / 4) ∧
    (exMinFull.minlos_ ≠ 0 ∧ exMinFull.mult_ = 0 ∧
      CPUrefocus_ref exMinFull exViews 0 0 = 3 / 8 ∧
      GPUrefocus_ref (ratLib 1 1) exMinFull exViews 0 0 = 3 / 8 ∧
      min (exViews 0 0 0) (exViews 1 0 0) = 1 / 4) := by
  refine ⟨⟨by decide, ?_, ?_, ?_⟩, ⟨by decide, rfl, ?_, ?_, ?_⟩⟩
  · norm_num [CPUrefocus_ref, exMultFull, exState, exSame, cvAdd, cvDivide, List.range']
  · norm_num [GPUrefocus_ref, GPUrefocus_ref_combined, threshold_image, cvThresholdToZero,
      exMultFull, exState, exSame, cvAdd, cvScale, blank, List.range_succ]
  · norm_num [exMultFull, exState, exSame, ratPow_one, Finset.prod_range_succ]
  · norm_num [CPUrefocus_ref, exMinFull, exState, exViews, cvAdd, cvDivide, List.range']
  · norm_num [GPUrefocus_ref, GPUrefocus_ref_combined, threshold_image, cvThresholdToZero,
      exMinFull, exState, exViews, cvAdd, cvScale, blank, List.range_succ]
  · norm_num [exViews]

/-- The to-zero threshold applied twice at the same level is the to-zero
threshold applied once. -/
theorem cvThresholdToZero_idem (A : Mat rows cols α) (t : α) :
    cvThresholdToZero (cvThresholdToZero A t) t = cvThresholdToZero A t := by
  funext r c
  by_cases h : A r c > t
  · simp [cvThresholdToZero, h]
  · simp [cvThresholdToZero, h]

/-- In STDEV mode `threshold_image` is the to-zero threshold at
`stdev_cutoff`. -/
theorem threshold_image_stdev [FloorRing α] (L : Lib rows cols α) (s : saRefocus α)
    (R : Mat rows cols α) (h : s.STDEV_THRESH ≠ 0) :
    threshold_image L s R = cvThresholdToZero R (stdev_cutoff L s R) := by
  simp [threshold_image, stdev_cutoff, h]

/-- In absolute mode `threshold_image` is the to-zero threshold at `thresh_`. -/
theorem threshold_image_abs [FloorRing α] (L : Lib rows cols α) (s : saRefocus α)
    (R : Mat rows cols α) (h : s.STDEV_THRESH = 0) :
    threshold_image L s R = cvThresholdToZero R s.thresh_ := by
  simp [threshold_image, h]

/-- The camera loops read no threshold: replacing `thresh_` leaves the
combined image of every path unchanged. -/
theorem refocus_combined_set_thresh [FloorRing α] (L : Lib rows cols α) (s : saRefocus α)
    (W : ℕ → Mat rows cols α) (thresh : α) :
    refocus_combined L (refocus_set_thresh s thresh) W = refocus_combined L s W := by
  rfl

/-- On the CPU pinhole path, and on the GPU paths without NLCA and with
benchmark mode off, absolute-mode `refocus` is the to-zero threshold of the
combined image at `thresh / 255`. -/
theorem refocus_abs_eq [FloorRing α] (L : Lib rows cols α) (s : saRefocus α)
    (W : ℕ → Mat rows cols α) (thresh : α) (habs : s.STDEV_THRESH = 0)
    (hpath : (s.GPU_FLAG = 0 ∧ s.REF_FLAG = 0) ∨
      (s.GPU_FLAG ≠ 0 ∧ s.nlca_ = 0 ∧ s.nlca_fast_ = 0 ∧ s.BENCHMARK_MODE = 0)) :
    refocus L s W thresh = cvThresholdToZero (refocus_combined L s W) (thresh / 255) := by
  rw [← refocus_combined_set_thresh L s W thresh]
  have habs1 : (refocus_set_thresh s thresh).STDEV_THRESH = 0 := habs
  have hth : (refocus_set_thresh s thresh).thresh_ = thresh / 255 := by
    simp [refocus_set_thresh, habs]
  rcases hpath with ⟨hg, hr⟩ | ⟨hg, hn, hf, hb⟩
  · have hg1 : (refocus_set_thresh s thresh).GPU_FLAG = 0 := hg
    have hr1 : (refocus_set_thresh s thresh).REF_FLAG = 0 := hr
    simp only [refocus, refocus_combined, hg1, hr1, ne_eq, not_true_eq_false, if_false,
      CPUrefocus, hth]
  · have hg1 : (refocus_set_thresh s thresh).GPU_FLAG ≠ 0 := hg
    have hn1 : (refocus_set_thresh s thresh).nlca_ = 0 := hn
    have hf1 : (refocus_set_thresh s thresh).nlca_fast_ = 0 := hf
    have hb1 : (refocus_set_thresh s thresh).BENCHMARK_MODE = 0 := hb
    simp only [refocus, refocus_combined, GPUrefocus, GPUrefocus_ref, GPUrefocus_ref_corner,
      GPUrefocus_finish, hg1, hn1, hf1, hb1, ne_eq, not_true_eq_false, not_false_eq_true,
      if_true, if_false, threshold_image_abs L _ _ habs1, hth]
    split_ifs <;> rfl

/-- C5 (counterexample): absolute mode, CPU pinhole path, two views equal to
`1/2`, thresh `3/5` read as a fraction of full scale. The combined pixel `1/2`
is below `3/5`, yet `refocus` returns it unchanged: the cut-off it used is
`(3/5)/255`. -/
theorem C5_counterexample :
    exState.STDEV_THRESH = 0 ∧ (0 : ℚ) ≤ 3 / 5 ∧ (3 / 5 : ℚ) ≤ 1 ∧
    refocus_combined (ratLib 1 1) exState exSame 0 0 < 3 / 5 ∧
    refocus (ratLib 1 1) exState exSame (3 / 5) 0 0 = 1 / 2 ∧
    refocus (ratLib 1 1) exState exSame (3 / 5) 0 0 ≠ 0 := by
  have hc : refocus_combined (ratLib 1 1) exState exSame 0 0 = 1 / 2 := by
    norm_num [refocus_combined, CPUrefocus_combined, CPUrefocus_init, CPUrefocus_body,
      exState, exSame, cvAdd, cvScale, List.range']
  have hr : refocus (ratLib 1 1) exState exSame (3 / 5) 0 0 = 1 / 2 := by
    rw [refocus_abs_eq _ _ _ _ rfl (Or.inl ⟨rfl, rfl⟩)]
    simp only [cvThresholdToZero, hc]
    norm_num
  refine ⟨rfl, by norm_num, by norm_num, ?_, hr, ?_⟩
  · rw [hc]; norm_num
  · rw [hr]; norm_num

/-- C5 (amended): in absolute mode (`STDEV_THRESH = 0`), on the CPU pinhole
path and on the GPU paths with no NLCA mode and benchmark mode off,
`refocus(z, rx, ry, rz, thresh, frame)` returns the combined image with
exactly the pixels whose value is not above `thresh / 255` set to zero and
every other pixel unchanged. -/
theorem C5_absolute_threshold_scaled [FloorRing α] (L : Lib rows cols α) (s : saRefocus α)
    (W : ℕ → Mat rows cols α) (thresh : α) (habs : s.STDEV_THRESH = 0)
    (hpath : (s.GPU_FLAG = 0 ∧ s.REF_FLAG = 0) ∨
      (s.GPU_FLAG ≠ 0 ∧ s.nlca_ = 0 ∧ s.nlca_fast_ = 0 ∧ s.BENCHMARK_MODE = 0)) :
    ∀ r c,
      (refocus_combined L s W r c ≤ thresh / 255 → refocus L s W thresh r c = 0) ∧
      (thresh / 255 < refocus_combined L s W r c →
        refocus L s W thresh r c = refocus_combined L s W r c) := by
  intro r c
  rw [refocus_abs_eq L s W thresh habs hpath]
  constructor
  · intro h
    simp [cvThresholdToZero, not_lt.mpr h]
  · intro h
    simp [cvThresholdToZero, h]

/-- C5 (amended) at two views equal to `1/2` and thresh 153 on the 0..255
scale, i.e. cut-off `3/5`. -/
theorem C5_absolute_threshold_scaled_witness :
    exState.STDEV_THRESH = 0 ∧
    ((exState.GPU_FLAG = 0 ∧ exState.REF_FLAG = 0) ∨
      (exState.GPU_FLAG ≠ 0 ∧ exState.nlca_ = 0 ∧ exState.nlca_fast_ = 0 ∧
        exState.BENCHMARK_MODE = 0)) ∧
    ∀ r c,
      (refocus_combined (ratLib 1 1) exState exSame r c ≤ 153 / 255 →
        refocus (ratLib 1 1) exState exSame 153 r c = 0) ∧
      (153 / 255 < refocus_combined (ratLib 1 1) exState exSame r c →
        refocus (ratLib 1 1) exState exSame 153 r c
          = refocus_combined (ratLib 1 1) exState exSame r c) :=
  ⟨rfl, Or.inl ⟨rfl, rfl⟩,
    C5_absolute_threshold_scaled (ratLib 1 1) exState exSame 153 rfl (Or.inl ⟨rfl, rfl⟩)⟩

/-- Rounding a value in the lower half of `[n, n+1)` gives `n`. -/
theorem cvRound_of_lt_half [FloorRing α] (x : α) (n : ℤ) (h1 : (n : α) ≤ x)
    (h2 : x < (n : α) + 1 / 2) : cvRound x = n := by
  have hfl : ⌊x⌋ = n := by
    rw [Int.floor_eq_iff]
    exact ⟨h1, by linarith⟩
  have hd : x - (n : α) < 1 / 2 := by linarith
  simp only [cvRound, hfl]
  rw [if_pos hd]

/-- Rounding a value in the upper half of `[n, n+1)` gives `n + 1`. -/
theorem cvRound_of_gt_half [FloorRing α] (x : α) (n : ℤ) (h1 : (n : α) + 1 / 2 < x)
    (h2 : x < (n : α) + 1) : cvRound x = n + 1 := by
  have hfl : ⌊x⌋ = n := by
    rw [Int.floor_eq_iff]
    exact ⟨by linarith, h2⟩
  have hd : ¬ (x - (n : α) < 1 / 2) := by
    rw [not_lt]
    linarith
  have hd2 : 1 / 2 < x - (n : α) := by linarith
  simp only [cvRound, hfl]
  rw [if_neg hd, if_pos hd2]

/-- Both pixels of `exClose` become 128 on the 8-bit scale. -/
theorem convertTo8U_exClose :
    convertTo8U (cvScale exClose 255) = fun _ _ => 128 := by
  funext r c
  fin_cases c
  · have h : cvRound (cvScale exClose 255 r ⟨0, by decide⟩) = 127 + 1 := by
      apply cvRound_of_gt_half <;> norm_num [cvScale, exClose]
    simp only [convertTo8U, Fin.zero_eta, Fin.mk_zero] at h ⊢
    rw [h]
    decide
  · have h : cvRound (cvScale exClose 255 r ⟨1, by decide⟩) = 127 + 1 := by
      apply cvRound_of_gt_half <;> norm_num [cvScale, exClose]
    simp only [convertTo8U, Fin.mk_one] at h ⊢
    rw [h]
    decide

/-- The STDEV cut-off of `exClose` at factor 0 is `128/255`. -/
theorem stdev_cutoff_exClose : stdev_cutoff (ratLib 1 2) exStdev exClose = 128 / 255 := by
  simp only [stdev_cutoff, convertTo8U_exClose]
  norm_num [meanStdDev, exStdev, exState]

/-- C6 (counterexample): STDEV mode, factor 0, image `[0.501, 0.5015]`. The
second pixel is above the mean `0.50125` of the image itself, so it is not below
`mean(R) + thresh * stdev(R)`; `threshold_image` zeroes it all the same,
because both pixels round to 128 and the cut-off it uses is `128/255`. -/
theorem C6_counterexample :
    exStdev.STDEV_THRESH ≠ 0 ∧
    ¬ (exClose 0 1 < (meanStdDev Rat.sqrt exClose).1
        + exStdev.thresh_ * (meanStdDev Rat.sqrt exClose).2) ∧
    exClose 0 1 ≠ 0 ∧
    threshold_image (ratLib 1 2) exStdev exClose 0 1 = 0 := by
  refine ⟨by decide, ?_, ?_, ?_⟩
  · norm_num [meanStdDev, exStdev, exState, exClose, Fin.sum_univ_two]
  · norm_num [exClose]
  · rw [threshold_image_stdev _ _ _ (by decide)]
    simp only [cvThresholdToZero, stdev_cutoff_exClose]
    norm_num [exClose]

/-- C6 (amended): in STDEV mode `threshold_image` zeroes exactly the pixels
of `R` whose value is not above `(m + thresh * sd) / 255`, where `m` and `sd`
are the mean and standard deviation of the 8-bit image obtained from `255 * R`
by rounding and saturating to `0..255`, and leaves every other pixel
unchanged. -/
theorem C6_stdev_threshold_quantised [FloorRing α] (L : Lib rows cols α) (s : saRefocus α)
    (R : Mat rows cols α) (h : s.STDEV_THRESH ≠ 0) :
    ∀ r c,
      (R r c ≤ ((meanStdDev L.sqrt
            (fun i j => ((convertTo8U (cvScale R 255) i j : ℕ) : α))).1
          + s.thresh_ * (meanStdDev L.sqrt
            (fun i j => ((convertTo8U (cvScale R 255) i j : ℕ) : α))).2) / 255 →
        threshold_image L s R r c = 0) ∧
      (((meanStdDev L.sqrt
            (fun i j => ((convertTo8U (cvScale R 255) i j : ℕ) : α))).1
          + s.thresh_ * (meanStdDev L.sqrt
            (fun i j => ((convertTo8U (cvScale R 255) i j : ℕ) : α))).2) / 255 < R r c →
        threshold_image L s R r c = R r c) := by
  intro r c
  rw [threshold_image_stdev L s R h]
  constructor
  · intro hle
    have : ¬ (R r c > stdev_cutoff L s R) := not_lt.mpr hle
    simp only [cvThresholdToZero, this, if_false]
  · intro hlt
    have : R r c > stdev_cutoff L s R := hlt
    simp only [cvThresholdToZero, this, if_true]

/-- C6 (amended) at the image `[0.501, 0.5015]` with factor 0. -/
theorem C6_stdev_threshold_quantised_witness :
    exStdev.STDEV_THRESH ≠ 0 ∧
    ∀ r c,
      (exClose r c ≤ ((meanStdDev (ratLib 1 2).sqrt
            (fun i j => ((convertTo8U (cvScale exClose 255) i j : ℕ) : ℚ))).1
          + exStdev.thresh_ * (meanStdDev (ratLib 1 2).sqrt
            (fun i j => ((convertTo8U (cvScale exClose 255) i j : ℕ) : ℚ))).2) / 255 →
        threshold_image (ratLib 1 2) exStdev exClose r c = 0) ∧
      (((meanStdDev (ratLib 1 2).sqrt
            (fun i j => ((convertTo8U (cvScale exClose 255) i j : ℕ) : ℚ))).1
          + exStdev.thresh_ * (meanStdDev (ratLib 1 2).sqrt
            (fun i j => ((convertTo8U (cvScale exClose 255) i j : ℕ) : ℚ))).2) / 255
          < exClose r c →
        threshold_image (ratLib 1 2) exStdev exClose r c = exClose r c) :=
  ⟨by decide, C6_stdev_threshold_quantised (ratLib 1 2) exStdev exClose (by decide)⟩

/-- C7 (evaluation at the failing input): benchmark mode on, CPU pinhole path,
two views equal to `1/2`, `thresh_ = 9/10`. The combined pixel is `1/2`, and
`CPUrefocus` returns 0: it thresholds although benchmark mode is on. The GPU
pinhole path at the same input returns the combined `1/2`. -/
theorem C7_CPUrefocus_thresholds_in_benchmark_mode :
    exBench.BENCHMARK_MODE ≠ 0 ∧
    CPUrefocus_combined ratPow exBench exSame 0 0 = 1 / 2 ∧
    CPUrefocus ratPow exBench exSame 0 0 = 0 ∧
    GPUrefocus (ratLib 1 1) exBench exSame 0 0 = 1 / 2 := by
  have hc : CPUrefocus_combined ratPow exBench exSame 0 0 = 1 / 2 := by
    norm_num [CPUrefocus_combined, CPUrefocus_init, CPUrefocus_body, exBench, exState,
      exSame, cvAdd, cvScale, List.range']
  refine ⟨by decide, hc, ?_, ?_⟩
  · simp only [CPUrefocus, cvThresholdToZero, hc]
    norm_num [exBench, exState]
  · norm_num [GPUrefocus, GPUrefocus_finish, GPUrefocus_combined, GPUrefocus_body, exBench,
      exState, exSame, cvAdd, cvScale, blank, List.range_succ]

/-- C8 (evaluation at the failing input): refractive paths, benchmark mode
off, absolute threshold `thresh_ = 9/10`, two views equal to `1/2`. The pixel
`1/2` is not above the threshold, yet `CPUrefocus_ref` and
`CPUrefocus_ref_corner` return it non-zero, while `GPUrefocus_ref` and
`GPUrefocus_ref_corner` return 0. -/
theorem C8_CPU_refractive_paths_skip_threshold :
    exRefThresh.BENCHMARK_MODE = 0 ∧ exRefThresh.STDEV_THRESH = 0 ∧
    ¬ (1 / 2 > exRefThresh.thresh_) ∧
    CPUrefocus_ref exRefThresh exSame 0 0 = 1 / 2 ∧
    CPUrefocus_ref_corner ratPow exRefThresh exSame 0 0 = 1 / 2 ∧
    GPUrefocus_ref (ratLib 1 1) exRefThresh exSame 0 0 = 0 ∧
    GPUrefocus_ref_corner (ratLib 1 1) exRefThresh exSame 0 0 = 0 := by
  refine ⟨rfl, rfl, ?_, ?_, ?_, ?_, ?_⟩
  · norm_num [exRefThresh, exState]
  · norm_num [CPUrefocus_ref, exRefThresh, exState, exSame, cvAdd, cvDivide, List.range']
  · norm_num [CPUrefocus_ref_corner, CPUrefocus_ref_corner_init, CPUrefocus_ref_corner_body,
      exRefThresh, exState, exSame, cvAdd, cvDivide, List.range']
  · norm_num [GPUrefocus_ref, GPUrefocus_ref_combined, threshold_image, cvThresholdToZero,
      exRefThresh, exState, exSame, cvAdd, cvScale, blank, List.range_succ]
  · norm_num [GPUrefocus_ref_corner, GPUrefocus_finish, GPUrefocus_combined, GPUrefocus_body,
      threshold_image, cvThresholdToZero, exRefThresh, exState, exSame, cvAdd, cvScale,
      blank, List.range_succ]

/-- C9: in absolute mode thresholding is idempotent, for every image and every
value of the threshold, negative ones included: applying the to-zero threshold
at `thresh_` (and `threshold_image`, which is that threshold) to the already
thresholded image gives the image thresholded once. -/
theorem C9_absolute_threshold_idempotent [FloorRing α] (L : Lib rows cols α)
    (s : saRefocus α) (R : Mat rows cols α) (habs : s.STDEV_THRESH = 0) :
    cvThresholdToZero (cvThresholdToZero R s.thresh_) s.thresh_
      = cvThresholdToZero R s.thresh_ ∧
    threshold_image L s (threshold_image L s R) = threshold_image L s R := by
  refine ⟨cvThresholdToZero_idem R s.thresh_, ?_⟩
  rw [threshold_image_abs L s _ habs, threshold_image_abs L s R habs]
  exact cvThresholdToZero_idem R s.thresh_

/-- C9 at the negative threshold `-1/2` and the image `[0.501, 0.5015]`. -/
theorem C9_absolute_threshold_idempotent_witness :
    exNegThresh.STDEV_THRESH = 0 ∧ exNegThresh.thresh_ < 0 ∧
    cvThresholdToZero (cvThresholdToZero exClose exNegThresh.thresh_) exNegThresh.thresh_
      = cvThresholdToZero exClose exNegThresh.thresh_ ∧
    threshold_image (ratLib 1 2) exNegThresh (threshold_image (ratLib 1 2) exNegThresh exClose)
      = threshold_image (ratLib 1 2) exNegThresh exClose :=
  ⟨rfl, by norm_num [exNegThresh, exState],
    C9_absolute_threshold_idempotent (ratLib 1 2) exNegThresh exClose rfl⟩

/-- The function `Rat.sqrt` is exact on squares of non-negative rationals. -/
theorem rat_sqrt_of_sq (q r : ℚ) (hr : 0 ≤ r) (h : q = r * r) : Rat.sqrt q = r := by
  subst h
  rw [Rat.sqrt_eq, abs_of_nonneg hr]

/-- The pixels of `exStep` become 99 and 100 on the 8-bit scale. -/
theorem convertTo8U_exStep :
    convertTo8U (cvScale exStep 255) = fun _ c => if c.val = 0 then 99 else 100 := by
  funext r c
  fin_cases c
  · have h : cvRound (cvScale exStep 255 r ⟨0, by decide⟩) = 99 := by
      apply cvRound_of_lt_half <;> norm_num [cvScale, exStep]
    simp only [convertTo8U, Fin.zero_eta, Fin.mk_zero] at h ⊢
    rw [h]
    decide
  · have h : cvRound (cvScale exStep 255 r ⟨1, by decide⟩) = 100 := by
      apply cvRound_of_lt_half <;> norm_num [cvScale, exStep]
    simp only [convertTo8U, Fin.mk_one] at h ⊢
    rw [h]
    decide

/-- The pixels of `exStepOnce` become 0 and 100 on the 8-bit scale. -/
theorem convertTo8U_exStepOnce :
    convertTo8U (cvScale exStepOnce 255) = fun _ c => if c.val = 0 then 0 else 100 := by
  funext r c
  fin_cases c
  · have h : cvRound (cvScale exStepOnce 255 r ⟨0, by decide⟩) = 0 := by
      apply cvRound_of_lt_half <;> norm_num [cvScale, exStepOnce]
    simp only [convertTo8U, Fin.zero_eta, Fin.mk_zero] at h ⊢
    rw [h]
    decide
  · have h : cvRound (cvScale exStepOnce 255 r ⟨1, by decide⟩) = 100 := by
      apply cvRound_of_lt_half <;> norm_num [cvScale, exStepOnce]
    simp only [convertTo8U, Fin.mk_one] at h ⊢
    rw [h]
    decide

/-- Mean and standard deviation of the 8-bit image `[99, 100]`. -/
theorem meanStdDev_99_100 :
    meanStdDev Rat.sqrt (fun (_ : Fin 1) (c : Fin 2) =>
      (((if c.val = 0 then 99 else 100 : ℕ)) : ℚ)) = (199 / 2, 1 / 2) := by
  refine Prod.ext ?_ ?_
  · norm_num [meanStdDev, Fin.sum_univ_two]
  · show Rat.sqrt _ = 1 / 2
    apply rat_sqrt_of_sq _ _ (by norm_num)
    norm_num [Fin.sum_univ_two]

/-- Mean and standard deviation of the 8-bit image `[0, 100]`. -/
theorem meanStdDev_0_100 :
    meanStdDev Rat.sqrt (fun (_ : Fin 1) (c : Fin 2) =>
      (((if c.val = 0 then 0 else 100 : ℕ)) : ℚ)) = (50, 50) := by
  refine Prod.ext ?_ ?_
  · norm_num [meanStdDev, Fin.sum_univ_two]
  · show Rat.sqrt _ = 50
    apply rat_sqrt_of_sq _ _ (by norm_num)
    norm_num [Fin.sum_univ_two]

/-- First STDEV cut-off of `exStep` at factor `6/5`: `100.1/255`. -/
theorem stdev_cutoff_exStep :
    stdev_cutoff (ratLib 1 2) exStdevFactor exStep = 1001 / 2550 := by
  simp only [stdev_cutoff, convertTo8U_exStep, ratLib, meanStdDev_99_100]
  norm_num [exStdevFactor, exState]

/-- STDEV cut-off of the once-thresholded image at factor `6/5`: `110/255`. -/
theorem stdev_cutoff_exStepOnce :
    stdev_cutoff (ratLib 1 2) exStdevFactor exStepOnce = 22 / 51 := by
  simp only [stdev_cutoff, convertTo8U_exStepOnce, ratLib, meanStdDev_0_100]
  norm_num [exStdevFactor, exState]

/-- One STDEV threshold of `exStep` at factor `6/5` gives `exStepOnce`. -/
theorem threshold_image_exStep :
    threshold_image (ratLib 1 2) exStdevFactor exStep = exStepOnce := by
  rw [threshold_image_stdev _ _ _ (by decide), stdev_cutoff_exStep]
  funext r c
  fin_cases c <;> norm_num [cvThresholdToZero, exStep, exStepOnce]

/-- C10 (counterexample): STDEV mode, factor `6/5`, image
`[99/255, 100.3/255]`. The first application (cut-off `100.1/255`, from the
8-bit values 99 and 100) keeps the second pixel; the second application
(cut-off `110/255`, from the 8-bit values 0 and 100) zeroes it. -/
theorem C10_counterexample :
    exStdevFactor.STDEV_THRESH ≠ 0 ∧
    threshold_image (ratLib 1 2) exStdevFactor exStep 0 1 = 1003 / 2550 ∧
    threshold_image (ratLib 1 2) exStdevFactor
      (threshold_image (ratLib 1 2) exStdevFactor exStep) 0 1 = 0 ∧
    threshold_image (ratLib 1 2) exStdevFactor
        (threshold_image (ratLib 1 2) exStdevFactor exStep)
      ≠ threshold_image (ratLib 1 2) exStdevFactor exStep := by
  have h1 : threshold_image (ratLib 1 2) exStdevFactor exStep 0 1 = 1003 / 2550 := by
    rw [threshold_image_exStep]
    norm_num [exStepOnce]
  have h2 : threshold_image (ratLib 1 2) exStdevFactor
      (threshold_image (ratLib 1 2) exStdevFactor exStep) 0 1 = 0 := by
    rw [threshold_image_exStep, threshold_image_stdev _ _ _ (by decide),
      stdev_cutoff_exStepOnce]
    norm_num [cvThresholdToZero, exStepOnce]
  refine ⟨by decide, h1, h2, ?_⟩
  intro heq
  have h3 := congrFun (congrFun heq 0) 1
  rw [h1, h2] at h3
  norm_num at h3

/-- C10 (amended): in STDEV mode a second application of `threshold_image`
only zeroes further pixels (each pixel of the twice-thresholded image is 0 or
the pixel of the once-thresholded image), and
`threshold_image(threshold_image(R)) = threshold_image(R)` whenever the
cut-off computed from the thresholded image is not above the cut-off computed
from `R`. -/
theorem C10_stdev_rethreshold [FloorRing α] (L : Lib rows cols α) (s : saRefocus α)
    (R : Mat rows cols α) (h : s.STDEV_THRESH ≠ 0) :
    (∀ r c, threshold_image L s (threshold_image L s R) r c = 0 ∨
        threshold_image L s (threshold_image L s R) r c = threshold_image L s R r c) ∧
    (stdev_cutoff L s (threshold_image L s R) ≤ stdev_cutoff L s R →
        threshold_image L s (threshold_image L s R) = threshold_image L s R) := by
  constructor
  · intro r c
    rw [threshold_image_stdev L s (threshold_image L s R) h]
    simp only [cvThresholdToZero]
    split_ifs
    · exact Or.inr rfl
    · exact Or.inl rfl
  · intro hle
    rw [threshold_image_stdev L s (threshold_image L s R) h]
    generalize stdev_cutoff L s (threshold_image L s R) = c2 at hle
    rw [threshold_image_stdev L s R h]
    funext r c
    simp only [cvThresholdToZero]
    by_cases hx : R r c > stdev_cutoff L s R
    · have hx2 : R r c > c2 := lt_of_le_of_lt hle hx
      simp [hx, hx2]
    · simp [hx]

/-- STDEV cut-off of `exStep` at factor 0: `99.5/255`. -/
theorem stdev_cutoff_exStep_zero :
    stdev_cutoff (ratLib 1 2) exStdev exStep = 199 / 510 := by
  simp only [stdev_cutoff, convertTo8U_exStep, ratLib, meanStdDev_99_100]
  norm_num [exStdev, exState]

/-- At factor 0 the cut-off of the thresholded `exStep` is below the cut-off
of `exStep`. -/
theorem stdev_cutoff_exStep_zero_le :
    stdev_cutoff (ratLib 1 2) exStdev (threshold_image (ratLib 1 2) exStdev exStep)
      ≤ stdev_cutoff (ratLib 1 2) exStdev exStep := by
  have h1 : threshold_image (ratLib 1 2) exStdev exStep = exStepOnce := by
    rw [threshold_image_stdev _ _ _ (by decide), stdev_cutoff_exStep_zero]
    funext r c
    fin_cases c <;> norm_num [cvThresholdToZero, exStep, exStepOnce]
  have h2 : stdev_cutoff (ratLib 1 2) exStdev exStepOnce = 10 / 51 := by
    simp only [stdev_cutoff, convertTo8U_exStepOnce, ratLib, meanStdDev_0_100]
    norm_num [exStdev, exState]
  rw [h1, h2, stdev_cutoff_exStep_zero]
  norm_num

/-- C10 (amended) at the image `[99/255, 100.3/255]` with factor 0, where the
second cut-off `50/255` is below the first `99.5/255`. -/
theorem C10_stdev_rethreshold_witness :
    exStdev.STDEV_THRESH ≠ 0 ∧
    stdev_cutoff (ratLib 1 2) exStdev (threshold_image (ratLib 1 2) exStdev exStep)
      ≤ stdev_cutoff (ratLib 1 2) exStdev exStep ∧
    threshold_image (ratLib 1 2) exStdev (threshold_image (ratLib 1 2) exStdev exStep)
      = threshold_image (ratLib 1 2) exStdev exStep :=
  ⟨by decide, stdev_cutoff_exStep_zero_le,
    (C10_stdev_rethreshold (ratLib 1 2) exStdev exStep (by decide)).2
      stdev_cutoff_exStep_zero_le⟩

/-- Mean mode, any number of cameras `N ≥ 1`: the CPU pinhole image before
thresholding is `(1/N) * Σ_i W_i`. -/
theorem CPUrefocus_combined_mean (pw : α → α → α) (s : saRefocus α)
    (W : ℕ → Mat rows cols α) (hN : 1 ≤ s.num_cams_) (hmult : s.mult_ = 0)
    (hmin : s.minlos_ = 0) (r : Fin rows) (c : Fin cols) :
    CPUrefocus_combined pw s W r c
      = (1 / (s.num_cams_ : α)) * ∑ i in Finset.range s.num_cams_, W i r c := by
  have hk : s.num_cams_ - 1 + 1 = s.num_cams_ := Nat.sub_add_cancel hN
  unfold CPUrefocus_combined
  rw [CPUrefocus_mean_fold pw s W hmult hmin, hk, Finset.mul_sum]
  exact Finset.sum_congr rfl (fun i _ => mul_comm _ _)

/-- A lower bound of `N ≥ 1` values is a lower bound of their mean. -/
theorem le_mean_of_forall_le (f : ℕ → α) (N : ℕ) (hN : 1 ≤ N) (m : α)
    (h : ∀ i, i < N → m ≤ f i) : m ≤ (1 / (N : α)) * ∑ i in Finset.range N, f i := by
  have hNpos : (0 : α) < (N : α) := by exact_mod_cast hN
  have hsum : (N : α) * m ≤ ∑ i in Finset.range N, f i := by
    have := Finset.sum_le_sum (fun i hi => h i (Finset.mem_range.mp hi))
    simpa [Finset.sum_const, Finset.card_range, nsmul_eq_mul] using this
  rw [one_div, ← div_eq_inv_mul, le_div_iff₀ hNpos]
  linarith

/-- The to-zero threshold is monotone towards a non-negative image. -/
theorem cvThresholdToZero_le (A B : Mat rows cols α) (t : α) (r : Fin rows) (c : Fin cols)
    (hle : A r c ≤ B r c) (hB : 0 ≤ B r c) :
    cvThresholdToZero A t r c ≤ cvThresholdToZero B t r c := by
  simp only [cvThresholdToZero]
  by_cases hA : A r c > t
  · have hB2 : B r c > t := lt_of_lt_of_le hA hle
    simp [hA, hB2, hle]
  · by_cases hB2 : B r c > t
    · simp [hA, hB2, hB]
    · simp [hA, hB2]

/-- The CPU pinhole path: for warped views with non-negative intensities,
`N ≥ 1` cameras and one threshold value, the result of `CPUrefocus` with
MinLoS is, at every pixel, at most the result of `CPUrefocus` with Mean on the
same warped views, thresholding included. -/
theorem CPUrefocus_minlos_le_mean (pw : α → α → α) (sMin sMean : saRefocus α)
    (W : ℕ → Mat rows cols α) (hN : 1 ≤ sMean.num_cams_)
    (hcams : sMin.num_cams_ = sMean.num_cams_) (hthresh : sMin.thresh_ = sMean.thresh_)
    (hminlos : sMin.mult_ = 0 ∧ sMin.minlos_ ≠ 0)
    (hmean : sMean.mult_ = 0 ∧ sMean.minlos_ = 0)
    (hW : ∀ i r c, 0 ≤ W i r c) :
    ∀ r c, CPUrefocus pw sMin W r c ≤ CPUrefocus pw sMean W r c := by
  intro r c
  have hmeanEq := CPUrefocus_combined_mean pw sMean W hN hmean.1 hmean.2 r c
  have hlow := (CPUrefocus_min_fold pw sMin W hminlos.1 hminlos.2 r c (sMin.num_cams_ - 1)).1
  have hle : CPUrefocus_combined pw sMin W r c ≤ CPUrefocus_combined pw sMean W r c := by
    rw [hmeanEq]
    apply le_mean_of_forall_le (fun i => W i r c) sMean.num_cams_ hN
    intro i hi
    exact hlow i (by omega)
  have hnonneg : 0 ≤ CPUrefocus_combined pw sMean W r c := by
    rw [hmeanEq]
    exact mul_nonneg (by positivity) (Finset.sum_nonneg (fun i _ => hW i r c))
  unfold CPUrefocus
  rw [hthresh]
  exact cvThresholdToZero_le _ _ _ r c hle hnonneg

/-- The identity resampling is a linear warp. -/
theorem isLinearWarp_id : IsLinearWarp (fun (_ : ℕ) (A : Mat rows cols α) => A) :=
  fun _ _ _ _ _ => rfl

/-- C12 (counterexample): mean combiner, two cameras, absolute threshold
`thresh_ = 1/2`, identity warp, stacks `I = J` with pixels `1/4` and `1/2`,
scalars `a = b = 1`. Refocusing `I + J` gives `3/4`, while
`refocus(I) + refocus(J)` is `0 + 0`: each mean `3/8` is zeroed by the
threshold. -/
theorem C12_counterexample :
    exHalfThresh.mult_ = 0 ∧ exHalfThresh.minlos_ = 0 ∧
    IsLinearWarp (fun (_ : ℕ) (A : Mat 1 1 ℚ) => A) ∧
    CPUrefocus ratPow exHalfThresh (fun i => linComb 1 (exViews i) 1 (exViews i)) 0 0 = 3 / 4 ∧
    linComb 1 (CPUrefocus ratPow exHalfThresh exViews) 1
      (CPUrefocus ratPow exHalfThresh exViews) 0 0 = 0 := by
  refine ⟨rfl, rfl, isLinearWarp_id, ?_, ?_⟩
  · norm_num [CPUrefocus, cvThresholdToZero, CPUrefocus_combined, CPUrefocus_init,
      CPUrefocus_body, exHalfThresh, exState, exViews, linComb, cvAdd, cvScale, List.range']
  · norm_num [CPUrefocus, cvThresholdToZero, CPUrefocus_combined, CPUrefocus_init,
      CPUrefocus_body, exHalfThresh, exState, exViews, linComb, cvAdd, cvScale, List.range']

/-- C12 (amended): with the mean operator and a warp that is a linear
resampling operator, the image `CPUrefocus` has built before its thresholding
step is linear in the input stack: combining the warps of `a*I + b*J` gives
`a * combined(I) + b * combined(J)` at every pixel. -/
theorem C12_mean_linear_before_threshold (pw : α → α → α) (s : saRefocus α)
    (warp : ℕ → Mat rows cols α → Mat rows cols α) (I J : ℕ → Mat rows cols α) (a b : α)
    (hmult : s.mult_ = 0) (hmin : s.minlos_ = 0) (hlin : IsLinearWarp warp) :
    CPUrefocus_combined pw s (fun i => warp i (linComb a (I i) b (J i)))
      = linComb a (CPUrefocus_combined pw s (fun i => warp i (I i)))
          b (CPUrefocus_combined pw s (fun i => warp i (J i))) := by
  funext r c
  simp only [CPUrefocus_combined, linComb, CPUrefocus_mean_fold pw s _ hmult hmin]
  rw [Finset.mul_sum, Finset.mul_sum, ← Finset.sum_add_distrib]
  refine Finset.sum_congr rfl (fun i _ => ?_)
  rw [hlin i a (I i) b (J i)]
  simp only [linComb]
  ring

/-- C12 (amended) at the identity warp, stacks with pixels `1/4`, `1/2` and
`1/2`, `1/2`, and scalars `2` and `-3`. -/
theorem C12_mean_linear_before_threshold_witness :
    exHalfThresh.mult_ = 0 ∧ exHalfThresh.minlos_ = 0 ∧
    IsLinearWarp (fun (_ : ℕ) (A : Mat 1 1 ℚ) => A) ∧
    CPUrefocus_combined ratPow exHalfThresh (fun i => linComb 2 (exViews i) (-3) (exSame i))
      = linComb 2 (CPUrefocus_combined ratPow exHalfThresh (fun i => exViews i))
          (-3) (CPUrefocus_combined ratPow exHalfThresh (fun i => exSame i)) :=
  ⟨rfl, rfl, isLinearWarp_id,
    C12_mean_linear_before_threshold ratPow exHalfThresh (fun _ A => A) exViews exSame 2 (-3)
      rfl rfl isLinearWarp_id⟩

/-- Mean mode on the GPU pinhole path: after cameras `0..k-1` the accumulator
is the sum of the views scaled by `fact_`. -/
theorem GPUrefocus_mean_fold [FloorRing α] (L : Lib rows cols α) (s : saRefocus α)
    (W : ℕ → Mat rows cols α) (hmult : s.mult_ = 0) (hmin : s.minlos_ = 0)
    (hnlca : s.nlca_ = 0) (hfast : s.nlca_fast_ = 0) (k : ℕ) :
    (List.range k).foldl (GPUrefocus_body L s W) blank
      = fun r c => ∑ i in Finset.range k, W i r c * s.fact_ := by
  induction k with
  | zero =>
    funext r c
    simp [blank]
  | succ k ih =>
    rw [List.range_succ, List.foldl_append, ih]
    funext r c
    rw [Finset.sum_range_succ]
    simp [GPUrefocus_body, hmult, hmin, hnlca, hfast, cvAdd, cvScale]

/-- Backend parity where it holds: for the mean operator, `N ≥ 1` cameras and
`fact_ = 1/N`, the CPU and GPU pinhole paths build the same image before
thresholding, and with benchmark mode off and the absolute threshold mode they
return the same image. -/
theorem CPU_GPU_parity_absolute [FloorRing α] (L : Lib rows cols α) (s : saRefocus α)
    (W : ℕ → Mat rows cols α) (hN : 1 ≤ s.num_cams_)
    (hfact : s.fact_ = 1 / (s.num_cams_ : α)) (hmult : s.mult_ = 0) (hmin : s.minlos_ = 0)
    (hnlca : s.nlca_ = 0) (hfast : s.nlca_fast_ = 0) :
    GPUrefocus_combined L s W = CPUrefocus_combined L.pow s W ∧
    (s.BENCHMARK_MODE = 0 → s.STDEV_THRESH = 0 → GPUrefocus L s W = CPUrefocus L.pow s W) := by
  have hcomb : GPUrefocus_combined L s W = CPUrefocus_combined L.pow s W := by
    funext r c
    rw [CPUrefocus_combined_mean L.pow s W hN hmult hmin r c]
    simp only [GPUrefocus_combined, GPUrefocus_mean_fold L s W hmult hmin hnlca hfast, hfact]
    rw [Finset.mul_sum]
    exact Finset.sum_congr rfl (fun i _ => mul_comm _ _)
  refine ⟨hcomb, fun hb habs => ?_⟩
  simp only [GPUrefocus, GPUrefocus_finish, hnlca, hfast, hb, ne_eq, not_true_eq_false,
    if_false, if_true, threshold_image_abs L s _ habs, hcomb, CPUrefocus]

/-- The pixels `1/4` and `3/4` become 64 and 191 on the 8-bit scale. -/
theorem convertTo8U_exQuarter :
    convertTo8U (cvScale (exQuarter 0) 255) = fun _ c => if c.val = 0 then 64 else 191 := by
  funext r c
  fin_cases c
  · have h : cvRound (cvScale (exQuarter 0) 255 r ⟨0, by decide⟩) = 63 + 1 := by
      apply cvRound_of_gt_half <;> norm_num [cvScale, exQuarter]
    simp only [convertTo8U, Fin.zero_eta, Fin.mk_zero] at h ⊢
    rw [h]
    decide
  · have h : cvRound (cvScale (exQuarter 0) 255 r ⟨1, by decide⟩) = 191 := by
      apply cvRound_of_lt_half <;> norm_num [cvScale, exQuarter]
    simp only [convertTo8U, Fin.mk_one] at h ⊢
    rw [h]
    decide

/-- C13 (evaluation at the failing input): mean operator, two cameras both
seeing `[1/4, 3/4]`, STDEV mode with factor `thresh_ = 0`, benchmark mode off,
the same session for both backends. Before thresholding both paths hold
`[1/4, 3/4]`. `CPUrefocus` applies `thresh_` as an absolute threshold and
returns `1/4` at the first pixel; `GPUrefocus` thresholds at the cut-off
`127.5/255` and returns 0 there: they differ by `1/4 > 2/255`. -/
theorem C13_backends_differ_in_stdev_mode :
    exStdev.STDEV_THRESH ≠ 0 ∧ exStdev.BENCHMARK_MODE = 0 ∧
    exStdev.fact_ = 1 / (exStdev.num_cams_ : ℚ) ∧
    GPUrefocus_combined (ratLib 1 2) exStdev exQuarter
      = CPUrefocus_combined ratPow exStdev exQuarter ∧
    CPUrefocus ratPow exStdev exQuarter 0 0 = 1 / 4 ∧
    GPUrefocus (ratLib 1 2) exStdev exQuarter 0 0 = 0 ∧
    2 / 255 < |CPUrefocus ratPow exStdev exQuarter 0 0
      - GPUrefocus (ratLib 1 2) exStdev exQuarter 0 0| := by
  have hc : CPUrefocus_combined ratPow exStdev exQuarter = exQuarter 0 := by
    funext r c
    fin_cases c <;>
      norm_num [CPUrefocus_combined, CPUrefocus_init, CPUrefocus_body, exStdev, exState,
        exQuarter, cvAdd, cvScale, List.range']
  have hg : GPUrefocus_combined (ratLib 1 2) exStdev exQuarter = exQuarter 0 := by
    funext r c
    fin_cases c <;>
      norm_num [GPUrefocus_combined, GPUrefocus_body, exStdev, exState, exQuarter, cvAdd,
        cvScale, blank, List.range_succ]
  have hcpu : CPUrefocus ratPow exStdev exQuarter 0 0 = 1 / 4 := by
    simp only [CPUrefocus, hc, cvThresholdToZero]
    norm_num [exStdev, exState, exQuarter]
  have hcut : stdev_cutoff (ratLib 1 2) exStdev (exQuarter 0) = 1 / 2 := by
    simp only [stdev_cutoff, convertTo8U_exQuarter]
    norm_num [meanStdDev, exStdev, exState, Fin.sum_univ_two]
  have hgpu : GPUrefocus (ratLib 1 2) exStdev exQuarter 0 0 = 0 := by
    have hfin : GPUrefocus (ratLib 1 2) exStdev exQuarter
        = threshold_image (ratLib 1 2) exStdev (exQuarter 0) := by
      rw [← hg]
      simp only [GPUrefocus, GPUrefocus_finish]
      rw [if_neg (by decide), if_neg (by decide), if_pos (by decide)]
    rw [hfin, threshold_image_stdev _ _ _ (by decide), hcut]
    norm_num [cvThresholdToZero, exQuarter]
  refine ⟨by decide, rfl, ?_, hg.trans hc.symm, hcpu, hgpu, ?_⟩
  · norm_num [exStdev, exState]
  · rw [hcpu, hgpu, sub_zero, abs_of_pos (by norm_num)]
    norm_num

/-- Writing `thresh_` twice from the same argument is writing it once. -/
theorem refocus_set_thresh_idem [FloorRing α] (s : saRefocus α) (thresh : α) :
    refocus_set_thresh (refocus_set_thresh s thresh) thresh = refocus_set_thresh s thresh := by
  simp [refocus_set_thresh]

/-- The result of `refocus` depends on the session only through the session
with `thresh_` overwritten. -/
theorem refocus_congr [FloorRing α] (L : Lib rows cols α) (s s0 : saRefocus α)
    (W : ℕ → Mat rows cols α) (thresh : α)
    (h : refocus_set_thresh s thresh = refocus_set_thresh s0 thresh) :
    refocus L s W thresh = refocus L s0 W thresh := by
  simp only [refocus, h]

/-- The depth loop: when exactly the indices `k < m` satisfy
`z + k*dz ≤ bound` and the fuel is at least `m`, the loop appends the `m`
planes at depths `z + k*dz`, `k = 0 .. m-1`, in that order. -/
theorem stack_loop_spec [FloorRing α] (L : Lib rows cols α)
    (views : α → ℕ → Mat rows cols α) (bound dz thresh : α) (s0 : saRefocus α) :
    ∀ (m fuel : ℕ) (s : saRefocus α) (z : α) (stack : List (Mat rows cols α)),
      refocus_set_thresh s thresh = refocus_set_thresh s0 thresh →
      (∀ k : ℕ, k < m ↔ z + (k : α) * dz ≤ bound) → m ≤ fuel →
      ∃ s1, stack_loop L views bound dz thresh fuel s z stack
          = some (s1, stack ++ (List.range m).map
              (fun (k : ℕ) => refocus L s0 (views (z + (k : α) * dz)) thresh)) ∧
        refocus_set_thresh s1 thresh = refocus_set_thresh s0 thresh := by
  intro m
  induction m with
  | zero =>
    intro fuel s z stack hs hk _
    have hz : ¬ z ≤ bound := by
      have := (hk 0).not.mp (lt_irrefl 0)
      simpa using this
    refine ⟨s, ?_, hs⟩
    cases fuel <;> simp [stack_loop, hz]
  | succ m ih =>
    intro fuel s z stack hs hk hfuel
    have hz : z ≤ bound := by
      have := (hk 0).mp (Nat.succ_pos m)
      simpa using this
    obtain ⟨fuel, rfl⟩ : ∃ f, fuel = f + 1 := ⟨fuel - 1, by omega⟩
    have hk1 : ∀ k : ℕ, k < m ↔ z + dz + (k : α) * dz ≤ bound := by
      intro k
      have := hk (k + 1)
      rw [Nat.succ_lt_succ_iff] at this
      rw [this]
      push_cast
      constructor <;> intro h <;> linarith
    have hs1 : refocus_set_thresh (refocus_set_thresh s thresh) thresh
        = refocus_set_thresh s0 thresh := by
      rw [refocus_set_thresh_idem, hs]
    obtain ⟨s1, hloop, hs2⟩ := ih fuel (refocus_set_thresh s thresh) (z + dz)
      (stack ++ [refocus L s (views z) thresh]) hs1 hk1 (by omega)
    refine ⟨s1, ?_, hs2⟩
    have hmap : List.map (fun (k : ℕ) => refocus L s0 (views (z + dz + (k : α) * dz)) thresh)
          (List.range m)
        = List.map ((fun (k : ℕ) => refocus L s0 (views (z + (k : α) * dz)) thresh) ∘ Nat.succ)
          (List.range m) := by
      apply List.map_congr_left
      intro k _
      have hzk : z + dz + (k : α) * dz = z + ((Nat.succ k : ℕ) : α) * dz := by
        push_cast
        ring
      simp only [Function.comp, hzk]
    have hz0 : z + ((0 : ℕ) : α) * dz = z := by simp
    simp only [stack_loop, hz, if_true]
    rw [hloop, refocus_congr L s s0 _ thresh hs, List.range_succ_eq_map, List.map_cons,
      List.map_map, List.append_assoc, hmap, hz0]
    rfl

/-- Number of depths `zmin + k*dz`, `k ≥ 0`, that do not exceed `bound`. -/
theorem depth_count_iff [FloorRing α] (zmin bound dz : α) (hdz : 0 < dz) (hb : zmin ≤ bound)
    (k : ℕ) : k < ⌊(bound - zmin) / dz⌋₊ + 1 ↔ zmin + (k : α) * dz ≤ bound := by
  have hx : 0 ≤ (bound - zmin) / dz := div_nonneg (by linarith) hdz.le
  rw [Nat.lt_succ_iff, Nat.le_floor_iff hx, le_div_iff₀ hdz]
  constructor <;> intro h <;> linarith

/-- C14: for `dz > 0` and `zmin ≤ zmax`, `return_stack` (given enough fuel for
its loop) appends to `stack` exactly the planes `refocus(z_k, 0, 0, 0, thresh,
frame)` at `z_k = zmin + k*dz`, one for each `k ≥ 0` with
`z_k ≤ zmax + 0.5*dz`, in increasing depth order, and nothing else. -/
theorem C14_return_stack_planes [FloorRing α] (L : Lib rows cols α) (s : saRefocus α)
    (views : α → ℕ → Mat rows cols α) (zmin zmax dz thresh : α)
    (stack : List (Mat rows cols α)) (hdz : 0 < dz) (hz : zmin ≤ zmax) :
    (∀ k : ℕ, k < ⌊(zmax + dz * (1 / 2) - zmin) / dz⌋₊ + 1
        ↔ zmin + (k : α) * dz ≤ zmax + dz * (1 / 2)) ∧
    (∀ j k : ℕ, j < k → zmin + (j : α) * dz < zmin + (k : α) * dz) ∧
    ∀ fuel, ⌊(zmax + dz * (1 / 2) - zmin) / dz⌋₊ + 1 ≤ fuel →
      return_stack L s views zmin zmax dz thresh stack fuel
        = some (stack ++ (List.range (⌊(zmax + dz * (1 / 2) - zmin) / dz⌋₊ + 1)).map
            (fun (k : ℕ) => refocus L s (views (zmin + (k : α) * dz)) thresh)) := by
  have hb : zmin ≤ zmax + dz * (1 / 2) := by
    have : 0 ≤ dz * (1 / 2) := by positivity
    linarith
  have hcount := depth_count_iff zmin (zmax + dz * (1 / 2)) dz hdz hb
  refine ⟨hcount, ?_, ?_⟩
  · intro j k hjk
    have : (j : α) < (k : α) := by exact_mod_cast hjk
    have := mul_lt_mul_of_pos_right this hdz
    linarith
  · intro fuel hfuel
    obtain ⟨s1, hloop, _⟩ := stack_loop_spec L views (zmax + dz * (1 / 2)) dz thresh s
      (⌊(zmax + dz * (1 / 2) - zmin) / dz⌋₊ + 1) fuel s zmin stack rfl hcount hfuel
    simp only [return_stack, hloop, Option.map_some']

/-- C14 at `zmin = 0`, `zmax = 1`, `dz = 1/2`: three planes. -/
theorem C14_return_stack_planes_witness :
    (0 : ℚ) < 1 / 2 ∧ (0 : ℚ) ≤ 1 ∧
    ∀ fuel, ⌊((1 : ℚ) + 1 / 2 * (1 / 2) - 0) / (1 / 2)⌋₊ + 1 ≤ fuel →
      return_stack (ratLib 1 1) exState (fun _ => exViews) 0 1 (1 / 2) 0 [] fuel
        = some ([] ++ (List.range (⌊((1 : ℚ) + 1 / 2 * (1 / 2) - 0) / (1 / 2)⌋₊ + 1)).map
            (fun (k : ℕ) => refocus (ratLib 1 1) exState
              ((fun _ => exViews) ((0 : ℚ) + (k : ℚ) * (1 / 2))) 0)) :=
  ⟨by norm_num, by norm_num,
    (C14_return_stack_planes (ratLib 1 1) exState (fun _ => exViews) 0 1 (1 / 2) 0 []
      (by norm_num) (by norm_num)).2.2⟩

/-- The frame loop of `dump_stack`: with enough fuel every position `f` of
`fs` hands the writer the planes at depths `zmin + k*dz ≤ zmax` of its
source frame. -/
theorem dump_stack_frames_spec [FloorRing α] (L : Lib rows cols α) (frames_ : List ℕ)
    (views : ℕ → α → ℕ → Mat rows cols α) (zmin zmax dz thresh : α) (s0 : saRefocus α)
    (hdz : 0 < dz) (hz : zmin ≤ zmax) (fuel : ℕ) (hfuel : ⌊(zmax - zmin) / dz⌋₊ + 1 ≤ fuel) :
    ∀ (fs : List ℕ) (s : saRefocus α),
      refocus_set_thresh s thresh = refocus_set_thresh s0 thresh →
      dump_stack_frames L frames_ views zmin zmax dz thresh fuel fs s
        = some (fs.map (fun f => (List.range (⌊(zmax - zmin) / dz⌋₊ + 1)).map
            (fun (k : ℕ) => refocus L s0
              (views (dump_stack_source s0 frames_ f) (zmin + (k : α) * dz)) thresh))) := by
  intro fs
  induction fs with
  | nil =>
    intro s _
    simp [dump_stack_frames]
  | cons f rest ih =>
    intro s hs
    have hgpu : s.GPU_FLAG = s0.GPU_FLAG := by
      have h := congrArg saRefocus.GPU_FLAG hs
      simpa [refocus_set_thresh] using h
    have hsrc : dump_stack_source s frames_ f = dump_stack_source s0 frames_ f := by
      simp only [dump_stack_source, hgpu]
    obtain ⟨s1, hloop, hs1⟩ := stack_loop_spec L (views (dump_stack_source s0 frames_ f))
      zmax dz thresh s0 (⌊(zmax - zmin) / dz⌋₊ + 1) fuel s zmin [] hs
      (depth_count_iff zmin zmax dz hdz hz) hfuel
    simp only [dump_stack_frames, dump_stack_frame, hsrc, hloop, ih s1 hs1, List.nil_append,
      List.map_cons]

/-- C15 (counterexample): one selected frame, `zmin = 0`, `zmax = 1`, `dz = 2`.
The loop `for (z = zmin; z <= zmax; z += dz)` runs once, so the writer gets a
stack of 1 plane, while `ceil((zmax - zmin)/dz) + 1 = 2`. -/
theorem C15_counterexample :
    (0 : ℚ) < 2 ∧ (0 : ℚ) ≤ 1 ∧
    (dump_stack (ratLib 1 1) exState [0] (fun _ _ => exViews) 0 1 2 0 5).map
        (List.map List.length) = some [1] ∧
    ⌈((1 : ℚ) - 0) / 2⌉₊ + 1 = 2 := by
  refine ⟨by norm_num, by norm_num, ?_, ?_⟩
  · norm_num [dump_stack, dump_stack_frames, dump_stack_frame, stack_loop]
  · have h : ⌈((1 : ℚ) - 0) / 2⌉₊ = 1 := by
      rw [Nat.ceil_eq_iff (by decide)]
      norm_num
    rw [h]

/-- C15 (amended): for `dz > 0` and `zmin ≤ zmax`, `dump_stack` (given enough
fuel for its depth loops) hands to the image writer, for each selected frame,
a stack of exactly `floor((zmax - zmin)/dz) + 1` planes: the planes at depths
`zmin + k*dz ≤ zmax`, ordered by increasing depth. -/
theorem C15_dump_stack_floor_count [FloorRing α] (L : Lib rows cols α) (s : saRefocus α)
    (frames_ : List ℕ) (views : ℕ → α → ℕ → Mat rows cols α) (zmin zmax dz thresh : α)
    (hdz : 0 < dz) (hz : zmin ≤ zmax) :
    (∀ k : ℕ, k < ⌊(zmax - zmin) / dz⌋₊ + 1 ↔ zmin + (k : α) * dz ≤ zmax) ∧
    (∀ j k : ℕ, j < k → zmin + (j : α) * dz < zmin + (k : α) * dz) ∧
    ∀ fuel, ⌊(zmax - zmin) / dz⌋₊ + 1 ≤ fuel →
      ∃ out, dump_stack L s frames_ views zmin zmax dz thresh fuel = some out ∧
        out.length = frames_.length ∧
        (∀ stack ∈ out, stack.length = ⌊(zmax - zmin) / dz⌋₊ + 1) ∧
        out = (List.range frames_.length).map
          (fun f => (List.range (⌊(zmax - zmin) / dz⌋₊ + 1)).map
            (fun (k : ℕ) => refocus L s
              (views (dump_stack_source s frames_ f) (zmin + (k : α) * dz)) thresh)) := by
  refine ⟨depth_count_iff zmin zmax dz hdz hz, ?_, ?_⟩
  · intro j k hjk
    have : (j : α) < (k : α) := by exact_mod_cast hjk
    have := mul_lt_mul_of_pos_right this hdz
    linarith
  · intro fuel hfuel
    refine ⟨_, dump_stack_frames_spec L frames_ views zmin zmax dz thresh s hdz hz fuel hfuel
      (List.range frames_.length) s rfl, ?_, ?_, rfl⟩
    · simp
    · intro stack hstack
      rw [List.mem_map] at hstack
      obtain ⟨f, _, rfl⟩ := hstack
      simp

/-- C15 (amended) at two selected frames, `zmin = 0`, `zmax = 1`, `dz = 2`. -/
theorem C15_dump_stack_floor_count_witness :
    (0 : ℚ) < 2 ∧ (0 : ℚ) ≤ 1 ∧
    ∀ fuel, ⌊((1 : ℚ) - 0) / 2⌋₊ + 1 ≤ fuel →
      ∃ out, dump_stack (ratLib 1 1) exState [0, 1] (fun _ _ => exViews) 0 1 2 0 fuel
          = some out ∧
        out.length = [0, 1].length ∧
        (∀ stack ∈ out, stack.length = ⌊((1 : ℚ) - 0) / 2⌋₊ + 1) ∧
        out = (List.range [0, 1].length).map
          (fun f => (List.range (⌊((1 : ℚ) - 0) / 2⌋₊ + 1)).map
            (fun (k : ℕ) => refocus (ratLib 1 1) exState
              ((fun _ _ => exViews) (dump_stack_source exState [0, 1] f)
                ((0 : ℚ) + (k : ℚ) * 2)) 0)) :=
  ⟨by norm_num, by norm_num,
    (C15_dump_stack_floor_count (ratLib 1 1) exState [0, 1] (fun _ _ => exViews) 0 1 2 0
      (by norm_num) (by norm_num)).2.2⟩

/-- The loop leaves at the first pass whose step size is below the tolerance:
if that is pass `j0 < k`, the result is the iterate after `j0 + 1` updates and
the counter is advanced by `j0`. -/
theorem nr_loop_break (M : CMath α) (q : NRParams α) (tol : α) :
    ∀ (k i : ℕ) (ra rb : α) (j0 : ℕ), j0 < k →
      (∀ j, j < j0 → ¬ nr_res_at M q (ra, rb) j < tol) →
      nr_res_at M q (ra, rb) j0 < tol →
      nr_loop M q tol k i ra rb
        = ((nr_iterate M q (j0 + 1) (ra, rb)).1, (nr_iterate M q (j0 + 1) (ra, rb)).2,
            i + j0) := by
  intro k
  induction k with
  | zero => intro i ra rb j0 h; omega
  | succ k ih =>
    intro i ra rb j0 hj0 hbefore hat
    cases j0 with
    | zero =>
      have h0 : nr_res M q ra rb < tol := hat
      simp [nr_loop, h0, nr_iterate]
    | succ j0 =>
      have h0 : ¬ nr_res M q ra rb < tol := hbefore 0 (Nat.succ_pos j0)
      have hb : ∀ j, j < j0 →
          ¬ nr_res_at M q ((nr_update M q ra rb).1, (nr_update M q ra rb).2) j < tol :=
        fun j hj => hbefore (j + 1) (Nat.succ_lt_succ hj)
      have := ih (i + 1) (nr_update M q ra rb).1 (nr_update M q ra rb).2 j0
        (Nat.lt_of_succ_lt_succ hj0) hb hat
      simp only [nr_loop, h0, if_false, this]
      simp only [nr_iterate, Prod.mk.injEq, true_and]
      omega

/-- When no pass has a step size below the tolerance, the loop runs out: the
result is the iterate after `k` updates and the counter is advanced by `k`. -/
theorem nr_loop_exhaust (M : CMath α) (q : NRParams α) (tol : α) :
    ∀ (k i : ℕ) (ra rb : α),
      (∀ j, j < k → ¬ nr_res_at M q (ra, rb) j < tol) →
      nr_loop M q tol k i ra rb
        = ((nr_iterate M q k (ra, rb)).1, (nr_iterate M q k (ra, rb)).2, i + k) := by
  intro k
  induction k with
  | zero => intro i ra rb _; simp [nr_loop, nr_iterate]
  | succ k ih =>
    intro i ra rb hnone
    have h0 : ¬ nr_res M q ra rb < tol := hnone 0 (Nat.succ_pos k)
    have hb : ∀ j, j < k →
        ¬ nr_res_at M q ((nr_update M q ra rb).1, (nr_update M q ra rb).2) j < tol :=
      fun j hj => hnone (j + 1) (Nat.succ_lt_succ hj)
    have := ih (i + 1) (nr_update M q ra rb).1 (nr_update M q ra rb).2 hb
    simp only [nr_loop, h0, if_false, this]
    simp only [nr_iterate, Prod.mk.injEq, true_and]
    omega

/-- C17 (what the code does, for every point): the maximum-iterations warning
is logged exactly when the first pass whose step size is below the tolerance
is pass number `MAX_NR_ITERS` (index `MAX_NR_ITERS - 1`), i.e. when the loop
did converge, on its last permitted pass. When all `MAX_NR_ITERS` passes run
without the step size dropping below the tolerance, the counter ends at
`MAX_NR_ITERS`, the test `i+1 == MAX_NR_ITERS` fails and no warning is logged;
the last iterate is the result in both cases. -/
theorem C17_warning_only_when_last_pass_converges (M : CMath α) (s : saRefocusCalib α)
    (c point : Fin 3 → α) :
    ((img_refrac_point M s c point).warned = true ↔
      ∃ j0, j0 + 1 = s.MAX_NR_ITERS ∧
        (∀ j, j < j0 →
          ¬ nr_res_at M (point_params M s c point) (point_init M s c point) j
              < s.IMG_REFRAC_TOL) ∧
        nr_res_at M (point_params M s c point) (point_init M s c point) j0
          < s.IMG_REFRAC_TOL) ∧
    ((∀ j, j < s.MAX_NR_ITERS →
        ¬ nr_res_at M (point_params M s c point) (point_init M s c point) j
            < s.IMG_REFRAC_TOL) →
      (img_refrac_point M s c point).warned = false ∧
      (img_refrac_point M s c point).i = s.MAX_NR_ITERS ∧
      ((img_refrac_point M s c point).ra, (img_refrac_point M s c point).rb)
        = nr_iterate M (point_params M s c point) s.MAX_NR_ITERS (point_init M s c point)) := by
  have hexh : (∀ j, j < s.MAX_NR_ITERS →
        ¬ nr_res_at M (point_params M s c point) (point_init M s c point) j
            < s.IMG_REFRAC_TOL) →
      (img_refrac_point M s c point).warned = false ∧
      (img_refrac_point M s c point).i = s.MAX_NR_ITERS ∧
      ((img_refrac_point M s c point).ra, (img_refrac_point M s c point).rb)
        = nr_iterate M (point_params M s c point) s.MAX_NR_ITERS (point_init M s c point) := by
    intro hnone
    have h := nr_loop_exhaust M (point_params M s c point) s.IMG_REFRAC_TOL s.MAX_NR_ITERS 0
      (point_init M s c point).1 (point_init M s c point).2 hnone
    simp only [point_params, point_init] at h
    simp only [img_refrac_point, img_refrac_body, h, point_params, point_init, zero_add,
      decide_eq_false_iff_not, true_and, and_true]
    omega
  refine ⟨⟨fun hw => ?_, fun hj => ?_⟩, hexh⟩
  · by_cases hex : ∃ j, j < s.MAX_NR_ITERS ∧
        nr_res_at M (point_params M s c point) (point_init M s c point) j < s.IMG_REFRAC_TOL
    · classical
      have hlt := (Nat.find_spec hex).1
      have hat := (Nat.find_spec hex).2
      have hfirst : ∀ j, j < Nat.find hex →
          ¬ nr_res_at M (point_params M s c point) (point_init M s c point) j
              < s.IMG_REFRAC_TOL := by
        intro j hj hres
        exact Nat.find_min hex hj ⟨lt_trans hj hlt, hres⟩
      have h := nr_loop_break M (point_params M s c point) s.IMG_REFRAC_TOL s.MAX_NR_ITERS 0
        (point_init M s c point).1 (point_init M s c point).2 (Nat.find hex) hlt hfirst hat
      simp only [point_params, point_init] at h
      refine ⟨Nat.find hex, ?_, hfirst, hat⟩
      simpa [img_refrac_point, img_refrac_body, h] using hw
    · have hnone : ∀ j, j < s.MAX_NR_ITERS →
          ¬ nr_res_at M (point_params M s c point) (point_init M s c point) j
              < s.IMG_REFRAC_TOL := fun j hj hres => hex ⟨j, hj, hres⟩
      rw [(hexh hnone).1] at hw
      exact absurd hw (by decide)
  · obtain ⟨j0, hj0, hfirst, hat⟩ := hj
    have h := nr_loop_break M (point_params M s c point) s.IMG_REFRAC_TOL s.MAX_NR_ITERS 0
      (point_init M s c point).1 (point_init M s c point).2 j0 (by omega) hfirst hat
    simp only [point_params, point_init] at h
    simp [img_refrac_point, img_refrac_body, h, hj0]

/-- The real `sqrt`, `x ↦ x^(3/2)`, `cos`, `sin` and `atan2` (the argument of
`x + i y`) have the properties collected in `CMath.IsReal`. -/
theorem real_isReal :
    CMath.IsReal (⟨Real.sqrt, fun x => x ^ (3 / 2 : ℝ), Real.cos, Real.sin,
      fun y x => Complex.arg ⟨x, y⟩⟩ : CMath ℝ) := by
  refine ⟨fun x hx => ⟨Real.sqrt_nonneg x, Real.mul_self_sqrt hx⟩, fun x hx => ?_,
    fun x y => ?_⟩
  · show x ^ (3 / 2 : ℝ) = x * Real.sqrt x
    rw [Real.sqrt_eq_rpow, show (3 / 2 : ℝ) = 1 + 1 / 2 by norm_num,
      Real.rpow_add' hx (by norm_num), Real.rpow_one]
  · show Real.cos (Complex.arg ⟨x, y⟩) * Real.sqrt (x ^ 2 + y ^ 2) = x ∧
      Real.sin (Complex.arg ⟨x, y⟩) * Real.sqrt (x ^ 2 + y ^ 2) = y
    have habs : Real.sqrt (x ^ 2 + y ^ 2) = Complex.abs ⟨x, y⟩ := by
      rw [Complex.abs_apply, Complex.normSq_mk]
      congr 1
      ring
    rw [habs]
    by_cases hz : (⟨x, y⟩ : ℂ) = 0
    · have hx : x = 0 := by simpa using congrArg Complex.re hz
      have hy : y = 0 := by simpa using congrArg Complex.im hz
      subst hx
      subst hy
      simp [hz]
    · have hpos : Complex.abs ⟨x, y⟩ ≠ 0 := by simpa using hz
      rw [Complex.cos_arg hz, Complex.sin_arg]
      constructor
      · field_simp
      · field_simp

/-- C16: for every camera centre `c` and every column `point` of the input,
`img_refrac` writes the homogeneous point `(a_x, a_y, a_z, 1)` with
`a_z = zW` and `(a_x, a_y) = (c_x + ra*cos(phi), c_y + ra*sin(phi))`, where
`phi = atan2(X_y - c_y, X_x - c_x)` and `ra` is the final Newton iterate;
hence `a` lies on the front wall plane and its xy-offset from `c` is parallel
to that of the point (their cross product vanishes). -/
theorem C16_img_refrac_output (M : CMath α) (s : saRefocusCalib α) (c point : Fin 3 → α)
    (hM : M.IsReal) :
    (img_refrac_point M s c point).X_out
      = ![c 0 + (img_refrac_point M s c point).ra
              * M.cos (M.atan2 (point 1 - c 1) (point 0 - c 0)),
          c 1 + (img_refrac_point M s c point).ra
              * M.sin (M.atan2 (point 1 - c 1) (point 0 - c 0)),
          s.geom 0, 1] ∧
    (img_refrac_point M s c point).ra
      = (nr_loop M (point_params M s c point) s.IMG_REFRAC_TOL s.MAX_NR_ITERS 0
          (point_init M s c point).1 (point_init M s c point).2).1 ∧
    (img_refrac_point M s c point).X_out 2 = s.geom 0 ∧
    ((img_refrac_point M s c point).X_out 0 - c 0) * (point 1 - c 1)
      - ((img_refrac_point M s c point).X_out 1 - c 1) * (point 0 - c 0) = 0 ∧
    ∀ X : List (Fin 3 → α), img_refrac M s c X
      = X.map (fun p => ![c 0 + (img_refrac_point M s c p).ra
              * M.cos (M.atan2 (p 1 - c 1) (p 0 - c 0)),
          c 1 + (img_refrac_point M s c p).ra
              * M.sin (M.atan2 (p 1 - c 1) (p 0 - c 0)),
          s.geom 0, 1]) := by
  have hout : ∀ p : Fin 3 → α, (img_refrac_point M s c p).X_out
      = ![c 0 + (img_refrac_point M s c p).ra * M.cos (M.atan2 (p 1 - c 1) (p 0 - c 0)),
          c 1 + (img_refrac_point M s c p).ra * M.sin (M.atan2 (p 1 - c 1) (p 0 - c 0)),
          s.geom 0, 1] := by
    intro p
    simp only [img_refrac_point, img_refrac_body]
    rw [add_comm (c 0), add_comm (c 1)]
  refine ⟨hout point, rfl, ?_, ?_, ?_⟩
  · rw [hout point]
    rfl
  · obtain ⟨hcos, hsin⟩ := hM.2.2 (point 0 - c 0) (point 1 - c 1)
    rw [hout point]
    simp only [Matrix.cons_val_zero, Matrix.cons_val_one, Matrix.head_cons]
    generalize (img_refrac_point M s c point).ra = ra
    generalize M.sqrt ((point 0 - c 0) ^ 2 + (point 1 - c 1) ^ 2) = rp at hcos hsin
    generalize M.cos (M.atan2 (point 1 - c 1) (point 0 - c 0)) = cs at hcos
    generalize M.sin (M.atan2 (point 1 - c 1) (point 0 - c 0)) = sn at hsin
    rw [← hcos, ← hsin]
    ring
  · intro X
    simp only [img_refrac, hout]

/-- A non-negative `y` with `y * y = x` is the value of `sqrt x`. -/
theorem CMath.IsReal.sqrt_unique {M : CMath α} (hM : M.IsReal) {x y : α} (hy : 0 ≤ y)
    (h : y * y = x) : M.sqrt x = y := by
  have hx : 0 ≤ x := by rw [← h]; exact mul_self_nonneg y
  obtain ⟨hs0, hs⟩ := hM.1 x hx
  exact (mul_self_inj hs0 hy).mp (hs.trans h.symm)

/-- The straight-line initial guess in closed form: `ra = rp * (zW - c_z)/D`
and `rb = rp * (t + zW - c_z)/D` with `D = X_z - c_z`, when the camera is in
front of the wall and the point behind it. -/
theorem refrac_init_eq {M : CMath α} (hM : M.IsReal) (zW t : α) (c X : Fin 3 → α)
    (ht : 0 < t) (hc : c 2 < zW) (hX : zW + t < X 2) :
    refrac_init M zW t c X
      = (M.sqrt ((X 0 - c 0) ^ 2 + (X 1 - c 1) ^ 2) * ((zW - c 2) / (X 2 - c 2)),
         M.sqrt ((X 0 - c 0) ^ 2 + (X 1 - c 1) ^ 2) * ((t + zW - c 2) / (X 2 - c 2))) := by
  have hD : 0 < X 2 - c 2 := by linarith
  obtain ⟨hrp0, hrp⟩ := hM.1 ((X 0 - c 0) ^ 2 + (X 1 - c 1) ^ 2) (by positivity)
  simp only [refrac_init]
  generalize M.sqrt ((X 0 - c 0) ^ 2 + (X 1 - c 1) ^ 2) = rp at hrp0 hrp
  refine Prod.ext ?_ ?_
  · apply hM.sqrt_unique
    · exact mul_nonneg hrp0 (div_nonneg (by linarith) hD.le)
    · linear_combination ((zW - c 2) / (X 2 - c 2)) ^ 2 * hrp
  · apply hM.sqrt_unique
    · exact mul_nonneg hrp0 (div_nonneg (by linarith) hD.le)
    · linear_combination ((t + zW - c 2) / (X 2 - c 2)) ^ 2 * hrp

/-- On a ray of slope `ρ` the hypotenuse over the depth `d > 0` is
`d * sqrt(ρ² + 1)`. -/
theorem CMath.IsReal.sqrt_slope {M : CMath α} (hM : M.IsReal) (ρ d : α) (hd : 0 < d) :
    M.sqrt ((ρ * d) ^ 2 + d ^ 2) = d * M.sqrt (ρ ^ 2 + 1) := by
  obtain ⟨hh0, hh⟩ := hM.1 (ρ ^ 2 + 1) (by positivity)
  apply hM.sqrt_unique (mul_nonneg hd.le hh0)
  linear_combination d ^ 2 * hh

/-- The sine of the ray angle, `ρ d / sqrt((ρ d)² + d²)`, does not depend on
the depth `d > 0`. -/
theorem CMath.IsReal.sine_slope {M : CMath α} (hM : M.IsReal) (ρ d : α) (hd : 0 < d) :
    ρ * d / M.sqrt ((ρ * d) ^ 2 + d ^ 2) = ρ / M.sqrt (ρ ^ 2 + 1) := by
  rw [hM.sqrt_slope ρ d hd, mul_comm ρ d, mul_div_mul_left _ _ hd.ne']

/-- Equal refractive indices: the straight-line initial guess makes both
Snell residuals `f` and `g` vanish. -/
theorem degenerate_residuals {M : CMath α} (hM : M.IsReal) (zW n t : α) (c X : Fin 3 → α)
    (hn : n ≠ 0) (ht : 0 < t) (hc : c 2 < zW) (hX : zW + t < X 2) :
    nr_f M (refrac_params M zW n n n t c X)
        (refrac_init M zW t c X).1 (refrac_init M zW t c X).2 = 0 ∧
    nr_g M (refrac_params M zW n n n t c X)
        (refrac_init M zW t c X).1 (refrac_init M zW t c X).2 = 0 := by
  have hD : X 2 - c 2 ≠ 0 := by
    have : 0 < X 2 - c 2 := by linarith
    exact this.ne'
  have hda : 0 < zW - c 2 := by linarith
  have hdp : 0 < X 2 - (t + zW) := by linarith
  rw [refrac_init_eq hM zW t c X ht hc hX]
  simp only [nr_f, nr_g, refrac_params]
  generalize M.sqrt ((X 0 - c 0) ^ 2 + (X 1 - c 1) ^ 2) = rp
  have e2 : rp * ((t + zW - c 2) / (X 2 - c 2)) - rp * ((zW - c 2) / (X 2 - c 2))
      = rp / (X 2 - c 2) * t := by ring
  have e3 : t + zW - zW = t := by ring
  have e4 : rp - rp * ((t + zW - c 2) / (X 2 - c 2))
      = rp / (X 2 - c 2) * (X 2 - (t + zW)) := by
    field_simp
    ring
  have e1 : rp * ((zW - c 2) / (X 2 - c 2)) = rp / (X 2 - c 2) * (zW - c 2) := by ring
  rw [e2, e3, e4, e1, div_self hn, one_mul, one_mul, hM.sine_slope _ _ hda,
    hM.sine_slope _ _ ht, hM.sine_slope _ _ hdp]
  exact ⟨sub_self _, sub_self _⟩

/-- When both residuals vanish the Newton-Raphson update leaves `(ra, rb)`
unchanged and the step size is 0. -/
theorem nr_update_of_residuals_zero (M : CMath α) (q : NRParams α) (ra rb : α)
    (hf : nr_f M q ra rb = 0) (hg : nr_g M q ra rb = 0) :
    nr_update M q ra rb = (ra, rb) ∧ nr_res M q ra rb = 0 := by
  have hu : nr_update M q ra rb = (ra, rb) := by
    simp [nr_update, hf, hg]
  refine ⟨hu, ?_⟩
  simp [nr_res, hu]

/-- When both residuals vanish at the start, the loop returns the start with
the counter unchanged, whatever the iteration cap. -/
theorem nr_loop_of_residuals_zero (M : CMath α) (q : NRParams α) (tol : α) (htol : 0 < tol)
    (k i : ℕ) (ra rb : α) (hf : nr_f M q ra rb = 0) (hg : nr_g M q ra rb = 0) :
    nr_loop M q tol k i ra rb = (ra, rb, i) := by
  obtain ⟨hu, hres⟩ := nr_update_of_residuals_zero M q ra rb hf hg
  cases k with
  | zero => rfl
  | succ k => simp [nr_loop, hres, htol, hu]

/-- Equal refractive indices: `img_refrac` stops at its first pass with the
counter at 0 and writes the point where the segment from `c` to `X` meets the
plane `z = zW`. -/
theorem degenerate_img_refrac {M : CMath α} (hM : M.IsReal) (zW n t tol : α) (maxit : ℕ)
    (c X : Fin 3 → α) (hn : n ≠ 0) (ht : 0 < t) (hc : c 2 < zW) (hX : zW + t < X 2)
    (htol : 0 < tol) :
    (img_refrac_body M zW n n n t tol maxit c X).i = 0 ∧
    (img_refrac_body M zW n n n t tol maxit c X).X_out
      = ![c 0 + (X 0 - c 0) * (zW - c 2) / (X 2 - c 2),
          c 1 + (X 1 - c 1) * (zW - c 2) / (X 2 - c 2), zW, 1] := by
  obtain ⟨hf, hg⟩ := degenerate_residuals hM zW n t c X hn ht hc hX
  have hloop := nr_loop_of_residuals_zero M (refrac_params M zW n n n t c X) tol htol maxit 0
    _ _ hf hg
  obtain ⟨hcos, hsin⟩ := hM.2.2 (X 0 - c 0) (X 1 - c 1)
  simp only [img_refrac_body, hloop, true_and]
  rw [refrac_init_eq hM zW t c X ht hc hX]
  simp only []
  generalize M.sqrt ((X 0 - c 0) ^ 2 + (X 1 - c 1) ^ 2) = rp at hcos hsin
  generalize M.cos (M.atan2 (X 1 - c 1) (X 0 - c 0)) = cs at hcos
  generalize M.sin (M.atan2 (X 1 - c 1) (X 0 - c 0)) = sn at hsin
  have h0 : rp * ((zW - c 2) / (X 2 - c 2)) * cs + c 0
      = c 0 + (X 0 - c 0) * (zW - c 2) / (X 2 - c 2) := by
    rw [← hcos]
    ring
  have h1 : rp * ((zW - c 2) / (X 2 - c 2)) * sn + c 1
      = c 1 + (X 1 - c 1) * (zW - c 2) / (X 2 - c 2) := by
    rw [← hsin]
    ring
  rw [h0, h1]

/-- A matrix `P` that annihilates the camera centre maps the point of the
segment from `c` to `X` on the plane `z = zW` to a multiple of the image of
`X`, so both have the same pinhole projection. -/
theorem project_on_segment (P : Fin 3 → Fin 4 → α) (zW : α) (c X : Fin 3 → α)
    (hc : c 2 < zW) (hX : zW < X 2) (hP : ∀ i, ∑ j, P i j * hom c j = 0) :
    (![(∑ j, P 0 j * (![c 0 + (X 0 - c 0) * (zW - c 2) / (X 2 - c 2),
            c 1 + (X 1 - c 1) * (zW - c 2) / (X 2 - c 2), zW, 1] : Fin 4 → α) j)
          / (∑ j, P 2 j * (![c 0 + (X 0 - c 0) * (zW - c 2) / (X 2 - c 2),
            c 1 + (X 1 - c 1) * (zW - c 2) / (X 2 - c 2), zW, 1] : Fin 4 → α) j),
        (∑ j, P 1 j * (![c 0 + (X 0 - c 0) * (zW - c 2) / (X 2 - c 2),
            c 1 + (X 1 - c 1) * (zW - c 2) / (X 2 - c 2), zW, 1] : Fin 4 → α) j)
          / (∑ j, P 2 j * (![c 0 + (X 0 - c 0) * (zW - c 2) / (X 2 - c 2),
            c 1 + (X 1 - c 1) * (zW - c 2) / (X 2 - c 2), zW, 1] : Fin 4 → α) j)]
      : Fin 2 → α) = pinhole_project P X := by
  have hD : X 2 - c 2 ≠ 0 := by
    have : 0 < X 2 - c 2 := by linarith
    exact this.ne'
  have hl : (zW - c 2) / (X 2 - c 2) ≠ 0 := by
    have h1 : 0 < zW - c 2 := by linarith
    have h2 : 0 < X 2 - c 2 := by linarith
    exact (div_pos h1 h2).ne'
  have hz : zW = c 2 + (X 2 - c 2) * ((zW - c 2) / (X 2 - c 2)) := by
    field_simp
  have hrow : ∀ i, (∑ j, P i j * (![c 0 + (X 0 - c 0) * (zW - c 2) / (X 2 - c 2),
        c 1 + (X 1 - c 1) * (zW - c 2) / (X 2 - c 2), zW, 1] : Fin 4 → α) j)
      = (zW - c 2) / (X 2 - c 2) * ∑ j, P i j * hom X j := by
    intro i
    have hci := hP i
    simp only [Fin.sum_univ_four, hom, Matrix.cons_val_zero, Matrix.cons_val_one,
      Matrix.head_cons, Matrix.cons_val_two, Matrix.tail_cons, Matrix.cons_val_three] at hci ⊢
    linear_combination (1 - (zW - c 2) / (X 2 - c 2)) * hci + P i 2 * hz
  simp only [pinhole_project, hrow, mul_div_mul_left _ _ hl]

/-- Equal refractive indices: at the straight-line initial guess the Jacobian
determinant `dfdra*dgdrb - dfdrb*dgdra` is positive, so the Newton-Raphson
update divides by a non-zero number. -/
theorem degenerate_jacobian_pos {M : CMath α} (hM : M.IsReal) (zW n t : α)
    (c X : Fin 3 → α) (hn : n ≠ 0) (ht : 0 < t) (hc : c 2 < zW) (hX : zW + t < X 2) :
    0 < nr_dfdra M (refrac_params M zW n n n t c X)
            (refrac_init M zW t c X).1 (refrac_init M zW t c X).2
          * nr_dgdrb M (refrac_params M zW n n n t c X)
            (refrac_init M zW t c X).1 (refrac_init M zW t c X).2
        - nr_dfdrb M (refrac_params M zW n n n t c X)
            (refrac_init M zW t c X).1 (refrac_init M zW t c X).2
          * nr_dgdra M (refrac_params M zW n n n t c X)
            (refrac_init M zW t c X).1 (refrac_init M zW t c X).2 := by
  have hDpos : 0 < X 2 - c 2 := by linarith
  have hD : X 2 - c 2 ≠ 0 := hDpos.ne'
  have hda : 0 < zW - c 2 := by linarith
  have hdp : 0 < X 2 - (t + zW) := by linarith
  rw [refrac_init_eq hM zW t c X ht hc hX]
  simp only [nr_dfdra, nr_dfdrb, nr_dgdra, nr_dgdrb, refrac_params]
  generalize M.sqrt ((X 0 - c 0) ^ 2 + (X 1 - c 1) ^ 2) = rp
  have a1 : (rp * ((zW - c 2) / (X 2 - c 2))) ^ 2 + (zW - c 2) ^ 2
      = (rp / (X 2 - c 2) * (zW - c 2)) ^ 2 + (zW - c 2) ^ 2 := by ring
  have a2 : (rp * ((zW - c 2) / (X 2 - c 2)) - rp * ((t + zW - c 2) / (X 2 - c 2))) ^ 2
        + (t + zW - zW) ^ 2
      = (rp / (X 2 - c 2) * t) ^ 2 + t ^ 2 := by ring
  have a3 : (rp * ((t + zW - c 2) / (X 2 - c 2)) - rp) ^ 2 + (X 2 - (t + zW)) ^ 2
      = (rp / (X 2 - c 2) * (X 2 - (t + zW))) ^ 2 + (X 2 - (t + zW)) ^ 2 := by
    field_simp
    ring
  rw [a1, a2, a3]
  have p1 := hM.2.1 ((rp / (X 2 - c 2) * (zW - c 2)) ^ 2 + (zW - c 2) ^ 2) (by positivity)
  have p2 := hM.2.1 ((rp / (X 2 - c 2) * t) ^ 2 + t ^ 2) (by positivity)
  have p3 := hM.2.1 ((rp / (X 2 - c 2) * (X 2 - (t + zW))) ^ 2 + (X 2 - (t + zW)) ^ 2)
    (by positivity)
  rw [p1, p2, p3, hM.sqrt_slope _ _ hda, hM.sqrt_slope _ _ ht, hM.sqrt_slope _ _ hdp,
    div_self hn]
  obtain ⟨hh0, hh⟩ := hM.1 ((rp / (X 2 - c 2)) ^ 2 + 1) (by positivity)
  generalize M.sqrt ((rp / (X 2 - c 2)) ^ 2 + 1) = h at hh0 hh
  have hhpos : 0 < h := by
    rcases hh0.lt_or_eq with hlt | heq
    · exact hlt
    · exfalso
      rw [← heq] at hh
      have : (0 : α) < (rp / (X 2 - c 2)) ^ 2 + 1 := by positivity
      rw [← hh] at this
      simp at this
  have n1 : (rp * ((zW - c 2) / (X 2 - c 2))) ^ 2 = (h * h - 1) * (zW - c 2) ^ 2 := by
    linear_combination (-((zW - c 2) ^ 2)) * hh
  have n2 : (rp * ((zW - c 2) / (X 2 - c 2)) - rp * ((t + zW - c 2) / (X 2 - c 2)))
        * (2 * (rp * ((zW - c 2) / (X 2 - c 2))) - 2 * (rp * ((t + zW - c 2) / (X 2 - c 2))))
      = 2 * ((h * h - 1) * t ^ 2) := by
    linear_combination (-(2 * t ^ 2)) * hh
  have n3 : (rp * ((t + zW - c 2) / (X 2 - c 2)) - rp)
        * (2 * (rp * ((t + zW - c 2) / (X 2 - c 2))) - 2 * rp)
      = 2 * ((h * h - 1) * (X 2 - (t + zW)) ^ 2) := by
    have hb : rp * ((t + zW - c 2) / (X 2 - c 2)) - rp
        = -(rp / (X 2 - c 2) * (X 2 - (t + zW))) := by
      field_simp
      ring
    have hb2 : 2 * (rp * ((t + zW - c 2) / (X 2 - c 2))) - 2 * rp
        = -(2 * (rp / (X 2 - c 2) * (X 2 - (t + zW)))) := by
      linear_combination 2 * hb
    rw [hb, hb2]
    linear_combination (-(2 * (X 2 - (t + zW)) ^ 2)) * hh
  have d1 : ∀ d : α, (rp / (X 2 - c 2) * d) ^ 2 + d ^ 2 = h * h * d ^ 2 := by
    intro d
    linear_combination (-(d ^ 2)) * hh
  simp only [one_mul]
  rw [n1, n2, n3, d1, d1, d1]
  generalize zW - c 2 = da at hda
  generalize X 2 - (t + zW) = dp at hdp
  have key : (1 / (da * h) - (h * h - 1) * da ^ 2 / (h * h * da ^ 2 * (da * h)) + 1 / (t * h)
          - 2 * ((h * h - 1) * t ^ 2) / (2 * (h * h * t ^ 2 * (t * h))))
        * (1 / (t * h) + 1 / (dp * h)
          - 2 * ((h * h - 1) * t ^ 2) / (2 * (h * h * t ^ 2 * (t * h)))
          - 2 * ((h * h - 1) * dp ^ 2) / (2 * (h * h * dp ^ 2 * (dp * h))))
        - (2 * ((h * h - 1) * t ^ 2) / (2 * (h * h * t ^ 2 * (t * h))) - 1 / (t * h))
          * (2 * ((h * h - 1) * t ^ 2) / (2 * (h * h * t ^ 2 * (t * h))) - 1 / (t * h))
      = (da + t + dp) / (da * t * dp * (h * h) ^ 3) := by
    field_simp
    ring
  rw [key]
  positivity

/-- C18: with the real math functions, equal refractive indices
`n1 = n2 = n3` (positive), a wall of positive thickness, `c_z < zW`,
`X_z > zW + t` and a positive tolerance, the straight-line initial guess makes
both Snell residuals `f` and `g` zero (with a non-singular Jacobian), so
`img_refrac` converges on its first update (step size below the tolerance at
pass 0, counter left at 0) and returns the point where the segment from `c` to
`X` meets the plane `z = zW`; consequently, for a camera `cam` at `c` whose
matrix `P` satisfies `P*(c,1) = 0`, `project_point(cam, X)` is the pinhole
projection of `X` through `P`. -/
theorem C18_equal_indices_is_pinhole (M : CMath α) (s : saRefocusCalib α) (c X : Fin 3 → α)
    (hM : M.IsReal) (hn12 : s.geom 1 = s.geom 2) (hn23 : s.geom 2 = s.geom 3)
    (hn : 0 < s.geom 1) (ht : 0 < s.geom 4) (hc : c 2 < s.geom 0)
    (hX : s.geom 0 + s.geom 4 < X 2) (htol : 0 < s.IMG_REFRAC_TOL) :
    (nr_f M (point_params M s c X) (point_init M s c X).1 (point_init M s c X).2 = 0 ∧
      nr_g M (point_params M s c X) (point_init M s c X).1 (point_init M s c X).2 = 0) ∧
    0 < nr_dfdra M (point_params M s c X) (point_init M s c X).1 (point_init M s c X).2
          * nr_dgdrb M (point_params M s c X) (point_init M s c X).1 (point_init M s c X).2
        - nr_dfdrb M (point_params M s c X) (point_init M s c X).1 (point_init M s c X).2
          * nr_dgdra M (point_params M s c X) (point_init M s c X).1 (point_init M s c X).2 ∧
    (nr_res_at M (point_params M s c X) (point_init M s c X) 0 < s.IMG_REFRAC_TOL ∧
      (img_refrac_point M s c X).i = 0) ∧
    (img_refrac_point M s c X).X_out
      = ![c 0 + (X 0 - c 0) * (s.geom 0 - c 2) / (X 2 - c 2),
          c 1 + (X 1 - c 1) * (s.geom 0 - c 2) / (X 2 - c 2), s.geom 0, 1] ∧
    ∀ (cam : ℕ) (P : Fin 3 → Fin 4 → α),
      s.cam_locations_[cam]? = some c → s.P_mats_[cam]? = some P →
      (∀ i, ∑ j, P i j * hom c j = 0) →
      project_point M s cam X = some (pinhole_project P X) := by
  have e2 : s.geom 2 = s.geom 1 := hn12.symm
  have e3 : s.geom 3 = s.geom 1 := (hn12.trans hn23).symm
  have hres := degenerate_residuals hM (s.geom 0) (s.geom 1) (s.geom 4) c X hn.ne' ht hc hX
  have hjac := degenerate_jacobian_pos hM (s.geom 0) (s.geom 1) (s.geom 4) c X hn.ne' ht hc hX
  have hbody := degenerate_img_refrac hM (s.geom 0) (s.geom 1) (s.geom 4) s.IMG_REFRAC_TOL
    s.MAX_NR_ITERS c X hn.ne' ht hc hX htol
  have hzero := (nr_update_of_residuals_zero M _ _ _ hres.1 hres.2).2
  simp only [point_params, point_init, img_refrac_point, e2, e3]
  refine ⟨hres, hjac, ⟨?_, hbody.1⟩, hbody.2, ?_⟩
  · simp only [nr_res_at, nr_iterate, hzero]
    exact htol
  · intro cam P hcam hPm hP
    have hXz : s.geom 0 < X 2 := by linarith
    simp only [project_point, hcam, hPm, img_refrac_point, e2, e3, hbody.2]
    rw [project_on_segment P (s.geom 0) c X hc hXz hP]

/-- C16 over the reals at the camera centre `(0, 0, -10)` and the point
`(10, 5, 50)`. -/
theorem C16_img_refrac_output_witness :
    CMath.IsReal (⟨Real.sqrt, fun x => x ^ (3 / 2 : ℝ), Real.cos, Real.sin,
      fun y x => Complex.arg ⟨x, y⟩⟩ : CMath ℝ) ∧
    (img_refrac_point (⟨Real.sqrt, fun x => x ^ (3 / 2 : ℝ), Real.cos, Real.sin,
        fun y x => Complex.arg ⟨x, y⟩⟩ : CMath ℝ) (exCalib ℝ) ![0, 0, -10] (exPoint ℝ)).X_out 2
      = (exCalib ℝ).geom 0 ∧
    ((img_refrac_point (⟨Real.sqrt, fun x => x ^ (3 / 2 : ℝ), Real.cos, Real.sin,
        fun y x => Complex.arg ⟨x, y⟩⟩ : CMath ℝ) (exCalib ℝ) ![0, 0, -10] (exPoint ℝ)).X_out 0
        - (![0, 0, -10] : Fin 3 → ℝ) 0) * (exPoint ℝ 1 - (![0, 0, -10] : Fin 3 → ℝ) 1)
      - ((img_refrac_point (⟨Real.sqrt, fun x => x ^ (3 / 2 : ℝ), Real.cos, Real.sin,
        fun y x => Complex.arg ⟨x, y⟩⟩ : CMath ℝ) (exCalib ℝ) ![0, 0, -10] (exPoint ℝ)).X_out 1
        - (![0, 0, -10] : Fin 3 → ℝ) 1) * (exPoint ℝ 0 - (![0, 0, -10] : Fin 3 → ℝ) 0) = 0 :=
  ⟨real_isReal,
    (C16_img_refrac_output _ (exCalib ℝ) ![0, 0, -10] (exPoint ℝ) real_isReal).2.2.1,
    (C16_img_refrac_output _ (exCalib ℝ) ![0, 0, -10] (exPoint ℝ) real_isReal).2.2.2.1⟩

/-- C18 over the reals at the example calibration (all indices 1, wall at 0
of thickness 5, camera at `(0, 0, -10)` with matrix `[I | -c]`) and the point
`(10, 5, 50)`. -/
theorem C18_equal_indices_is_pinhole_witness :
    CMath.IsReal (⟨Real.sqrt, fun x => x ^ (3 / 2 : ℝ), Real.cos, Real.sin,
      fun y x => Complex.arg ⟨x, y⟩⟩ : CMath ℝ) ∧
    ((exCalib ℝ).geom 1 = (exCalib ℝ).geom 2 ∧ (exCalib ℝ).geom 2 = (exCalib ℝ).geom 3 ∧
      0 < (exCalib ℝ).geom 1 ∧ 0 < (exCalib ℝ).geom 4) ∧
    ((![0, 0, -10] : Fin 3 → ℝ) 2 < (exCalib ℝ).geom 0 ∧
      (exCalib ℝ).geom 0 + (exCalib ℝ).geom 4 < exPoint ℝ 2 ∧
      0 < (exCalib ℝ).IMG_REFRAC_TOL) ∧
    project_point (⟨Real.sqrt, fun x => x ^ (3 / 2 : ℝ), Real.cos, Real.sin,
        fun y x => Complex.arg ⟨x, y⟩⟩ : CMath ℝ) (exCalib ℝ) 0 (exPoint ℝ)
      = some (pinhole_project ![![1, 0, 0, 0], ![0, 1, 0, 0], ![0, 0, 1, 10]] (exPoint ℝ)) :=
  have h12 : (exCalib ℝ).geom 1 = (exCalib ℝ).geom 2 := by simp [exCalib]
  have h23 : (exCalib ℝ).geom 2 = (exCalib ℝ).geom 3 := by simp [exCalib]
  have hn : 0 < (exCalib ℝ).geom 1 := by simp [exCalib]
  have ht : 0 < (exCalib ℝ).geom 4 := by simp [exCalib]
  have hc : (![0, 0, -10] : Fin 3 → ℝ) 2 < (exCalib ℝ).geom 0 := by simp [exCalib]
  have hX : (exCalib ℝ).geom 0 + (exCalib ℝ).geom 4 < exPoint ℝ 2 := by
    norm_num [exCalib, exPoint]
  have htol : 0 < (exCalib ℝ).IMG_REFRAC_TOL := by norm_num [exCalib]
  have hP : ∀ i, ∑ j, (![![1, 0, 0, 0], ![0, 1, 0, 0], ![0, 0, 1, 10]] : Fin 3 → Fin 4 → ℝ) i j
      * hom (![0, 0, -10] : Fin 3 → ℝ) j = 0 := by
    intro i
    fin_cases i <;> simp [Fin.sum_univ_four, hom]
  ⟨real_isReal, ⟨h12, h23, hn, ht⟩, ⟨hc, hX, htol⟩,
    (C18_equal_indices_is_pinhole _ (exCalib ℝ) ![0, 0, -10] (exPoint ℝ) real_isReal
      h12 h23 hn ht hc hX htol).2.2.2.2 0 _ rfl rfl hP⟩

/-- The clash check fires exactly when two distinct indices below the camera
count carry the same name. -/
theorem name_clash_iff (names : List String) :
    name_clash names names.length = true ↔
      ∃ i j, i < names.length ∧ j < names.length ∧ i ≠ j ∧ names[i]? = names[j]? := by
  simp only [name_clash, List.any_eq_true, List.mem_range]
  constructor
  · rintro ⟨i, hi, j, hj, h⟩
    by_cases hij : i = j
    · simp [hij] at h
    · simp only [hij, if_false, decide_eq_true_eq] at h
      refine ⟨i, j, hi, hj, hij, ?_⟩
      rw [List.getD_eq_getElem?_getD, List.getD_eq_getElem?_getD,
        List.getElem?_eq_getElem hi, List.getElem?_eq_getElem hj] at h
      rw [List.getElem?_eq_getElem hi, List.getElem?_eq_getElem hj]
      simpa using h
  · rintro ⟨i, j, hi, hj, hij, h⟩
    refine ⟨i, hi, j, hj, ?_⟩
    simp only [hij, if_false, decide_eq_true_eq]
    rw [List.getD_eq_getElem?_getD, List.getD_eq_getElem?_getD, h]

/-- A list in which no two distinct positions hold equal entries has no
duplicates. -/
theorem nodup_of_no_clash (names : List String)
    (h : ¬ ∃ i j, i < names.length ∧ j < names.length ∧ i ≠ j ∧ names[i]? = names[j]?) :
    names.Nodup := by
  rw [List.nodup_iff_getElem?_ne_getElem?]
  intro i j hij hj heq
  exact h ⟨i, j, lt_trans hij hj, hj, Nat.ne_of_lt hij, heq⟩

/-- C19 (counterexample): a calibration path that cannot be opened. No camera
is read, so no two cameras share a name, yet `read_calib_data` terminates with
the fatal error "Could not open calibration file". -/
theorem C19_counterexample :
    read_calib_data (exFresh ℚ) none = Except.error Fatal.could_not_open ∧
    (exFresh ℚ).cam_names_ = [] ∧
    ¬ ∃ i j, i < (exFresh ℚ).cam_names_.length ∧ j < (exFresh ℚ).cam_names_.length ∧
        i ≠ j ∧ (exFresh ℚ).cam_names_[i]? = (exFresh ℚ).cam_names_[j]? := by
  refine ⟨rfl, rfl, ?_⟩
  rintro ⟨i, j, hi, _⟩
  simp [exFresh] at hi

/-- The clash check over the first `n` entries of a list that has at least `n`
entries fires exactly when two distinct indices below `n` carry the same
name. -/
theorem name_clash_iff_le (names : List String) (n : ℕ) (hn : n ≤ names.length) :
    name_clash names n = true ↔
      ∃ i j, i < n ∧ j < n ∧ i ≠ j ∧ names[i]? = names[j]? := by
  simp only [name_clash, List.any_eq_true, List.mem_range]
  constructor
  · rintro ⟨i, hi, j, hj, h⟩
    have hi1 : i < names.length := lt_of_lt_of_le hi hn
    have hj1 : j < names.length := lt_of_lt_of_le hj hn
    by_cases hij : i = j
    · simp [hij] at h
    · simp only [hij, if_false, decide_eq_true_eq] at h
      refine ⟨i, j, hi, hj, hij, ?_⟩
      rw [List.getD_eq_getElem?_getD, List.getD_eq_getElem?_getD,
        List.getElem?_eq_getElem hi1, List.getElem?_eq_getElem hj1] at h
      rw [List.getElem?_eq_getElem hi1, List.getElem?_eq_getElem hj1]
      simpa using h
  · rintro ⟨i, j, hi, hj, hij, h⟩
    refine ⟨i, hi, j, hj, ?_⟩
    simp only [hij, if_false, decide_eq_true_eq]
    rw [List.getD_eq_getElem?_getD, List.getD_eq_getElem?_getD, h]

/-- What `read_calib_data` does on any session when the file opens: the names
of the file are appended to `cam_names_`, and the call exits exactly when two
of the first `num_cams_` entries of the extended list are equal. -/
theorem read_calib_data_spec (s : saRefocusCalib α) (F : CalibFile α) :
    ((∃ e, read_calib_data s (some F) = Except.error e) ↔
      ∃ i j, i < F.cameras.length ∧ j < F.cameras.length ∧ i ≠ j ∧
        (s.cam_names_ ++ F.cameras.map (fun cam => strip_cr cam.cam_name))[i]?
          = (s.cam_names_ ++ F.cameras.map (fun cam => strip_cr cam.cam_name))[j]?) ∧
    (∀ e, read_calib_data s (some F) = Except.error e → e = Fatal.name_clash) ∧
    (∀ s1, read_calib_data s (some F) = Except.ok s1 →
      s1.cam_names_ = s.cam_names_ ++ F.cameras.map (fun cam => strip_cr cam.cam_name) ∧
      (s1.cam_names_.take F.cameras.length).Nodup) := by
  have hnames : (read_calib_fields s F).cam_names_
      = s.cam_names_ ++ F.cameras.map (fun cam => strip_cr cam.cam_name) := rfl
  have hnum : (read_calib_fields s F).num_cams_ = F.cameras.length := rfl
  have hlen : F.cameras.length
      ≤ (s.cam_names_ ++ F.cameras.map (fun cam => strip_cr cam.cam_name)).length := by
    simp
  have hiff := name_clash_iff_le _ _ hlen
  simp only [read_calib_data, hnames, hnum]
  by_cases hclash : name_clash
      (s.cam_names_ ++ F.cameras.map (fun cam => strip_cr cam.cam_name))
      F.cameras.length = true
  · simp only [hclash, if_true]
    refine ⟨⟨fun _ => hiff.mp hclash, fun _ => ⟨_, rfl⟩⟩, ?_, ?_⟩
    · intro e he
      cases he
      rfl
    · intro s1 hs1
      cases hs1
  · have hno := mt hiff.mpr hclash
    simp only [hclash, if_false]
    refine ⟨⟨?_, fun h => absurd h hno⟩, ?_, ?_⟩
    · rintro ⟨e, he⟩
      cases he
    · intro e he
      cases he
    · intro s1 hs1
      cases hs1
      refine ⟨hnames, ?_⟩
      rw [hnames]
      apply nodup_of_no_clash
      rintro ⟨i, j, hi, hj, hij, heq⟩
      have hi1 : i < F.cameras.length := lt_of_lt_of_le hi (by simp)
      have hj1 : j < F.cameras.length := lt_of_lt_of_le hj (by simp)
      rw [List.getElem?_take_of_lt hi1, List.getElem?_take_of_lt hj1] at heq
      exact hno ⟨i, j, hi1, hj1, hij, heq⟩

/-- A session that already holds the names `a`, `b` loads a file whose two
cameras are both named `c` without exit: the check compares the entries at
indices 0 and 1, which are the old names. -/
theorem read_calib_data_exLoaded :
    ∃ s1, read_calib_data (exLoaded ℚ) (some (exFileSameName ℚ)) = Except.ok s1 ∧
      s1.cam_names_ = ["a", "b", "c", "c"] ∧ s1.num_cams_ = 2 := by
  have h : name_clash (read_calib_fields (exLoaded ℚ) (exFileSameName ℚ)).cam_names_
      (read_calib_fields (exLoaded ℚ) (exFileSameName ℚ)).num_cams_ = false := by
    decide
  refine ⟨read_calib_fields (exLoaded ℚ) (exFileSameName ℚ), ?_, ?_, rfl⟩
  · simp only [read_calib_data, h]
    rfl
  · decide

/-- C19 (amended): when the calibration file can be opened, `read_calib_data`
appends the file's camera names (after removal of a trailing carriage return)
to `cam_names_` and terminates with a fatal error if and only if two of the
first `num_cams_` entries of `cam_names_` at distinct indices are equal, where
`num_cams_` is the camera count of the file; that error is the name-clash one,
and on normal return those first `num_cams_` entries are pairwise distinct. On
a session that holds no camera names before the call, the call terminates with
a fatal error if and only if two cameras of the file at distinct indices have
the same name, and whenever it returns normally the loaded camera names are
those of the file and pairwise distinct. -/
theorem C19_fatal_iff_name_clash (s : saRefocusCalib α) (F : CalibFile α) :
    ((∃ e, read_calib_data s (some F) = Except.error e) ↔
      ∃ i j, i < F.cameras.length ∧ j < F.cameras.length ∧ i ≠ j ∧
        (s.cam_names_ ++ F.cameras.map (fun cam => strip_cr cam.cam_name))[i]?
          = (s.cam_names_ ++ F.cameras.map (fun cam => strip_cr cam.cam_name))[j]?) ∧
    (∀ e, read_calib_data s (some F) = Except.error e → e = Fatal.name_clash) ∧
    (∀ s1, read_calib_data s (some F) = Except.ok s1 →
      s1.cam_names_ = s.cam_names_ ++ F.cameras.map (fun cam => strip_cr cam.cam_name) ∧
      (s1.cam_names_.take F.cameras.length).Nodup) ∧
    (s.cam_names_ = [] →
      ((∃ e, read_calib_data s (some F) = Except.error e) ↔
        ∃ i j, i < F.cameras.length ∧ j < F.cameras.length ∧ i ≠ j ∧
          (F.cameras.map (fun cam => strip_cr cam.cam_name))[i]?
            = (F.cameras.map (fun cam => strip_cr cam.cam_name))[j]?) ∧
      (∀ s1, read_calib_data s (some F) = Except.ok s1 →
        s1.cam_names_ = F.cameras.map (fun cam => strip_cr cam.cam_name) ∧
        s1.cam_names_.Nodup)) := by
  obtain ⟨h1, h2, h3⟩ := read_calib_data_spec s F
  refine ⟨h1, h2, h3, fun hfresh => ⟨?_, ?_⟩⟩
  · rw [h1, hfresh, List.nil_append]
  · intro s1 hs1
    obtain ⟨hn, hd⟩ := h3 s1 hs1
    rw [hfresh, List.nil_append] at hn
    refine ⟨hn, ?_⟩
    rw [hn, List.take_of_length_le (by simp)] at hd
    rw [hn]
    exact hd

/-- The example file loads without a name clash. -/
theorem read_calib_data_exFile :
    read_calib_data (exFresh ℝ) (some (exFile ℝ))
      = Except.ok (read_calib_fields (exFresh ℝ) (exFile ℝ)) := by
  have h : name_clash (read_calib_fields (exFresh ℝ) (exFile ℝ)).cam_names_
      (read_calib_fields (exFresh ℝ) (exFile ℝ)).num_cams_ = false := by
    decide
  simp only [read_calib_data, h]
  rfl

/-- C20: after `read_calib_data` has loaded a calibration whose refractive
flag is non-zero and is followed by the five numbers `zW t n1 n2 n3` in that
order, `geom` holds `(zW, n1, n2, n3, t)`, so `img_refrac` runs with wall
position `zW`, indices `n1`, `n2`, `n3` and thickness `t`, and `geom` is what
`setRefractive(ref, zW, n1, n2, n3, t)` stores; when the flag is 0 `geom` is
left unchanged. -/
theorem C20_geom_placement (M : CMath α) (s s1 : saRefocusCalib α) (F : CalibFile α)
    (hok : read_calib_data s (some F) = Except.ok s1) :
    (F.ref_flag ≠ 0 →
      (s1.geom 0 = F.ref_values 0 ∧ s1.geom 4 = F.ref_values 1 ∧
        s1.geom 1 = F.ref_values 2 ∧ s1.geom 2 = F.ref_values 3 ∧
        s1.geom 3 = F.ref_values 4) ∧
      (∀ c point, img_refrac_point M s1 c point
        = img_refrac_body M (F.ref_values 0) (F.ref_values 2) (F.ref_values 3)
            (F.ref_values 4) (F.ref_values 1) s1.IMG_REFRAC_TOL s1.MAX_NR_ITERS c point) ∧
      s1.geom = (setRefractive s F.ref_flag (F.ref_values 0) (F.ref_values 2)
        (F.ref_values 3) (F.ref_values 4) (F.ref_values 1)).geom) ∧
    (F.ref_flag = 0 → s1.geom = s.geom) ∧
    s1.REF_FLAG = F.ref_flag := by
  have hs1 : s1 = read_calib_fields s F := by
    simp only [read_calib_data] at hok
    split_ifs at hok
    cases hok
    rfl
  subst hs1
  refine ⟨fun hflag => ?_, fun hflag => ?_, rfl⟩
  · have hgeom : ∀ k : Fin 5, (read_calib_fields s F).geom k
        = (![F.ref_values 0, F.ref_values 2, F.ref_values 3, F.ref_values 4,
            F.ref_values 1] : Fin 5 → α) k := by
      intro k
      simp only [read_calib_fields, hflag, ne_eq, not_false_eq_true, if_true]
      fin_cases k <;> simp [Function.update]
    refine ⟨⟨hgeom 0, hgeom 4, hgeom 1, hgeom 2, hgeom 3⟩, ?_, ?_⟩
    · intro c point
      simp only [img_refrac_point, hgeom]
      rfl
    · funext k
      rw [hgeom k]
      simp only [setRefractive]
      fin_cases k <;> simp [Function.update]
  · simp [read_calib_fields, hflag]

/-- C20 at the example file (flag 1, then `0 5 1 3/2 133/100`). -/
theorem C20_geom_placement_witness :
    ∃ s1, read_calib_data (exFresh ℝ) (some (exFile ℝ)) = Except.ok s1 ∧
      (exFile ℝ).ref_flag ≠ 0 ∧
      (s1.geom 0 = 0 ∧ s1.geom 4 = 5 ∧ s1.geom 1 = 1 ∧ s1.geom 2 = 3 / 2 ∧
        s1.geom 3 = 133 / 100) ∧
      ∀ c point, img_refrac_point (⟨Real.sqrt, fun x => x ^ (3 / 2 : ℝ), Real.cos, Real.sin,
          fun y x => Complex.arg ⟨x, y⟩⟩ : CMath ℝ) s1 c point
        = img_refrac_body (⟨Real.sqrt, fun x => x ^ (3 / 2 : ℝ), Real.cos, Real.sin,
            fun y x => Complex.arg ⟨x, y⟩⟩ : CMath ℝ) 0 1 (3 / 2) (133 / 100) 5
            s1.IMG_REFRAC_TOL s1.MAX_NR_ITERS c point :=
  ⟨read_calib_fields (exFresh ℝ) (exFile ℝ), read_calib_data_exFile, by decide,
    ((C20_geom_placement (⟨Real.sqrt, fun x => x ^ (3 / 2 : ℝ), Real.cos, Real.sin,
        fun y x => Complex.arg ⟨x, y⟩⟩ : CMath ℝ) (exFresh ℝ) _ (exFile ℝ)
      read_calib_data_exFile).1 (by decide)).1,
    ((C20_geom_placement (⟨Real.sqrt, fun x => x ^ (3 / 2 : ℝ), Real.cos, Real.sin,
        fun y x => Complex.arg ⟨x, y⟩⟩ : CMath ℝ) (exFresh ℝ) _ (exFile ℝ)
      read_calib_data_exFile).1 (by decide)).2.1⟩

/-! ### Newton step -/

/-- The Newton-Raphson update solves the linearised system whenever the
determinant it divides by is not zero. -/
theorem nr_update_solves (M : CMath α) (q : NRParams α) (ra rb : α)
    (hdet : nr_dfdra M q ra rb * nr_dgdrb M q ra rb
      - nr_dfdrb M q ra rb * nr_dgdra M q ra rb ≠ 0) :
    nr_dfdra M q ra rb * ((nr_update M q ra rb).1 - ra)
        + nr_dfdrb M q ra rb * ((nr_update M q ra rb).2 - rb) = -nr_f M q ra rb ∧
    nr_dgdra M q ra rb * ((nr_update M q ra rb).1 - ra)
        + nr_dgdrb M q ra rb * ((nr_update M q ra rb).2 - rb) = -nr_g M q ra rb := by
  simp only [nr_update]
  generalize nr_dfdra M q ra rb = a at hdet ⊢
  generalize nr_dfdrb M q ra rb = b at hdet ⊢
  generalize nr_dgdra M q ra rb = c at hdet ⊢
  generalize nr_dgdrb M q ra rb = d at hdet ⊢
  generalize nr_f M q ra rb = f
  generalize nr_g M q ra rb = g
  constructor
  · field_simp
    ring
  · field_simp
    ring

/-- The values of the residuals and of the four derivatives at the example
parameters and the pair `(3, 6)`. -/
theorem exParams_values :
    nr_f exMath exParams 3 6 = -(3 / 5) ∧ nr_g exMath exParams 3 6 = 3 / 10 ∧
    nr_dfdra exMath exParams 3 6 = 48 / 125 ∧ nr_dfdrb exMath exParams 3 6 = -(32 / 125) ∧
    nr_dgdra exMath exParams 3 6 = -(16 / 125) ∧ nr_dgdrb exMath exParams 3 6 = 24 / 125 := by
  have h25 : Rat.sqrt 25 = 5 := rat_sqrt_of_sq 25 5 (by norm_num) (by norm_num)
  refine ⟨?_, ?_, ?_, ?_, ?_, ?_⟩ <;>
    norm_num [nr_f, nr_g, nr_dfdra, nr_dfdrb, nr_dgdra, nr_dgdrb, exMath, exParams, h25]

/-- C28: whenever the determinant `dfdra*dgdrb - dfdrb*dgdra` is non-zero, the
update of `img_refrac` is the exact Newton step: the increments `(ra' - ra,
rb' - rb)` satisfy `dfdra*δra + dfdrb*δrb = -f` and `dgdra*δra + dgdrb*δrb =
-g`, everything evaluated at the old pair; and the pair is unchanged when
`f = g = 0`. -/
theorem C28_exact_newton_step (M : CMath α) (q : NRParams α) (ra rb : α)
    (hdet : nr_dfdra M q ra rb * nr_dgdrb M q ra rb
      - nr_dfdrb M q ra rb * nr_dgdra M q ra rb ≠ 0) :
    nr_dfdra M q ra rb * ((nr_update M q ra rb).1 - ra)
        + nr_dfdrb M q ra rb * ((nr_update M q ra rb).2 - rb) = -nr_f M q ra rb ∧
    nr_dgdra M q ra rb * ((nr_update M q ra rb).1 - ra)
        + nr_dgdrb M q ra rb * ((nr_update M q ra rb).2 - rb) = -nr_g M q ra rb ∧
    (nr_f M q ra rb = 0 → nr_g M q ra rb = 0 → nr_update M q ra rb = (ra, rb)) :=
  ⟨(nr_update_solves M q ra rb hdet).1, (nr_update_solves M q ra rb hdet).2,
    fun hf hg => (nr_update_of_residuals_zero M q ra rb hf hg).1⟩

/-- C28 at the example parameters and `(ra, rb) = (3, 6)`, where `f = -3/5`
and the determinant is `128/3125`. -/
theorem C28_exact_newton_step_witness :
    nr_dfdra exMath exParams 3 6 * nr_dgdrb exMath exParams 3 6
        - nr_dfdrb exMath exParams 3 6 * nr_dgdra exMath exParams 3 6 ≠ 0 ∧
    nr_dfdra exMath exParams 3 6 * ((nr_update exMath exParams 3 6).1 - 3)
        + nr_dfdrb exMath exParams 3 6 * ((nr_update exMath exParams 3 6).2 - 6)
      = -nr_f exMath exParams 3 6 ∧
    nr_dgdra exMath exParams 3 6 * ((nr_update exMath exParams 3 6).1 - 3)
        + nr_dgdrb exMath exParams 3 6 * ((nr_update exMath exParams 3 6).2 - 6)
      = -nr_g exMath exParams 3 6 :=
  have hdet : nr_dfdra exMath exParams 3 6 * nr_dgdrb exMath exParams 3 6
      - nr_dfdrb exMath exParams 3 6 * nr_dgdra exMath exParams 3 6 ≠ 0 := by
    obtain ⟨_, _, h1, h2, h3, h4⟩ := exParams_values
    rw [h1, h2, h3, h4]
    norm_num
  ⟨hdet, (C28_exact_newton_step exMath exParams 3 6 hdet).1,
    (C28_exact_newton_step exMath exParams 3 6 hdet).2.1⟩

/-! ### Timed and untimed stacks -/

/-- The closed form `depth_count` counts the depths below the bound. -/
theorem depth_count_spec [FloorRing α] (zmin bound dz : α) (hdz : 0 < dz) (k : ℕ) :
    k < depth_count zmin bound dz ↔ zmin + (k : α) * dz ≤ bound := by
  unfold depth_count
  by_cases hb : zmin ≤ bound
  · rw [if_pos hb]
    exact depth_count_iff zmin bound dz hdz hb k
  · rw [if_neg hb]
    have hk : 0 ≤ (k : α) * dz := mul_nonneg (Nat.cast_nonneg k) hdz.le
    constructor
    · intro h
      exact absurd h (Nat.not_lt_zero k)
    · intro h
      exact absurd (by linarith : zmin ≤ bound) hb

/-- The depth sequence of the loop: when exactly the indices `k < m` satisfy
`z + k*dz ≤ bound` and the fuel is at least `m`, the body runs at the depths
`z + k*dz`, `k = 0 .. m-1`, in that order. -/
theorem stack_depths_spec [FloorRing α] (bound dz : α) :
    ∀ (m fuel : ℕ) (z : α), (∀ k : ℕ, k < m ↔ z + (k : α) * dz ≤ bound) → m ≤ fuel →
      stack_depths bound dz fuel z
        = some ((List.range m).map (fun (k : ℕ) => z + (k : α) * dz)) := by
  intro m
  induction m with
  | zero =>
    intro fuel z hk _
    have hz : ¬ z ≤ bound := by
      have := (hk 0).not.mp (lt_irrefl 0)
      simpa using this
    cases fuel <;> simp [stack_depths, hz]
  | succ m ih =>
    intro fuel z hk hfuel
    have hz : z ≤ bound := by
      have := (hk 0).mp (Nat.succ_pos m)
      simpa using this
    obtain ⟨fuel, rfl⟩ : ∃ f, fuel = f + 1 := ⟨fuel - 1, by omega⟩
    have hk1 : ∀ k : ℕ, k < m ↔ z + dz + (k : α) * dz ≤ bound := by
      intro k
      have := hk (k + 1)
      rw [Nat.succ_lt_succ_iff] at this
      rw [this]
      push_cast
      constructor <;> intro h <;> linarith
    have hmap : List.map (fun (k : ℕ) => z + dz + (k : α) * dz) (List.range m)
        = List.map ((fun (k : ℕ) => z + (k : α) * dz) ∘ Nat.succ) (List.range m) := by
      apply List.map_congr_left
      intro k _
      simp only [Function.comp, Nat.succ_eq_add_one]
      push_cast
      ring
    have hz0 : z + ((0 : ℕ) : α) * dz = z := by simp
    simp only [stack_depths, hz, if_true]
    rw [ih fuel (z + dz) hk1 (by omega), Option.map_some', List.range_succ_eq_map,
      List.map_cons, List.map_map, hmap, hz0]

/-- The planes pushed by the stack loop are the planes at the depths of
`stack_depths`, in order. -/
theorem stack_loop_depths [FloorRing α] (L : Lib rows cols α)
    (views : α → ℕ → Mat rows cols α) (bound dz thresh : α) (s0 : saRefocus α) :
    ∀ (fuel : ℕ) (s : saRefocus α) (z : α) (stack : List (Mat rows cols α)),
      refocus_set_thresh s thresh = refocus_set_thresh s0 thresh →
      (stack_loop L views bound dz thresh fuel s z stack).map Prod.snd
        = (stack_depths bound dz fuel z).map
            (fun ds => stack ++ ds.map (fun d => refocus L s0 (views d) thresh)) := by
  intro fuel
  induction fuel with
  | zero =>
    intro s z stack _
    by_cases hz : z ≤ bound <;> simp [stack_loop, stack_depths, hz]
  | succ fuel ih =>
    intro s z stack hs
    by_cases hz : z ≤ bound
    · have hs1 : refocus_set_thresh (refocus_set_thresh s thresh) thresh
          = refocus_set_thresh s0 thresh := by
        rw [refocus_set_thresh_idem, hs]
      simp only [stack_loop, stack_depths, hz, if_true]
      rw [ih (refocus_set_thresh s thresh) (z + dz) _ hs1, refocus_congr L s s0 _ thresh hs,
        Option.map_map]
      congr 1
      funext ds
      simp
    · simp [stack_loop, stack_depths, hz]

/-- C30: for `dz > 0`, the same arguments and enough fuel for both loops, the
depth sequence of the timed `return_stack` (bound `z ≤ zmax`) is an initial
segment of the depth sequence of the untimed one (bound `z ≤ zmax + 0.5*dz`),
each overload appends the planes at its depths, and the two sequences are
equal exactly when no depth `zmin + k*dz` lies in `(zmax, zmax + 0.5*dz]`. -/
theorem C30_timed_depths_initial_segment [FloorRing α] (L : Lib rows cols α) (s : saRefocus α)
    (views : α → ℕ → Mat rows cols α) (zmin zmax dz thresh : α)
    (stack : List (Mat rows cols α)) (fuel : ℕ) (hdz : 0 < dz)
    (hfuel : depth_count zmin (zmax + dz * (1 / 2)) dz ≤ fuel) :
    ∃ d1 d2 : List α,
      stack_depths zmax dz fuel zmin = some d1 ∧
      stack_depths (zmax + dz * (1 / 2)) dz fuel zmin = some d2 ∧
      return_stack_timed L s views zmin zmax dz thresh stack fuel
        = some (stack ++ d1.map (fun d => refocus L s (views d) thresh)) ∧
      return_stack L s views zmin zmax dz thresh stack fuel
        = some (stack ++ d2.map (fun d => refocus L s (views d) thresh)) ∧
      d1 <+: d2 ∧
      (d1 = d2 ↔ ¬ ∃ k : ℕ, zmax < zmin + (k : α) * dz ∧
        zmin + (k : α) * dz ≤ zmax + dz * (1 / 2)) := by
  have h1 := depth_count_spec zmin zmax dz hdz
  have h2 := depth_count_spec zmin (zmax + dz * (1 / 2)) dz hdz
  have hhalf : 0 ≤ dz * (1 / 2) := by positivity
  have hle : depth_count zmin zmax dz ≤ depth_count zmin (zmax + dz * (1 / 2)) dz := by
    by_contra hlt
    push_neg at hlt
    have := (h1 _).mp hlt
    have h3 := (h2 (depth_count zmin (zmax + dz * (1 / 2)) dz)).mpr (by linarith)
    exact lt_irrefl _ h3
  have e1 := stack_depths_spec zmax dz _ fuel zmin h1 (hle.trans hfuel)
  have e2 := stack_depths_spec (zmax + dz * (1 / 2)) dz _ fuel zmin h2 hfuel
  refine ⟨_, _, e1, e2, ?_, ?_, ?_, ?_⟩
  · have := stack_loop_depths L views zmax dz thresh s fuel s zmin stack rfl
    rw [e1] at this
    simpa [return_stack_timed] using this
  · have := stack_loop_depths L views (zmax + dz * (1 / 2)) dz thresh s fuel s zmin stack rfl
    rw [e2] at this
    simpa [return_stack] using this
  · obtain ⟨d, hd⟩ : ∃ d, depth_count zmin (zmax + dz * (1 / 2)) dz
        = depth_count zmin zmax dz + d := ⟨_, (Nat.add_sub_cancel' hle).symm⟩
    rw [hd, List.range_add, List.map_append]
    exact List.prefix_append _ _
  · have hlen : (List.range (depth_count zmin zmax dz)).map (fun (k : ℕ) => zmin + (k : α) * dz)
          = (List.range (depth_count zmin (zmax + dz * (1 / 2)) dz)).map
              (fun (k : ℕ) => zmin + (k : α) * dz)
        ↔ depth_count zmin zmax dz = depth_count zmin (zmax + dz * (1 / 2)) dz := by
      constructor
      · intro h
        have := congrArg List.length h
        simpa using this
      · intro h
        rw [h]
    rw [hlen]
    constructor
    · rintro heq ⟨k, hk1, hk2⟩
      have hk := (h2 k).mpr hk2
      rw [← heq] at hk
      have := (h1 k).mp hk
      exact absurd this (not_le.mpr hk1)
    · intro hno
      by_contra hne
      have hlt : depth_count zmin zmax dz < depth_count zmin (zmax + dz * (1 / 2)) dz :=
        lt_of_le_of_ne hle hne
      apply hno
      refine ⟨depth_count zmin zmax dz, ?_, (h2 _).mp hlt⟩
      have := (h1 (depth_count zmin zmax dz)).not.mp (lt_irrefl _)
      exact not_le.mp this

/-- The untimed loop at `zmin = 0`, `zmax = 1`, `dz = 2/3` runs three times. -/
theorem depth_count_example : depth_count (0 : ℚ) (1 + 2 / 3 * (1 / 2)) (2 / 3) = 3 := by
  have h : ⌊((1 : ℚ) + 2 / 3 * (1 / 2) - 0) / (2 / 3)⌋₊ = 2 := by
    rw [Nat.floor_eq_iff (by norm_num)]
    norm_num
  simp only [depth_count]
  rw [if_pos (by norm_num), h]

/-- C30 at `zmin = 0`, `zmax = 1`, `dz = 2/3` with fuel 3: the depth `4/3`
lies in `(1, 4/3]`, so the timed sequence is a proper initial segment. -/
theorem C30_timed_depths_initial_segment_witness :
    (0 : ℚ) < 2 / 3 ∧ depth_count (0 : ℚ) (1 + 2 / 3 * (1 / 2)) (2 / 3) ≤ 3 ∧
    ∃ d1 d2 : List ℚ,
      stack_depths 1 (2 / 3) 3 0 = some d1 ∧
      stack_depths (1 + 2 / 3 * (1 / 2)) (2 / 3) 3 0 = some d2 ∧
      return_stack_timed (ratLib 1 1) exState (fun _ => exViews) 0 1 (2 / 3) 0 [] 3
        = some ([] ++ d1.map (fun d => refocus (ratLib 1 1) exState ((fun _ => exViews) d) 0)) ∧
      return_stack (ratLib 1 1) exState (fun _ => exViews) 0 1 (2 / 3) 0 [] 3
        = some ([] ++ d2.map (fun d => refocus (ratLib 1 1) exState ((fun _ => exViews) d) 0)) ∧
      d1 <+: d2 ∧
      (d1 = d2 ↔ ¬ ∃ k : ℕ, (1 : ℚ) < 0 + (k : ℚ) * (2 / 3) ∧
        0 + (k : ℚ) * (2 / 3) ≤ 1 + 2 / 3 * (1 / 2)) :=
  ⟨by norm_num, depth_count_example.le,
    C30_timed_depths_initial_segment (ratLib 1 1) exState (fun _ => exViews) 0 1 (2 / 3) 0 [] 3
      (by norm_num) depth_count_example.le⟩

/-! ### NLCA window -/

/-- When `setNlcaWindow` returns: exactly when `size` divides the width or the
height (one of the two suffices) and `size ≤ 32`; the window is then `size`
and nothing else changes. -/
theorem setNlcaWindow_ok_iff {β : Type} (s s1 : saRefocusModes β) (size : ℤ) :
    setNlcaWindow s size = .ok s1 ↔
      (s.img_size_.1.tmod size = 0 ∨ s.img_size_.2.tmod size = 0) ∧ size ≤ 32 ∧
        s1 = { s with nlca_win_ := size } := by
  unfold setNlcaWindow
  by_cases h1 : s.img_size_.1.tmod size = 0
  · by_cases h3 : size > 32
    · simp [h1, h3]
    · simp [h1, h3, not_lt.mp h3, eq_comm]
  · by_cases h2 : s.img_size_.2.tmod size = 0
    · by_cases h3 : size > 32
      · simp [h1, h2, h3]
      · simp [h1, h2, h3, not_lt.mp h3, eq_comm]
    · simp [h1, h2]

/-- C21 (divergence): `setNlcaWindow` exits only when `size` divides neither
the width nor the height. On a 64 x 48 image the size 32 divides the width but
not the height (48 % 32 = 16), and the call stores 32 as the window instead of
exiting, although the message of the exit requires both directions. -/
theorem C21_window_dividing_width_only :
    (exModes.img_size_.1.tmod 32 = 0 ∧ exModes.img_size_.2.tmod 32 = 16) ∧
    setNlcaWindow exModes 32 = .ok { exModes with nlca_win_ := 32 } ∧
    ∀ (β : Type) (s s1 : saRefocusModes β) (size : ℤ),
      setNlcaWindow s size = .ok s1 ↔
        (s.img_size_.1.tmod size = 0 ∨ s.img_size_.2.tmod size = 0) ∧ size ≤ 32 ∧
          s1 = { s with nlca_win_ := size } := by
  refine ⟨⟨by decide, by decide⟩, ?_, fun β => setNlcaWindow_ok_iff⟩
  rw [setNlcaWindow_ok_iff]
  exact ⟨Or.inl (by decide), by decide, rfl⟩

/-! ### Exclusivity of the composition mode -/

/-- The three setters leave at most one flag non-zero, whatever the state
before. -/
theorem setters_exclusive {β : Type} (s s1 : saRefocusModes β) (flag : ℤ) (v : β) :
    ExclusiveModes (setMult s flag v) ∧
    (setNlca s flag v = .ok s1 → ExclusiveModes s1) ∧
    (setNlcaFast s flag v = .ok s1 → ExclusiveModes s1) := by
  refine ⟨?_, ?_, ?_⟩
  · by_cases h : flag = 0 <;> simp [ExclusiveModes, mode_count, setMult, h]
  · unfold setNlca
    by_cases hc : s.num_cams_ = 4
    · intro h
      simp only [hc, ne_eq, not_true_eq_false, if_false, Except.ok.injEq] at h
      subst h
      by_cases h : flag = 0 <;> simp [ExclusiveModes, mode_count, h]
    · simp [hc]
  · unfold setNlcaFast
    by_cases hc : s.num_cams_ = 4
    · intro h
      simp only [hc, ne_eq, not_true_eq_false, if_false, Except.ok.injEq] at h
      subst h
      by_cases h : flag = 0 <;> simp [ExclusiveModes, mode_count, h]
    · simp [hc]

/-- The four trackbar callbacks preserve exclusivity. -/
theorem callbacks_exclusive {β : Type} (s : saRefocusModes β) (state : ℤ) (h : ExclusiveModes s) :
    ExclusiveModes (cb_mult s state) ∧ ExclusiveModes (cb_mlos s state) ∧
    ExclusiveModes (cb_nlca s state) ∧ ExclusiveModes (cb_nlca_fast s state) := by
  unfold ExclusiveModes mode_count at h ⊢
  by_cases hs : state = 0
  · subst hs
    simp only [cb_mult, cb_mlos, cb_nlca, cb_nlca_fast, ne_eq, not_true_eq_false, if_false]
    refine ⟨?_, ?_, ?_, ?_⟩ <;> split_ifs at h ⊢ <;> omega
  · simp [cb_mult, cb_mlos, cb_nlca, cb_nlca_fast, hs]

/-- The constructor check accepts flags taken from `{0, 1}` only when at most
one of them is set. -/
theorem settings_modes_exclusive {β : Type} (s s1 : saRefocusModes β)
    (mult minlos nlca nlca_fast nlca_win : ℤ) (delta mult_exp : β)
    (h1 : mult = 0 ∨ mult = 1) (h2 : minlos = 0 ∨ minlos = 1) (h3 : nlca = 0 ∨ nlca = 1)
    (h4 : nlca_fast = 0 ∨ nlca_fast = 1)
    (h : settings_modes s mult minlos nlca nlca_fast nlca_win delta mult_exp = .ok s1) :
    ExclusiveModes s1 := by
  unfold settings_modes at h
  split_ifs at h with hsum hcam
  simp only [Except.ok.injEq] at h
  subst h
  unfold ExclusiveModes mode_count
  rcases h1 with rfl | rfl <;> rcases h2 with rfl | rfl <;> rcases h3 with rfl | rfl <;>
    rcases h4 with rfl | rfl <;> simp at hsum ⊢

/-- C23 (divergence): the space key of the live view sets `mult_ =
(mult_+1)%2` and clears no other flag. From a session with `minlos_ = 1` and
`mult_ = 0`, which satisfies exclusivity, it leads to `mult_ = 1` and
`minlos_ = 1`. The setters and the callbacks do preserve exclusivity. -/
theorem C23_space_key_breaks_exclusivity :
    ExclusiveModes exModesMinlos ∧
    (liveView_key_space exModesMinlos).mult_ = 1 ∧
    (liveView_key_space exModesMinlos).minlos_ = 1 ∧
    ¬ ExclusiveModes (liveView_key_space exModesMinlos) ∧
    ExclusiveModes (cb_mult exModesMinlos 1) := by
  refine ⟨?_, ?_, ?_, ?_, ?_⟩
  · simp [ExclusiveModes, mode_count, exModesMinlos, exModes]
  · simp [liveView_key_space, exModesMinlos, exModes]
    decide
  · rfl
  · simp [ExclusiveModes, mode_count, liveView_key_space, exModesMinlos, exModes]
    decide
  · simp [ExclusiveModes, mode_count, cb_mult, exModesMinlos, exModes]

/-! ### Frame selection and image loading -/

/-- The frame loop: when exactly the indices `k < m` satisfy
`j + k*(skip+1) < end_` and the fuel is at least `m`, the body runs at
`j + k*(skip+1)`, `k = 0 .. m-1`, in that order. -/
theorem frame_loop_spec (end_ skip : ℕ) :
    ∀ (m fuel j : ℕ), (∀ k : ℕ, k < m ↔ j + k * (skip + 1) < end_) → m ≤ fuel →
      frame_loop end_ skip fuel j = (List.range m).map (fun k => j + k * (skip + 1)) := by
  intro m
  induction m with
  | zero =>
    intro fuel j hk _
    have hj : ¬ j < end_ := by
      have := (hk 0).not.mp (lt_irrefl 0)
      simpa using this
    cases fuel <;> simp [frame_loop, hj]
  | succ m ih =>
    intro fuel j hk hfuel
    have hj : j < end_ := by
      have := (hk 0).mp (Nat.succ_pos m)
      simpa using this
    obtain ⟨fuel, rfl⟩ : ∃ f, fuel = f + 1 := ⟨fuel - 1, by omega⟩
    have hk1 : ∀ k : ℕ, k < m ↔ j + (skip + 1) + k * (skip + 1) < end_ := by
      intro k
      have := hk (k + 1)
      rw [Nat.succ_lt_succ_iff] at this
      rw [this, Nat.add_mul, Nat.one_mul]
      constructor <;> intro h <;> omega
    have hmap : List.map (fun k => j + (skip + 1) + k * (skip + 1)) (List.range m)
        = List.map ((fun k => j + k * (skip + 1)) ∘ Nat.succ) (List.range m) := by
      apply List.map_congr_left
      intro k _
      simp only [Function.comp, Nat.succ_eq_add_one, Nat.add_mul, Nat.one_mul]
      omega
    simp only [frame_loop, hj, if_true]
    rw [ih fuel (j + (skip + 1)) hk1 (by omega), List.range_succ_eq_map, List.map_cons,
      List.map_map, hmap]
    simp

/-- The fuel of `selected_frames` suffices: the selection is `begin`,
`begin + (skip+1)`, ... up to the last value below `end_`. -/
theorem selected_frames_eq (begin end_ skip : ℕ) :
    selected_frames begin end_ skip
      = (List.range ((end_ - begin + skip) / (skip + 1))).map
          (fun k => begin + k * (skip + 1)) := by
  unfold selected_frames
  apply frame_loop_spec
  · intro k
    rw [Nat.lt_iff_add_one_le, Nat.le_div_iff_mul_le (Nat.succ_pos skip), Nat.add_mul,
      Nat.one_mul]
    generalize k * (skip + 1) = t
    omega
  · rcases Nat.eq_zero_or_pos (end_ - begin) with h0 | hpos
    · rw [h0, Nat.zero_add, Nat.div_eq_of_lt (Nat.lt_succ_self skip)]
    · apply Nat.div_le_of_le_mul
      nlinarith

/-- The check of `read_imgs` rejects every end frame that is not a valid
index of the first camera folder. -/
theorem read_imgs_end_frame_beyond {Img : Type} (start_frame_ end_frame_ skip_frame_ : ℕ)
    (d : List (String × Img)) (rest : List (List (String × Img))) (hd : d ≠ [])
    (h : d.length ≤ end_frame_) :
    read_imgs 0 start_frame_ end_frame_ skip_frame_ (d :: rest)
      = .error .end_frame_beyond := by
  have hlen : d.length ≠ 0 := fun h0 => hd (List.length_eq_zero.mp h0)
  have hgt : end_frame_ + 1 > d.length := by omega
  simp [read_imgs, read_imgs_loop, hlen, hgt]

/-- The check of `read_imgs_mtiff` lets the last requested frame equal the
number of pages: the loop returns whenever the last frame is at most the
number of pages of every file, and exits when it is greater for some file. -/
theorem read_imgs_mtiff_loop_spec {Img : Type} (frames_ : List ℕ) (b : ℕ)
    (hb : frames_.getLast? = some b) (tiffs : List (List Img)) :
    ∀ imgs : List (List (Option Img)),
      ((∀ tiff ∈ tiffs, b ≤ tiff.length) →
        read_imgs_mtiff_loop frames_ tiffs imgs
          = .ok (imgs ++ tiffs.map (fun tiff => frames_.map (fun k => tiff[k]?)), frames_)) ∧
      ((∃ tiff ∈ tiffs, tiff.length < b) →
        read_imgs_mtiff_loop frames_ tiffs imgs = .error .end_frame_beyond) := by
  induction tiffs with
  | nil =>
    intro imgs
    simp [read_imgs_mtiff_loop]
  | cons t rest ih =>
    intro imgs
    by_cases h : t.length < b
    · constructor
      · intro hall
        exact absurd (hall t (List.mem_cons_self _ _)) (not_le.mpr h)
      · intro _
        simp [read_imgs_mtiff_loop, hb, h]
    · have hle : b ≤ t.length := not_lt.mp h
      obtain ⟨ih1, ih2⟩ := ih (imgs ++ [frames_.map (fun k => t[k]?)])
      constructor
      · intro hall
        simp only [read_imgs_mtiff_loop, hb, gt_iff_lt, h, decide_False, Bool.false_eq_true,
          if_false]
        rw [ih1 (fun tiff ht => hall tiff (List.mem_cons_of_mem _ ht))]
        simp
      · rintro ⟨tiff, ht, hlt⟩
        simp only [read_imgs_mtiff_loop, hb, gt_iff_lt, h, decide_False, Bool.false_eq_true,
          if_false]
        rcases List.mem_cons.mp ht with rfl | hmem
        · exact absurd hlt h
        · exact ih2 ⟨tiff, hmem, hlt⟩

/-- C22 (divergence): `read_imgs` exits when the end frame is not a valid
index (`end_frame_ + 1 > size`), but `read_imgs_mtiff` tests `frames_.back() >
num_frames` and so accepts a last frame equal to the number of pages. With
five pages per file and frames 0 to 5 requested, the directory reader exits,
while the multi-page reader returns and has asked for page 5, which does not
exist. -/
theorem C22_mtiff_accepts_frame_past_end :
    read_imgs 0 0 5 0 exDirs = .error .end_frame_beyond ∧
    settings_frames 1 0 0 5 0 = [0, 1, 2, 3, 4, 5] ∧
    exTiffs.map List.length = [5, 5] ∧
    read_imgs_mtiff 0 2 [0, 1, 2, 3, 4, 5] exTiffs
      = .ok ([[some 0, some 1, some 2, some 3, some 4, none],
              [some 10, some 11, some 12, some 13, some 14, none]], [0, 1, 2, 3, 4, 5]) := by
  refine ⟨rfl, rfl, rfl, rfl⟩

/-- C29 (divergence): the CPU branch of `dump_stack` passes the frame number
`frames_[f]` to `refocus`, which uses it as an index into the loaded images,
while the GPU branch uploads the loaded image at position `f`. With frames 0,
2, 4 selected, position 1 is frame 2 on the GPU and frame 4 on the CPU; with
frames 3, 4 selected, position 0 is frame 3 on the GPU and index 3 of a list
of two loaded images on the CPU. -/
theorem C29_cpu_indexes_by_frame_number :
    read_imgs 0 0 4 1 exDirs
      = .ok ([[some 0, some 2, some 4], [some 10, some 12, some 14]], [0, 2, 4]) ∧
    dump_stack_image exGpu
        ([[some 0, some 2, some 4], [some 10, some 12, some 14]], [0, 2, 4]) 0 1 = some 2 ∧
    dump_stack_image exState
        ([[some 0, some 2, some 4], [some 10, some 12, some 14]], [0, 2, 4]) 0 1 = some 4 ∧
    read_imgs 0 3 4 0 exDirs = .ok ([[some 3, some 4], [some 13, some 14]], [3, 4]) ∧
    dump_stack_source exState [3, 4] 0 = 3 ∧
    dump_stack_image exGpu ([[some 3, some 4], [some 13, some 14]], [3, 4]) 0 0 = some 3 ∧
    dump_stack_image exState ([[some 3, some 4], [some 13, some 14]], [3, 4]) 0 0 = none := by
  refine ⟨rfl, rfl, rfl, rfl, rfl, rfl, rfl⟩

/-! ### Corner mode -/

/-- Inverse of a matrix of the shape of `D`. -/
theorem cvInv3_affine (a b cx cy : α) (ha : a ≠ 0) (hb : b ≠ 0) :
    cvInv3 ![![a, 0, cx], ![0, b, cy], ![0, 0, 1]]
      = ![![1 / a, 0, -cx / a], ![0, 1 / b, -cy / b], ![0, 0, 1]] := by
  have e00 : (![![a, 0, cx], ![0, b, cy], ![0, 0, 1]] : Fin 3 → Fin 3 → α) 0 0 = a := rfl
  have e01 : (![![a, 0, cx], ![0, b, cy], ![0, 0, 1]] : Fin 3 → Fin 3 → α) 0 1 = 0 := rfl
  have e02 : (![![a, 0, cx], ![0, b, cy], ![0, 0, 1]] : Fin 3 → Fin 3 → α) 0 2 = cx := rfl
  have e10 : (![![a, 0, cx], ![0, b, cy], ![0, 0, 1]] : Fin 3 → Fin 3 → α) 1 0 = 0 := rfl
  have e11 : (![![a, 0, cx], ![0, b, cy], ![0, 0, 1]] : Fin 3 → Fin 3 → α) 1 1 = b := rfl
  have e12 : (![![a, 0, cx], ![0, b, cy], ![0, 0, 1]] : Fin 3 → Fin 3 → α) 1 2 = cy := rfl
  have e20 : (![![a, 0, cx], ![0, b, cy], ![0, 0, 1]] : Fin 3 → Fin 3 → α) 2 0 = 0 := rfl
  have e21 : (![![a, 0, cx], ![0, b, cy], ![0, 0, 1]] : Fin 3 → Fin 3 → α) 2 1 = 0 := rfl
  have e22 : (![![a, 0, cx], ![0, b, cy], ![0, 0, 1]] : Fin 3 → Fin 3 → α) 2 2 = 1 := rfl
  have hdet : cvDet3 ![![a, 0, cx], ![0, b, cy], ![0, 0, 1]] = a * b := by
    simp only [cvDet3, e00, e01, e02, e10, e11, e12, e20, e21, e22]
    ring
  simp only [cvInv3, hdet, e00, e01, e02, e10, e11, e12, e20, e21, e22]
  have r1 : (b * 1 - cy * 0) / (a * b) = 1 / a := by field_simp; ring
  have r2 : (cx * 0 - 0 * 1) / (a * b) = 0 := by simp
  have r3 : (0 * cy - cx * b) / (a * b) = -cx / a := by field_simp; ring
  have r4 : (cy * 0 - 0 * 1) / (a * b) = 0 := by simp
  have r5 : (a * 1 - cx * 0) / (a * b) = 1 / b := by field_simp
  have r6 : (cx * 0 - a * cy) / (a * b) = -cy / b := by field_simp; ring
  have r7 : ((0 : α) * 0 - b * 0) / (a * b) = 0 := by simp
  have r8 : ((0 : α) * 0 - a * 0) / (a * b) = 0 := by simp
  have r9 : (a * b - 0 * 0) / (a * b) = 1 := by field_simp
  rw [r1, r2, r3, r4, r5, r6, r7, r8, r9]

/-- The matrix `hinv_` that `updateHinv` computes for a non-zero scale. -/
theorem updateHinv_hinv (s : saRefocusCalib α) (p : saRefocusPose α) (hs : s.scale_ ≠ 0) :
    (updateHinv s p).hinv_
      = ![![1 / s.scale_, 0, -((s.img_size_.1 : α) * (1 / 2)) / s.scale_],
          ![0, 1 / (if p.INVERT_Y_FLAG ≠ 0 then -1 * s.scale_ else s.scale_),
            -((s.img_size_.2 : α) * (1 / 2))
              / (if p.INVERT_Y_FLAG ≠ 0 then -1 * s.scale_ else s.scale_)],
          ![0, 0, 1]] := by
  unfold updateHinv
  by_cases hf : p.INVERT_Y_FLAG ≠ 0
  · simp only [if_pos hf]
    exact cvInv3_affine _ _ _ _ hs (by simpa using hs)
  · simp only [if_neg hf]
    exact cvInv3_affine _ _ _ _ hs hs

/-- Multiplying by the identity rotation changes nothing. -/
theorem cvMatMul_rot_zero {n : ℕ} (X : Fin 3 → Fin n → α) : cvMatMul (rot_zero α) X = X := by
  funext i k
  fin_cases i <;> simp [cvMatMul, rot_zero, Fin.sum_univ_three]

/-- A product with a matrix whose third row is zero and whose first two rows
are `(u, v)`, for a left factor of the shape of `hinv_`. -/
theorem cvMatMul_hinv_corner (a b tx ty u v : α) :
    (∑ j : Fin 3, (![![a, 0, tx], ![0, b, ty], ![0, 0, 1]] : Fin 3 → Fin 3 → α) 0 j
        * (![u, v, 0] : Fin 3 → α) j) = a * u ∧
    (∑ j : Fin 3, (![![a, 0, tx], ![0, b, ty], ![0, 0, 1]] : Fin 3 → Fin 3 → α) 1 j
        * (![u, v, 0] : Fin 3 → α) j) = b * v ∧
    (∑ j : Fin 3, (![![a, 0, tx], ![0, b, ty], ![0, 0, 1]] : Fin 3 → Fin 3 → α) 2 j
        * (![u, v, 0] : Fin 3 → α) j) = 0 := by
  refine ⟨?_, ?_, ?_⟩ <;> simp [Fin.sum_univ_three]

/-- The corner sequences of the two homography routines. -/
theorem corner_sequences (img_size_ : ℤ × ℤ) :
    (fun k => ((calc_refocus_H_corners img_size_ : Fin 3 → Fin 4 → α) 0 k,
        (calc_refocus_H_corners img_size_ : Fin 3 → Fin 4 → α) 1 k))
      = ![(0, 0), (((img_size_.1 - 1 : ℤ) : α), 0),
          (((img_size_.1 - 1 : ℤ) : α), ((img_size_.2 - 1 : ℤ) : α)),
          (0, ((img_size_.2 - 1 : ℤ) : α))] ∧
    (fun k => ((calc_ref_refocus_H_corners img_size_ : Fin 3 → Fin 4 → α) 0 k,
        (calc_ref_refocus_H_corners img_size_ : Fin 3 → Fin 4 → α) 1 k))
      = ![(0, 0), (0, ((img_size_.2 - 1 : ℤ) : α)),
          (((img_size_.1 - 1 : ℤ) : α), ((img_size_.2 - 1 : ℤ) : α)),
          (((img_size_.1 - 1 : ℤ) : α), 0)] ∧
    (∀ k, (calc_refocus_H_corners img_size_ : Fin 3 → Fin 4 → α) 2 k = 0) ∧
    (∀ k, (calc_ref_refocus_H_corners img_size_ : Fin 3 → Fin 4 → α) 2 k = 0) := by
  refine ⟨?_, ?_, ?_, ?_⟩
  · funext k
    fin_cases k <;> simp [calc_refocus_H_corners]
  · funext k
    fin_cases k <;> simp [calc_ref_refocus_H_corners]
  · intro k
    fin_cases k <;> rfl
  · intro k
    fin_cases k <;> rfl

/-- The world points of `calc_refocus_H` under zero rotation, with `hinv_` as
`updateHinv` leaves it: corner `(u, v)` becomes `(u/scale + xs, v/sy + ys, z,
1)`, where `sy` is `-scale` when the y axis is inverted and `scale` otherwise.
The third row of the corner matrix is 0, so the translation column of `hinv_`
does not contribute. -/
theorem calc_refocus_H_points_eq (s : saRefocusCalib α) (p0 : saRefocusPose α)
    (hs : s.scale_ ≠ 0) (k : Fin 4) :
    calc_refocus_H_points s (updateHinv s p0) (rot_zero α) 0 k
        = calc_refocus_H_corners s.img_size_ 0 k / s.scale_ + p0.xs_ ∧
    calc_refocus_H_points s (updateHinv s p0) (rot_zero α) 1 k
        = calc_refocus_H_corners s.img_size_ 1 k
            / (if p0.INVERT_Y_FLAG ≠ 0 then -1 * s.scale_ else s.scale_) + p0.ys_ ∧
    calc_refocus_H_points s (updateHinv s p0) (rot_zero α) 2 k = p0.z_ ∧
    calc_refocus_H_points s (updateHinv s p0) (rot_zero α) 3 k = 1 := by
  have hc : (calc_refocus_H_corners s.img_size_ : Fin 3 → Fin 4 → α) 2 k = 0 :=
    (corner_sequences s.img_size_).2.2.1 k
  have hx : (updateHinv s p0).xs_ = p0.xs_ := rfl
  have hy : (updateHinv s p0).ys_ = p0.ys_ := rfl
  have hz : (updateHinv s p0).z_ = p0.z_ := rfl
  have hcol : (fun j => (calc_refocus_H_corners s.img_size_ : Fin 3 → Fin 4 → α) j k)
      = ![calc_refocus_H_corners s.img_size_ 0 k, calc_refocus_H_corners s.img_size_ 1 k, 0] := by
    funext j
    fin_cases j
    · rfl
    · rfl
    · exact hc
  have hm := cvMatMul_hinv_corner (1 / s.scale_)
    (1 / (if p0.INVERT_Y_FLAG ≠ 0 then -1 * s.scale_ else s.scale_))
    (-((s.img_size_.1 : α) * (1 / 2)) / s.scale_)
    (-((s.img_size_.2 : α) * (1 / 2))
      / (if p0.INVERT_Y_FLAG ≠ 0 then -1 * s.scale_ else s.scale_))
    ((calc_refocus_H_corners s.img_size_ : Fin 3 → Fin 4 → α) 0 k)
    ((calc_refocus_H_corners s.img_size_ : Fin 3 → Fin 4 → α) 1 k)
  rw [← updateHinv_hinv s p0 hs, ← hcol] at hm
  obtain ⟨h0, h1, _⟩ := hm
  simp only [calc_refocus_H_points, calc_refocus_H_plane, cvMatMul_rot_zero, hx, hy, hz]
  refine ⟨?_, ?_, ?_, ?_⟩
  · show (if (0 : Fin 3) = 2 then (0 : α)
        else cvMatMul (updateHinv s p0).hinv_ (calc_refocus_H_corners s.img_size_) 0 k) + p0.xs_ = _
    rw [if_neg (by decide)]
    simp only [cvMatMul]
    rw [h0]
    ring
  · show (if (1 : Fin 3) = 2 then (0 : α)
        else cvMatMul (updateHinv s p0).hinv_ (calc_refocus_H_corners s.img_size_) 1 k) + p0.ys_ = _
    rw [if_neg (by decide)]
    simp only [cvMatMul]
    rw [h1]
    ring
  · show (if (2 : Fin 3) = 2 then (0 : α)
        else cvMatMul (updateHinv s p0).hinv_ (calc_refocus_H_corners s.img_size_) 2 k) + p0.z_ = _
    rw [if_pos rfl, zero_add]
  · rfl

/-- The world points that `calc_ref_refocus_H` hands to `img_refrac`, with
`hinv_` as `updateHinv` leaves it: corner `(u, v)` becomes `(u/scale + xs,
v/sy + ys, z)`. -/
theorem calc_ref_refocus_H_points_eq (s : saRefocusCalib α) (p0 : saRefocusPose α)
    (hs : s.scale_ ≠ 0) (k : Fin 4) :
    calc_ref_refocus_H_points s (updateHinv s p0) 0 k
        = calc_ref_refocus_H_corners s.img_size_ 0 k / s.scale_ + p0.xs_ ∧
    calc_ref_refocus_H_points s (updateHinv s p0) 1 k
        = calc_ref_refocus_H_corners s.img_size_ 1 k
            / (if p0.INVERT_Y_FLAG ≠ 0 then -1 * s.scale_ else s.scale_) + p0.ys_ ∧
    calc_ref_refocus_H_points s (updateHinv s p0) 2 k = p0.z_ := by
  have hc : (calc_ref_refocus_H_corners s.img_size_ : Fin 3 → Fin 4 → α) 2 k = 0 :=
    (corner_sequences s.img_size_).2.2.2 k
  have hx : (updateHinv s p0).xs_ = p0.xs_ := rfl
  have hy : (updateHinv s p0).ys_ = p0.ys_ := rfl
  have hz : (updateHinv s p0).z_ = p0.z_ := rfl
  have hcol : (fun j => (calc_ref_refocus_H_corners s.img_size_ : Fin 3 → Fin 4 → α) j k)
      = ![calc_ref_refocus_H_corners s.img_size_ 0 k,
          calc_ref_refocus_H_corners s.img_size_ 1 k, 0] := by
    funext j
    fin_cases j
    · rfl
    · rfl
    · exact hc
  have hm := cvMatMul_hinv_corner (1 / s.scale_)
    (1 / (if p0.INVERT_Y_FLAG ≠ 0 then -1 * s.scale_ else s.scale_))
    (-((s.img_size_.1 : α) * (1 / 2)) / s.scale_)
    (-((s.img_size_.2 : α) * (1 / 2))
      / (if p0.INVERT_Y_FLAG ≠ 0 then -1 * s.scale_ else s.scale_))
    ((calc_ref_refocus_H_corners s.img_size_ : Fin 3 → Fin 4 → α) 0 k)
    ((calc_ref_refocus_H_corners s.img_size_ : Fin 3 → Fin 4 → α) 1 k)
  rw [← updateHinv_hinv s p0 hs, ← hcol] at hm
  obtain ⟨h0, h1, h2⟩ := hm
  refine ⟨?_, ?_, ?_⟩
  · show cvMatMul (updateHinv s p0).hinv_ (calc_ref_refocus_H_corners s.img_size_) 0 k
        + (updateHinv s p0).xs_ = _
    simp only [cvMatMul]
    rw [h0, hx]
    ring
  · show cvMatMul (updateHinv s p0).hinv_ (calc_ref_refocus_H_corners s.img_size_) 1 k
        + (updateHinv s p0).ys_ = _
    simp only [cvMatMul]
    rw [h1, hy]
    ring
  · show cvMatMul (updateHinv s p0).hinv_ (calc_ref_refocus_H_corners s.img_size_) 2 k
        + (updateHinv s p0).z_ = _
    simp only [cvMatMul]
    rw [h2, hz, zero_add]

/-- C24 (as stated, refuted): with a 4 x 4 image, scale 1, no shift and depth
7, the world point of corner `(0, 0)` in `calc_refocus_H` and in
`calc_ref_refocus_H` has `x = 0`, not `(0 - W/2)/scale + xs = -2`. -/
theorem C24_counterexample :
    calc_refocus_H_points (exCalib ℚ) (exPose ℚ) (rot_zero ℚ) 0 0
      ≠ ((0 : ℚ) - ((exCalib ℚ).img_size_.1 : ℚ) / 2) / (exCalib ℚ).scale_ + (exPose ℚ).xs_ ∧
    calc_ref_refocus_H_points (exCalib ℚ) (exPose ℚ) 0 0
      ≠ ((0 : ℚ) - ((exCalib ℚ).img_size_.1 : ℚ) / 2) / (exCalib ℚ).scale_ + (exPose ℚ).xs_ := by
  have hs : (exCalib ℚ).scale_ ≠ 0 := by simp [exCalib]
  have h1 := (calc_refocus_H_points_eq (exCalib ℚ) (exPose0 ℚ) hs 0).1
  have h2 := (calc_ref_refocus_H_points_eq (exCalib ℚ) (exPose0 ℚ) hs 0).1
  have c1 : (calc_refocus_H_corners (exCalib ℚ).img_size_ : Fin 3 → Fin 4 → ℚ) 0 0 = 0 := rfl
  have c2 : (calc_ref_refocus_H_corners (exCalib ℚ).img_size_ : Fin 3 → Fin 4 → ℚ) 0 0 = 0 := rfl
  rw [c1] at h1
  rw [c2] at h2
  unfold exPose
  rw [h1, h2]
  norm_num [exCalib, exPose0, updateHinv]

/-- C24 (amended): in corner mode with zero rotation and `hinv_` as
`updateHinv` leaves it for a non-zero scale, `calc_refocus_H` and
`calc_ref_refocus_H` each use exactly four world points, one per column `k` of
the corner matrix, whose corners `(u, v)` run through `{0, W-1} x {0, H-1}`;
the point of corner `(u, v)` is `(u/scale + xs, v/sy + ys, z)` with `sy =
-scale` when the y axis is inverted and `sy = scale` otherwise. The corner is
scaled but not centred: the homogeneous coordinate of the corner matrix is 0. -/
theorem C24_corner_world_points (s : saRefocusCalib α) (p0 : saRefocusPose α)
    (R : Fin 3 → Fin 3 → α) (hs : s.scale_ ≠ 0) (hR : R = rot_zero α) :
    (∀ k : Fin 4,
      calc_refocus_H_points s (updateHinv s p0) R 0 k
          = calc_refocus_H_corners s.img_size_ 0 k / s.scale_ + p0.xs_ ∧
      calc_refocus_H_points s (updateHinv s p0) R 1 k
          = calc_refocus_H_corners s.img_size_ 1 k
              / (if p0.INVERT_Y_FLAG ≠ 0 then -1 * s.scale_ else s.scale_) + p0.ys_ ∧
      calc_refocus_H_points s (updateHinv s p0) R 2 k = p0.z_ ∧
      calc_refocus_H_points s (updateHinv s p0) R 3 k = 1) ∧
    (∀ k : Fin 4,
      calc_ref_refocus_H_points s (updateHinv s p0) 0 k
          = calc_ref_refocus_H_corners s.img_size_ 0 k / s.scale_ + p0.xs_ ∧
      calc_ref_refocus_H_points s (updateHinv s p0) 1 k
          = calc_ref_refocus_H_corners s.img_size_ 1 k
              / (if p0.INVERT_Y_FLAG ≠ 0 then -1 * s.scale_ else s.scale_) + p0.ys_ ∧
      calc_ref_refocus_H_points s (updateHinv s p0) 2 k = p0.z_) ∧
    (fun k => ((calc_refocus_H_corners s.img_size_ : Fin 3 → Fin 4 → α) 0 k,
        (calc_refocus_H_corners s.img_size_ : Fin 3 → Fin 4 → α) 1 k))
      = ![(0, 0), (((s.img_size_.1 - 1 : ℤ) : α), 0),
          (((s.img_size_.1 - 1 : ℤ) : α), ((s.img_size_.2 - 1 : ℤ) : α)),
          (0, ((s.img_size_.2 - 1 : ℤ) : α))] ∧
    (fun k => ((calc_ref_refocus_H_corners s.img_size_ : Fin 3 → Fin 4 → α) 0 k,
        (calc_ref_refocus_H_corners s.img_size_ : Fin 3 → Fin 4 → α) 1 k))
      = ![(0, 0), (0, ((s.img_size_.2 - 1 : ℤ) : α)),
          (((s.img_size_.1 - 1 : ℤ) : α), ((s.img_size_.2 - 1 : ℤ) : α)),
          (((s.img_size_.1 - 1 : ℤ) : α), 0)] := by
  subst hR
  exact ⟨fun k => calc_refocus_H_points_eq s p0 hs k,
    fun k => calc_ref_refocus_H_points_eq s p0 hs k,
    (corner_sequences s.img_size_).1, (corner_sequences s.img_size_).2.1⟩

/-- C24 (amended) at the example calibration (4 x 4 pixels, scale 1) and the
example pose: the four world points of `calc_refocus_H`. -/
theorem C24_corner_world_points_witness :
    (exCalib ℚ).scale_ ≠ 0 ∧ rot_zero ℚ = rot_zero ℚ ∧
    ∀ k : Fin 4,
      calc_refocus_H_points (exCalib ℚ) (updateHinv (exCalib ℚ) (exPose0 ℚ)) (rot_zero ℚ) 0 k
          = calc_refocus_H_corners (exCalib ℚ).img_size_ 0 k / (exCalib ℚ).scale_
            + (exPose0 ℚ).xs_ ∧
      calc_refocus_H_points (exCalib ℚ) (updateHinv (exCalib ℚ) (exPose0 ℚ)) (rot_zero ℚ) 1 k
          = calc_refocus_H_corners (exCalib ℚ).img_size_ 1 k
              / (if (exPose0 ℚ).INVERT_Y_FLAG ≠ 0 then -1 * (exCalib ℚ).scale_
                  else (exCalib ℚ).scale_) + (exPose0 ℚ).ys_ ∧
      calc_refocus_H_points (exCalib ℚ) (updateHinv (exCalib ℚ) (exPose0 ℚ)) (rot_zero ℚ) 2 k
          = (exPose0 ℚ).z_ ∧
      calc_refocus_H_points (exCalib ℚ) (updateHinv (exCalib ℚ) (exPose0 ℚ)) (rot_zero ℚ) 3 k
          = 1 :=
  ⟨by simp [exCalib], rfl,
    (C24_corner_world_points (exCalib ℚ) (exPose0 ℚ) (rot_zero ℚ) (by simp [exCalib]) rfl).1⟩

/-- C26 (as stated, refuted): on a 4 x 3 image the refractive corner sequence
is not the pinhole sequence with its third and fourth corners swapped: the
second refractive corner is `(0, 2)`, the second pinhole corner is `(3, 0)`. -/
theorem C26_counterexample :
    (calc_ref_refocus_H_corners (4, 3) : Fin 3 → Fin 4 → ℚ)
      ≠ fun i k => calc_refocus_H_corners (4, 3) i (Equiv.swap 2 3 k) := by
  intro h
  have h1 := congrFun (congrFun h 0) 1
  have hsw : Equiv.swap (2 : Fin 4) 3 1 = 1 := by decide
  rw [hsw] at h1
  norm_num [calc_ref_refocus_H_corners, calc_refocus_H_corners] at h1

/-- C26 (amended): the corner sequence of the refractive `calc_ref_refocus_H`
is the corner sequence of the pinhole `calc_refocus_H` with its second and
fourth corners swapped (columns 1 and 3), and the two sequences are otherwise
equal: the pinhole order is `(0,0), (W-1,0), (W-1,H-1), (0,H-1)`, the
refractive order is `(0,0), (0,H-1), (W-1,H-1), (W-1,0)`. -/
theorem C26_corner_order (img_size_ : ℤ × ℤ) :
    (calc_ref_refocus_H_corners img_size_ : Fin 3 → Fin 4 → α)
        = (fun i k => calc_refocus_H_corners img_size_ i (Equiv.swap 1 3 k)) ∧
    (fun k => ((calc_refocus_H_corners img_size_ : Fin 3 → Fin 4 → α) 0 k,
        (calc_refocus_H_corners img_size_ : Fin 3 → Fin 4 → α) 1 k))
      = ![(0, 0), (((img_size_.1 - 1 : ℤ) : α), 0),
          (((img_size_.1 - 1 : ℤ) : α), ((img_size_.2 - 1 : ℤ) : α)),
          (0, ((img_size_.2 - 1 : ℤ) : α))] ∧
    (fun k => ((calc_ref_refocus_H_corners img_size_ : Fin 3 → Fin 4 → α) 0 k,
        (calc_ref_refocus_H_corners img_size_ : Fin 3 → Fin 4 → α) 1 k))
      = ![(0, 0), (0, ((img_size_.2 - 1 : ℤ) : α)),
          (((img_size_.1 - 1 : ℤ) : α), ((img_size_.2 - 1 : ℤ) : α)),
          (((img_size_.1 - 1 : ℤ) : α), 0)] := by
  refine ⟨?_, (corner_sequences img_size_).1, (corner_sequences img_size_).2.1⟩
  have s0 : Equiv.swap (1 : Fin 4) 3 0 = 0 := by decide
  have s1 : Equiv.swap (1 : Fin 4) 3 1 = 3 := by decide
  have s2 : Equiv.swap (1 : Fin 4) 3 2 = 2 := by decide
  have s3 : Equiv.swap (1 : Fin 4) 3 3 = 1 := by decide
  funext i k
  fin_cases i <;> fin_cases k <;>
    simp only [Fin.zero_eta, Fin.mk_one, Fin.reduceFinMk, s0, s1, s2, s3] <;> rfl

/-! ### Full mode -/

/-- The inner loop of the grid fill writes the columns `i*height + j`,
`j < m`, and leaves the others. -/
theorem grid_inner (height i : ℕ) (X0 : ℕ → Fin 3 → α) :
    ∀ m : ℕ, (List.range m).foldl (fun X j =>
        Function.update X (i * height + j) ![(i : α), (j : α), 1]) X0
      = fun k => if i * height ≤ k ∧ k < i * height + m
          then ![(i : α), ((k - i * height : ℕ) : α), 1] else X0 k := by
  intro m
  induction m with
  | zero =>
    funext k
    have : ¬ (i * height ≤ k ∧ k < i * height + 0) := by omega
    rw [if_neg this]
    rfl
  | succ m ih =>
    rw [List.range_succ, List.foldl_append, ih]
    funext k
    simp only [List.foldl_cons, List.foldl_nil, Function.update_apply]
    by_cases hk : k = i * height + m
    · subst hk
      simp
    · rw [if_neg hk]
      by_cases h1 : i * height ≤ k ∧ k < i * height + m
      · rw [if_pos h1, if_pos ⟨h1.1, by omega⟩]
      · rw [if_neg h1, if_neg (by omega)]

/-- The grid after the loops: column `k < n*height` holds
`(k / height, k % height, 1)`, the other columns are still zero. -/
theorem grid_outer (height : ℕ) :
    ∀ n : ℕ, (calc_ref_refocus_map_grid n height : ℕ → Fin 3 → α)
      = fun k => if k < n * height
          then ![((k / height : ℕ) : α), ((k % height : ℕ) : α), 1] else fun _ => 0 := by
  intro n
  induction n with
  | zero =>
    funext k
    simp [calc_ref_refocus_map_grid]
  | succ n ih =>
    unfold calc_ref_refocus_map_grid at ih ⊢
    rw [List.range_succ, List.foldl_append, ih]
    simp only [List.foldl_cons, List.foldl_nil]
    rw [grid_inner]
    funext k
    by_cases h1 : n * height ≤ k ∧ k < n * height + height
    · rw [if_pos h1, if_pos (by rw [Nat.succ_mul]; exact h1.2)]
      have hh : 0 < height := by
        rcases Nat.eq_zero_or_pos height with h0 | h0
        · rw [h0] at h1; omega
        · exact h0
      have hd : k / height = n := by
        apply Nat.div_eq_of_lt_le
        · exact h1.1
        · rw [Nat.succ_mul]; exact h1.2
      have hm : k % height = k - n * height := by
        have := Nat.div_add_mod k height
        rw [hd, Nat.mul_comm] at this
        omega
      rw [hd, hm]
    · rw [if_neg h1]
      by_cases h2 : k < n * height
      · rw [if_pos h2, if_pos (by rw [Nat.succ_mul]; omega)]
      · rw [if_neg h2, if_neg (by rw [Nat.succ_mul]; omega)]

/-- The linear index `i*H + j` is a bijection from the pixel grid onto
`[0, W*H)`. -/
theorem grid_index_bijective (W H : ℕ) :
    (∀ i j, i < W → j < H → i * H + j < W * H) ∧
    (∀ i1 j1 i2 j2, j1 < H → j2 < H → i1 * H + j1 = i2 * H + j2 → i1 = i2 ∧ j1 = j2) ∧
    (∀ k, k < W * H → ∃ i j, i < W ∧ j < H ∧ k = i * H + j) := by
  refine ⟨?_, ?_, ?_⟩
  · intro i j hi hj
    have : (i + 1) * H ≤ W * H := Nat.mul_le_mul_right H hi
    rw [Nat.succ_mul] at this
    omega
  · intro i1 j1 i2 j2 h1 h2 h
    have hH : 0 < H := by omega
    have d1 : (i1 * H + j1) / H = i1 := by
      rw [Nat.mul_comm, Nat.mul_add_div hH, Nat.div_eq_of_lt h1, Nat.add_zero]
    have d2 : (i2 * H + j2) / H = i2 := by
      rw [Nat.mul_comm, Nat.mul_add_div hH, Nat.div_eq_of_lt h2, Nat.add_zero]
    have hi : i1 = i2 := by rw [← d1, ← d2, h]
    subst hi
    exact ⟨rfl, by omega⟩
  · intro k hk
    have hH : 0 < H := by
      rcases Nat.eq_zero_or_pos H with h0 | h0
      · rw [h0] at hk
        omega
      · exact h0
    refine ⟨k / H, k % H, ?_, Nat.mod_lt k hH, ?_⟩
    · rw [Nat.mul_comm] at hk
      exact Nat.div_lt_of_lt_mul hk
    · have := Nat.div_add_mod k H
      rw [Nat.mul_comm] at this
      exact this.symm

/-- Column `i*height + j` of the grid holds `(i, j, 1)`. -/
theorem grid_at (width height i j : ℕ) (hi : i < width) (hj : j < height) :
    (calc_ref_refocus_map_grid width height : ℕ → Fin 3 → α) (i * height + j)
      = ![(i : α), (j : α), 1] := by
  have hlt := (grid_index_bijective width height).1 i j hi hj
  have hH : 0 < height := by omega
  have hd : (i * height + j) / height = i := by
    rw [Nat.mul_comm, Nat.mul_add_div hH, Nat.div_eq_of_lt hj, Nat.add_zero]
  have hm : (i * height + j) % height = j := by
    rw [Nat.mul_comm, Nat.mul_add_mod, Nat.mod_eq_of_lt hj]
  rw [grid_outer]
  simp only [hlt, if_true, hd, hm]

/-- The point that `calc_ref_refocus_map` hands to `img_refrac` for the pixel
at column `i` and row `j`. -/
theorem calc_ref_refocus_map_points_at (s : saRefocusCalib α) (z : α) (i j : ℕ)
    (hs : s.scale_ ≠ 0) (hi : i < s.img_size_.1.toNat) (hj : j < s.img_size_.2.toNat) :
    calc_ref_refocus_map_points s z (i * s.img_size_.2.toNat + j) = full_mode_point s z i j := by
  funext r
  simp only [calc_ref_refocus_map_points, grid_at _ _ i j hi hj,
    cvInv3_affine _ _ _ _ hs hs, full_mode_point]
  fin_cases r
  · simp [Fin.sum_univ_three]
    field_simp
    ring
  · simp [Fin.sum_univ_three]
    field_simp
    ring
  · simp

/-- C25: in full mode, for every destination pixel at column `i` and row `j`
(`i < W`, `j < H`), `calc_ref_refocus_map` stores in `x(j,i)`, `y(j,i)` the
first two components of `P_cam * a` divided by its third, where `a =
img_refrac(Xcam, ((i - W/2)/scale, (j - H/2)/scale, z))`; column `i*H + j`
of the grid holds `(i, j, 1)`, and the linear index `i*H + j` is a bijection
from the pixel grid onto `[0, W*H)`. -/
theorem C25_full_map_entries (M : CMath α) (s : saRefocusCalib α) (Xcam : Fin 3 → α) (z : α)
    (x y : ℕ → ℕ → α) (cam : ℕ) (P : Fin 3 → Fin 4 → α) (hs : s.scale_ ≠ 0)
    (hP : s.P_mats_[cam]? = some P) :
    ∃ xm ym : ℕ → ℕ → α,
      calc_ref_refocus_map M s Xcam z x y cam = some (xm, ym) ∧
      (∀ i j, i < s.img_size_.1.toNat → j < s.img_size_.2.toNat →
        xm j i = refracted_projection M s Xcam P (full_mode_point s z i j) 0
            / refracted_projection M s Xcam P (full_mode_point s z i j) 2 ∧
        ym j i = refracted_projection M s Xcam P (full_mode_point s z i j) 1
            / refracted_projection M s Xcam P (full_mode_point s z i j) 2 ∧
        (calc_ref_refocus_map_grid s.img_size_.1.toNat s.img_size_.2.toNat : ℕ → Fin 3 → α)
            (i * s.img_size_.2.toNat + j) = ![(i : α), (j : α), 1]) ∧
      (∀ i j, i < s.img_size_.1.toNat → j < s.img_size_.2.toNat →
        i * s.img_size_.2.toNat + j < s.img_size_.1.toNat * s.img_size_.2.toNat) ∧
      (∀ i1 j1 i2 j2, j1 < s.img_size_.2.toNat → j2 < s.img_size_.2.toNat →
        i1 * s.img_size_.2.toNat + j1 = i2 * s.img_size_.2.toNat + j2 → i1 = i2 ∧ j1 = j2) ∧
      (∀ k, k < s.img_size_.1.toNat * s.img_size_.2.toNat →
        ∃ i j, i < s.img_size_.1.toNat ∧ j < s.img_size_.2.toNat ∧
          k = i * s.img_size_.2.toNat + j) := by
  obtain ⟨b1, b2, b3⟩ := grid_index_bijective s.img_size_.1.toNat s.img_size_.2.toNat
  refine ⟨_, _, by simp only [calc_ref_refocus_map, hP]; rfl, ?_, b1, b2, b3⟩
  intro i j hi hj
  have hlt : i * s.img_size_.2.toNat + j < s.img_size_.2.toNat * s.img_size_.1.toNat := by
    rw [Nat.mul_comm s.img_size_.2.toNat]
    exact b1 i j hi hj
  have hget : (img_refrac M s Xcam
        ((List.range (s.img_size_.2.toNat * s.img_size_.1.toNat)).map
          (calc_ref_refocus_map_points s z))).getD (i * s.img_size_.2.toNat + j) 0
      = (img_refrac_point M s Xcam (full_mode_point s z i j)).X_out := by
    rw [← calc_ref_refocus_map_points_at s z i j hs hi hj]
    simp [img_refrac, List.getD_eq_getElem?_getD, hlt]
  simp only [hi, hj, and_self, if_true, hget, refracted_projection]
  exact ⟨trivial, trivial, grid_at _ _ i j hi hj⟩

/-- C25 at the example calibration (4 x 4 pixels, scale 1, one camera): the
call returns the two maps. -/
theorem C25_full_map_entries_witness :
    (exCalib ℚ).scale_ ≠ 0 ∧
    (exCalib ℚ).P_mats_[0]? = some ![![1, 0, 0, 0], ![0, 1, 0, 0], ![0, 0, 1, 10]] ∧
    ∃ xm ym : ℕ → ℕ → ℚ,
      calc_ref_refocus_map exMath (exCalib ℚ) ![0, 0, -10] 7 (fun _ _ => 0) (fun _ _ => 0) 0
        = some (xm, ym) :=
  ⟨by simp [exCalib], rfl,
    (C25_full_map_entries exMath (exCalib ℚ) ![0, 0, -10] 7 (fun _ _ => 0) (fun _ _ => 0) 0
      ![![1, 0, 0, 0], ![0, 1, 0, 0], ![0, 0, 1, 10]] (by simp [exCalib]) rfl).imp
      (fun _ h => h.imp (fun _ h2 => h2.1))⟩

/-! ### Analytic Jacobian -/

/-- Over the reals `pow(A, 1.5)` is `A * sqrt A` for `A ≥ 0`. -/
theorem rpow_three_halves (A : ℝ) (hA : 0 ≤ A) : A ^ (3 / 2 : ℝ) = A * Real.sqrt A := by
  rw [Real.sqrt_eq_rpow, ← Real.rpow_one_add' hA (by norm_num)]
  norm_num

/-- Derivative of `t / sqrt (t² + d²)` for `d ≠ 0`. -/
theorem hasDerivAt_sine_ratio (d : ℝ) (hd : d ≠ 0) (x : ℝ) :
    HasDerivAt (fun t : ℝ => t / Real.sqrt (t ^ 2 + d ^ 2))
      (1 / Real.sqrt (x ^ 2 + d ^ 2) - x ^ 2 / (x ^ 2 + d ^ 2) ^ (3 / 2 : ℝ)) x := by
  have hpos : 0 < x ^ 2 + d ^ 2 := by positivity
  have hsq : Real.sqrt (x ^ 2 + d ^ 2) ≠ 0 := (Real.sqrt_pos.mpr hpos).ne'
  have h1 : HasDerivAt (fun t : ℝ => t ^ 2 + d ^ 2) (2 * x) x := by
    have := ((hasDerivAt_id x).pow 2).add_const (d ^ 2)
    simpa using this
  have h2 := h1.sqrt hpos.ne'
  have h3 := (hasDerivAt_id x).div h2 hsq
  refine h3.congr_deriv ?_
  rw [rpow_three_halves _ hpos.le]
  have hmul : Real.sqrt (x ^ 2 + d ^ 2) * Real.sqrt (x ^ 2 + d ^ 2) = x ^ 2 + d ^ 2 :=
    Real.mul_self_sqrt hpos.le
  simp only [id]
  generalize Real.sqrt (x ^ 2 + d ^ 2) = r at hsq hmul ⊢
  have hA : x ^ 2 + d ^ 2 ≠ 0 := hpos.ne'
  field_simp
  linear_combination (2 * r * x ^ 2) * hmul

/-- Derivative of `c * (u - t) / sqrt ((u - t)² + d²)` in `t`. -/
theorem hasDerivAt_sine_left (c u d : ℝ) (hd : d ≠ 0) (x : ℝ) :
    HasDerivAt (fun t : ℝ => c * (u - t) / Real.sqrt ((u - t) ^ 2 + d ^ 2))
      (-(c * (1 / Real.sqrt ((u - x) ^ 2 + d ^ 2)
        - (u - x) ^ 2 / ((u - x) ^ 2 + d ^ 2) ^ (3 / 2 : ℝ)))) x := by
  have hin : HasDerivAt (fun t : ℝ => u - t) (-1) x := by
    simpa using (hasDerivAt_id x).const_sub u
  have hc := ((hasDerivAt_sine_ratio d hd (u - x)).comp x hin).const_mul c
  refine (hc.congr_of_eventuallyEq ?_).congr_deriv ?_
  · exact Filter.Eventually.of_forall (fun t => by simp [Function.comp, mul_div_assoc])
  · ring

/-- Derivative of `c * (t - u) / sqrt ((t - u)² + d²)` in `t`. -/
theorem hasDerivAt_sine_right (c u d : ℝ) (hd : d ≠ 0) (x : ℝ) :
    HasDerivAt (fun t : ℝ => c * (t - u) / Real.sqrt ((t - u) ^ 2 + d ^ 2))
      (c * (1 / Real.sqrt ((x - u) ^ 2 + d ^ 2)
        - (x - u) ^ 2 / ((x - u) ^ 2 + d ^ 2) ^ (3 / 2 : ℝ))) x := by
  have hin : HasDerivAt (fun t : ℝ => t - u) 1 x := by
    simpa using (hasDerivAt_id x).sub_const u
  have hc := ((hasDerivAt_sine_ratio d hd (x - u)).comp x hin).const_mul c
  refine (hc.congr_of_eventuallyEq ?_).congr_deriv ?_
  · exact Filter.Eventually.of_forall (fun t => by simp [Function.comp, mul_div_assoc])
  · ring

/-- C27: over the reals (`sqrt` the real square root, `pow(., 1.5)` the real
power) and for `da`, `db`, `dp` non-zero, the residuals `f` and `g` of
`img_refrac` are the two Snell equations of the specification, and `dfdra`,
`dfdrb`, `dgdra`, `dgdrb` are the partial derivatives of `f` and `g` with
respect to `ra` and `rb`. -/
theorem C27_analytic_jacobian (M : CMath ℝ) (q : NRParams ℝ) (ra rb : ℝ)
    (hsqrt : M.sqrt = Real.sqrt) (hpow : M.pow15 = fun x => x ^ (3 / 2 : ℝ))
    (hda : q.da ≠ 0) (hdb : q.db ≠ 0) (hdp : q.dp ≠ 0) :
    nr_f M q ra rb = snell_f_spec Real.sqrt q.n1_ q.n2_ q.da q.db ra rb ∧
    nr_g M q ra rb = snell_g_spec Real.sqrt q.n2_ q.n3_ q.db q.dp q.rp ra rb ∧
    HasDerivAt (fun t => nr_f M q t rb) (nr_dfdra M q ra rb) ra ∧
    HasDerivAt (fun t => nr_f M q ra t) (nr_dfdrb M q ra rb) rb ∧
    HasDerivAt (fun t => nr_g M q t rb) (nr_dgdra M q ra rb) ra ∧
    HasDerivAt (fun t => nr_g M q ra t) (nr_dgdrb M q ra rb) rb := by
  have hB : (rb - ra) ^ 2 + q.db ^ 2 = (ra - rb) ^ 2 + q.db ^ 2 := by ring
  have hC : (q.rp - rb) ^ 2 + q.dp ^ 2 = (rb - q.rp) ^ 2 + q.dp ^ 2 := by ring
  refine ⟨?_, ?_, ?_, ?_, ?_, ?_⟩
  · simp only [nr_f, snell_f_spec, hsqrt]
    ring
  · simp only [nr_g, snell_g_spec, hsqrt]
    ring
  · have h := (hasDerivAt_sine_ratio q.da hda ra).sub
      (hasDerivAt_sine_left (q.n2_ / q.n1_) rb q.db hdb ra)
    simp only [nr_f, nr_dfdra, hsqrt, hpow]
    refine h.congr_deriv ?_
    rw [hB]
    ring
  · have h := (hasDerivAt_const rb (ra / Real.sqrt (ra ^ 2 + q.da ^ 2))).sub
      (hasDerivAt_sine_right (q.n2_ / q.n1_) ra q.db hdb rb)
    simp only [nr_f, nr_dfdrb, hsqrt, hpow]
    refine h.congr_deriv ?_
    rw [hB]
    ring
  · have h := (hasDerivAt_sine_left 1 rb q.db hdb ra).sub
      (hasDerivAt_const ra
        ((q.n3_ / q.n2_) * (q.rp - rb) / Real.sqrt ((q.rp - rb) ^ 2 + q.dp ^ 2)))
    simp only [nr_g, nr_dgdra, hsqrt, hpow]
    refine (h.congr_of_eventuallyEq
      (Filter.Eventually.of_forall (fun t => by simp))).congr_deriv ?_
    rw [hB]
    ring
  · have h := (hasDerivAt_sine_right 1 ra q.db hdb rb).sub
      (hasDerivAt_sine_left (q.n3_ / q.n2_) q.rp q.dp hdp rb)
    simp only [nr_g, nr_dgdrb, hsqrt, hpow]
    refine (h.congr_of_eventuallyEq
      (Filter.Eventually.of_forall (fun t => by simp))).congr_deriv ?_
    rw [hB, hC]
    ring

/-- C27 at the real C math and the parameters `n = (1, 2, 1)`, `rp = 9`,
`dp = da = db = 4`, at `(ra, rb) = (3, 6)`: the derivative of `f` in `ra`. -/
theorem C27_analytic_jacobian_witness :
    (⟨Real.sqrt, fun x => x ^ (3 / 2 : ℝ), Real.cos, Real.sin,
        fun y x => Complex.arg ⟨x, y⟩⟩ : CMath ℝ).sqrt = Real.sqrt ∧
    (⟨Real.sqrt, fun x => x ^ (3 / 2 : ℝ), Real.cos, Real.sin,
        fun y x => Complex.arg ⟨x, y⟩⟩ : CMath ℝ).pow15 = (fun x => x ^ (3 / 2 : ℝ)) ∧
    (⟨1, 2, 1, 9, 4, 4, 4⟩ : NRParams ℝ).da ≠ 0 ∧
    (⟨1, 2, 1, 9, 4, 4, 4⟩ : NRParams ℝ).db ≠ 0 ∧
    (⟨1, 2, 1, 9, 4, 4, 4⟩ : NRParams ℝ).dp ≠ 0 ∧
    HasDerivAt
      (fun t => nr_f (⟨Real.sqrt, fun x => x ^ (3 / 2 : ℝ), Real.cos, Real.sin,
        fun y x => Complex.arg ⟨x, y⟩⟩ : CMath ℝ) (⟨1, 2, 1, 9, 4, 4, 4⟩ : NRParams ℝ) t 6)
      (nr_dfdra (⟨Real.sqrt, fun x => x ^ (3 / 2 : ℝ), Real.cos, Real.sin,
        fun y x => Complex.arg ⟨x, y⟩⟩ : CMath ℝ) (⟨1, 2, 1, 9, 4, 4, 4⟩ : NRParams ℝ) 3 6) 3 :=
  ⟨rfl, rfl, by norm_num, by norm_num, by norm_num,
    (C27_analytic_jacobian _ (⟨1, 2, 1, 9, 4, 4, 4⟩ : NRParams ℝ) 3 6 rfl rfl
      (by norm_num) (by norm_num) (by norm_num)).2.2.1⟩

/-! ### MinLoS and Mean on every path of `refocus` -/

/-- MinLoS mode on the GPU paths: after cameras `0..k` every pixel of the
accumulator is the minimum of that pixel over the views. -/
theorem GPUrefocus_min_fold [FloorRing α] (L : Lib rows cols α) (s : saRefocus α)
    (W : ℕ → Mat rows cols α) (hmult : s.mult_ = 0) (hmin : s.minlos_ ≠ 0)
    (r : Fin rows) (c : Fin cols) (k : ℕ) :
    IsMinUpTo (fun i => W i r c) k
      ((List.range (k + 1)).foldl (GPUrefocus_body L s W) blank r c) := by
  induction k with
  | zero =>
    refine ⟨fun i hi => ?_, 0, le_refl _, ?_⟩
    · have : i = 0 := Nat.le_zero.mp hi
      subst this
      simp [List.range_succ, GPUrefocus_body, hmult, hmin]
    · simp [List.range_succ, GPUrefocus_body, hmult, hmin]
  | succ k ih =>
    rw [List.range_succ, List.foldl_append]
    have h := ih.step
    simpa [GPUrefocus_body, hmult, hmin, cvMin] using h

/-- The CPU refractive corner path, which applies no threshold: MinLoS is at
most Mean at every pixel. -/
theorem CPUrefocus_ref_corner_minlos_le_mean (pw : α → α → α) (s : saRefocus α) (m : ℤ)
    (W : ℕ → Mat rows cols α) (hN : 1 ≤ s.num_cams_) (hmult : s.mult_ = 0)
    (hmin : s.minlos_ = 0) (hm : m ≠ 0) (r : Fin rows) (c : Fin cols) :
    CPUrefocus_ref_corner pw { s with minlos_ := m } W r c
      ≤ CPUrefocus_ref_corner pw s W r c := by
  have hlow := (CPUrefocus_ref_corner_min_fold pw { s with minlos_ := m } W hmult hm r c
    (s.num_cams_ - 1)).1
  have hk : s.num_cams_ - 1 + 1 = s.num_cams_ := Nat.sub_add_cancel hN
  have hmean : CPUrefocus_ref_corner pw s W r c
      = (1 / (s.num_cams_ : α)) * ∑ i in Finset.range s.num_cams_, W i r c := by
    unfold CPUrefocus_ref_corner
    rw [CPUrefocus_ref_corner_mean_fold pw s W hmult hmin, hk, Finset.mul_sum]
    exact Finset.sum_congr rfl (fun i _ => by ring)
  rw [hmean]
  apply le_mean_of_forall_le (fun i => W i r c) s.num_cams_ hN
  intro i hi
  exact hlow i (by omega)

/-- The GPU pinhole path when its threshold is an absolute level or is
skipped: MinLoS is at most Mean at every pixel. -/
theorem GPUrefocus_minlos_le_mean [FloorRing α] (L : Lib rows cols α) (s : saRefocus α)
    (m : ℤ) (W : ℕ → Mat rows cols α) (hN : 1 ≤ s.num_cams_)
    (hfact : s.fact_ = 1 / (s.num_cams_ : α)) (hmult : s.mult_ = 0) (hmin : s.minlos_ = 0)
    (hnlca : s.nlca_ = 0) (hfast : s.nlca_fast_ = 0) (hm : m ≠ 0)
    (hW : ∀ i r c, 0 ≤ W i r c) (habs : s.STDEV_THRESH = 0 ∨ s.BENCHMARK_MODE ≠ 0)
    (r : Fin rows) (c : Fin cols) :
    GPUrefocus L { s with minlos_ := m } W r c ≤ GPUrefocus L s W r c := by
  have hk : s.num_cams_ - 1 + 1 = s.num_cams_ := Nat.sub_add_cancel hN
  have hmean : GPUrefocus_combined L s W r c
      = (1 / (s.num_cams_ : α)) * ∑ i in Finset.range s.num_cams_, W i r c := by
    rw [(CPU_GPU_parity_absolute L s W hN hfact hmult hmin hnlca hfast).1]
    exact CPUrefocus_combined_mean L.pow s W hN hmult hmin r c
  have hlow := (GPUrefocus_min_fold L { s with minlos_ := m } W hmult hm r c
    (s.num_cams_ - 1)).1
  rw [hk] at hlow
  have hle : GPUrefocus_combined L { s with minlos_ := m } W r c
      ≤ GPUrefocus_combined L s W r c := by
    rw [hmean]
    apply le_mean_of_forall_le (fun i => W i r c) s.num_cams_ hN
    intro i hi
    exact hlow i (by omega)
  have hnonneg : 0 ≤ GPUrefocus_combined L s W r c := by
    rw [hmean]
    exact mul_nonneg (by positivity) (Finset.sum_nonneg (fun i _ => hW i r c))
  have hfinMin : GPUrefocus L { s with minlos_ := m } W
      = if s.BENCHMARK_MODE = 0
          then threshold_image L { s with minlos_ := m }
            (GPUrefocus_combined L { s with minlos_ := m } W)
          else GPUrefocus_combined L { s with minlos_ := m } W := by
    simp only [GPUrefocus, GPUrefocus_finish, hnlca, hfast, ne_eq, not_true_eq_false, if_false]
  have hfinMean : GPUrefocus L s W
      = if s.BENCHMARK_MODE = 0 then threshold_image L s (GPUrefocus_combined L s W)
          else GPUrefocus_combined L s W := by
    simp only [GPUrefocus, GPUrefocus_finish, hnlca, hfast, ne_eq, not_true_eq_false, if_false]
  rw [hfinMin, hfinMean]
  by_cases hb : s.BENCHMARK_MODE = 0
  · have hstd : s.STDEV_THRESH = 0 := by
      rcases habs with h | h
      · exact h
      · exact absurd hb h
    rw [if_pos hb, if_pos hb, threshold_image_abs L { s with minlos_ := m } _ hstd,
      threshold_image_abs L s _ hstd]
    exact cvThresholdToZero_le _ _ _ r c hle hnonneg
  · rw [if_neg hb, if_neg hb]
    exact hle

/-- C11 (as stated, refuted): on the GPU pinhole path with the STDEV threshold
(factor 0, benchmark mode off), two cameras and the views `[2/5, 0]` and
`[2/5, 9/10]`, the MinLoS image `[2/5, 0]` has 8-bit values 102, 0 and cut-off
`51/255`, so it keeps `2/5` at the first pixel, while the Mean image
`[2/5, 9/20]` has 8-bit values 102, 115 and cut-off `108.5/255`, so it becomes
0 there: MinLoS exceeds Mean at that pixel. -/
theorem C11_counterexample :
    (∀ i r c, 0 ≤ exSparse i r c ∧ exSparse i r c ≤ 1) ∧
    refocus (ratLib 1 2) exStdevMin exSparse 0 0 0 = 2 / 5 ∧
    refocus (ratLib 1 2) exStdev exSparse 0 0 0 = 0 ∧
    ¬ ∀ r c, refocus (ratLib 1 2) exStdevMin exSparse 0 r c
        ≤ refocus (ratLib 1 2) exStdev exSparse 0 r c := by
  have hgMin : GPUrefocus_combined (ratLib 1 2) exStdevMin exSparse
      = fun _ c => if c.val = 0 then 2 / 5 else 0 := by
    funext r c
    fin_cases c <;>
      norm_num [GPUrefocus_combined, GPUrefocus_body, exStdevMin, exStdev, exState, exSparse,
        cvMin, blank, List.range_succ]
  have hgMean : GPUrefocus_combined (ratLib 1 2) exStdev exSparse
      = fun _ c => if c.val = 0 then 2 / 5 else 9 / 20 := by
    funext r c
    fin_cases c <;>
      norm_num [GPUrefocus_combined, GPUrefocus_body, exStdev, exState, exSparse, cvAdd,
        cvScale, blank, List.range_succ]
  have h8Min : convertTo8U (cvScale (fun (_ : Fin 1) (c : Fin 2) =>
        if c.val = 0 then (2 / 5 : ℚ) else 0) 255)
      = fun _ c => if c.val = 0 then 102 else 0 := by
    funext r c
    fin_cases c
    · have h : cvRound (cvScale (fun (_ : Fin 1) (c : Fin 2) =>
          if c.val = 0 then (2 / 5 : ℚ) else 0) 255 r ⟨0, by decide⟩) = 102 := by
        apply cvRound_of_lt_half <;> norm_num [cvScale]
      simp only [convertTo8U, Fin.zero_eta, Fin.mk_zero] at h ⊢
      rw [h]
      decide
    · have h : cvRound (cvScale (fun (_ : Fin 1) (c : Fin 2) =>
          if c.val = 0 then (2 / 5 : ℚ) else 0) 255 r ⟨1, by decide⟩) = 0 := by
        apply cvRound_of_lt_half <;> norm_num [cvScale]
      simp only [convertTo8U, Fin.mk_one] at h ⊢
      rw [h]
      decide
  have h8Mean : convertTo8U (cvScale (fun (_ : Fin 1) (c : Fin 2) =>
        if c.val = 0 then (2 / 5 : ℚ) else 9 / 20) 255)
      = fun _ c => if c.val = 0 then 102 else 115 := by
    funext r c
    fin_cases c
    · have h : cvRound (cvScale (fun (_ : Fin 1) (c : Fin 2) =>
          if c.val = 0 then (2 / 5 : ℚ) else 9 / 20) 255 r ⟨0, by decide⟩) = 102 := by
        apply cvRound_of_lt_half <;> norm_num [cvScale]
      simp only [convertTo8U, Fin.zero_eta, Fin.mk_zero] at h ⊢
      rw [h]
      decide
    · have h : cvRound (cvScale (fun (_ : Fin 1) (c : Fin 2) =>
          if c.val = 0 then (2 / 5 : ℚ) else 9 / 20) 255 r ⟨1, by decide⟩) = 114 + 1 := by
        apply cvRound_of_gt_half <;> norm_num [cvScale]
      simp only [convertTo8U, Fin.mk_one] at h ⊢
      rw [h]
      decide
  have hsMin : refocus_set_thresh exStdevMin 0 = exStdevMin := rfl
  have hsMean : refocus_set_thresh exStdev 0 = exStdev := rfl
  have hcutMin : stdev_cutoff (ratLib 1 2) exStdevMin
      (fun (_ : Fin 1) (c : Fin 2) => if c.val = 0 then (2 / 5 : ℚ) else 0) = 51 / 255 := by
    simp only [stdev_cutoff, h8Min]
    norm_num [meanStdDev, exStdevMin, exStdev, exState, Fin.sum_univ_two]
  have hcutMean : stdev_cutoff (ratLib 1 2) exStdev
      (fun (_ : Fin 1) (c : Fin 2) => if c.val = 0 then (2 / 5 : ℚ) else 9 / 20)
        = 217 / 510 := by
    simp only [stdev_cutoff, h8Mean]
    norm_num [meanStdDev, exStdev, exState, Fin.sum_univ_two]
  have hMin : refocus (ratLib 1 2) exStdevMin exSparse 0 0 0 = 2 / 5 := by
    have hfin : refocus (ratLib 1 2) exStdevMin exSparse 0
        = threshold_image (ratLib 1 2) exStdevMin
            (fun (_ : Fin 1) (c : Fin 2) => if c.val = 0 then (2 / 5 : ℚ) else 0) := by
      rw [← hgMin]
      simp only [refocus, hsMin]
      rw [if_neg (by decide), if_pos (by decide)]
      simp only [GPUrefocus, GPUrefocus_finish]
      rw [if_neg (by decide), if_neg (by decide), if_pos (by decide)]
    rw [hfin, threshold_image_stdev _ _ _ (by decide), hcutMin]
    norm_num [cvThresholdToZero]
  have hMean : refocus (ratLib 1 2) exStdev exSparse 0 0 0 = 0 := by
    have hfin : refocus (ratLib 1 2) exStdev exSparse 0
        = threshold_image (ratLib 1 2) exStdev
            (fun (_ : Fin 1) (c : Fin 2) => if c.val = 0 then (2 / 5 : ℚ) else 9 / 20) := by
      rw [← hgMean]
      simp only [refocus, hsMean]
      rw [if_neg (by decide), if_pos (by decide)]
      simp only [GPUrefocus, GPUrefocus_finish]
      rw [if_neg (by decide), if_neg (by decide), if_pos (by decide)]
    rw [hfin, threshold_image_stdev _ _ _ (by decide), hcutMean]
    norm_num [cvThresholdToZero]
  refine ⟨?_, hMin, hMean, ?_⟩
  · intro i r c
    simp only [exSparse]
    split_ifs <;> norm_num
  · intro h
    have h00 := h 0 0
    rw [hMin, hMean] at h00
    norm_num at h00

/-- C11 (amended): for warped views with non-negative intensities, `N ≥ 1`
cameras with `fact_ = 1/N`, every threshold argument, and every path of
`refocus` except the two GPU paths that apply the STDEV threshold to a
mode-dependent image (`GPUrefocus` and `GPUrefocus_ref_corner` with
`STDEV_THRESH ≠ 0` and benchmark mode off), the reconstruction with MinLoS is
pixelwise at most the reconstruction with Mean on the same warped views,
thresholding included. The session with MinLoS is the Mean session with
`minlos_` set to a non-zero value. -/
theorem C11_minlos_le_mean [FloorRing α] (L : Lib rows cols α) (s : saRefocus α) (m : ℤ)
    (W : ℕ → Mat rows cols α) (thresh : α) (hN : 1 ≤ s.num_cams_)
    (hfact : s.fact_ = 1 / (s.num_cams_ : α))
    (hmean : s.mult_ = 0 ∧ s.minlos_ = 0 ∧ s.nlca_ = 0 ∧ s.nlca_fast_ = 0) (hm : m ≠ 0)
    (hW : ∀ i r c, 0 ≤ W i r c)
    (hpath : s.GPU_FLAG = 0 ∨ s.STDEV_THRESH = 0 ∨ s.BENCHMARK_MODE ≠ 0
      ∨ (s.REF_FLAG ≠ 0 ∧ s.CORNER_FLAG = 0)) :
    ∀ r c, refocus L { s with minlos_ := m } W thresh r c ≤ refocus L s W thresh r c := by
  intro r c
  obtain ⟨hmult, hmin, hnlca, hfast⟩ := hmean
  by_cases hR : s.REF_FLAG = 0
  · by_cases hG : s.GPU_FLAG = 0
    · have e1 : refocus L { s with minlos_ := m } W thresh
          = CPUrefocus L.pow { refocus_set_thresh s thresh with minlos_ := m } W := by
        simp only [refocus, refocus_set_thresh, hR, hG, ne_eq, not_true_eq_false, if_false]
      have e2 : refocus L s W thresh = CPUrefocus L.pow (refocus_set_thresh s thresh) W := by
        simp only [refocus, refocus_set_thresh, hR, hG, ne_eq, not_true_eq_false, if_false]
      rw [e1, e2]
      exact CPUrefocus_minlos_le_mean L.pow { refocus_set_thresh s thresh with minlos_ := m }
        (refocus_set_thresh s thresh) W hN rfl rfl ⟨hmult, hm⟩ ⟨hmult, hmin⟩ hW r c
    · have habs : s.STDEV_THRESH = 0 ∨ s.BENCHMARK_MODE ≠ 0 := by
        rcases hpath with h | h | h | h
        · exact absurd h hG
        · exact Or.inl h
        · exact Or.inr h
        · exact absurd hR h.1
      have e1 : refocus L { s with minlos_ := m } W thresh
          = GPUrefocus L { refocus_set_thresh s thresh with minlos_ := m } W := by
        simp only [refocus, refocus_set_thresh, hR, hG, ne_eq, not_true_eq_false,
          not_false_eq_true, if_false, if_true]
      have e2 : refocus L s W thresh = GPUrefocus L (refocus_set_thresh s thresh) W := by
        simp only [refocus, refocus_set_thresh, hR, hG, ne_eq, not_true_eq_false,
          not_false_eq_true, if_false, if_true]
      rw [e1, e2]
      exact GPUrefocus_minlos_le_mean L (refocus_set_thresh s thresh) m W hN hfact hmult hmin
        hnlca hfast hm hW habs r c
  · by_cases hC : s.CORNER_FLAG = 0
    · have e : refocus L { s with minlos_ := m } W thresh = refocus L s W thresh := by
        simp only [refocus, refocus_set_thresh, hR, hC, ne_eq, not_true_eq_false,
          not_false_eq_true, if_false, if_true]
        rfl
      rw [e]
    · by_cases hG : s.GPU_FLAG = 0
      · have e1 : refocus L { s with minlos_ := m } W thresh
            = CPUrefocus_ref_corner L.pow { refocus_set_thresh s thresh with minlos_ := m } W := by
          simp only [refocus, refocus_set_thresh, hR, hC, hG, ne_eq, not_true_eq_false,
            not_false_eq_true, if_false, if_true]
        have e2 : refocus L s W thresh
            = CPUrefocus_ref_corner L.pow (refocus_set_thresh s thresh) W := by
          simp only [refocus, refocus_set_thresh, hR, hC, hG, ne_eq, not_true_eq_false,
            not_false_eq_true, if_false, if_true]
        rw [e1, e2]
        exact CPUrefocus_ref_corner_minlos_le_mean L.pow (refocus_set_thresh s thresh) m W hN
          hmult hmin hm r c
      · have habs : s.STDEV_THRESH = 0 ∨ s.BENCHMARK_MODE ≠ 0 := by
          rcases hpath with h | h | h | h
          · exact absurd h hG
          · exact Or.inl h
          · exact Or.inr h
          · exact absurd h.2 hC
        have e1 : refocus L { s with minlos_ := m } W thresh
            = GPUrefocus L { refocus_set_thresh s thresh with minlos_ := m } W := by
          simp only [refocus, refocus_set_thresh, hR, hC, hG, ne_eq, not_true_eq_false,
            not_false_eq_true, if_false, if_true]
          rfl
        have e2 : refocus L s W thresh = GPUrefocus L (refocus_set_thresh s thresh) W := by
          simp only [refocus, refocus_set_thresh, hR, hC, hG, ne_eq, not_true_eq_false,
            not_false_eq_true, if_false, if_true]
          rfl
        rw [e1, e2]
        exact GPUrefocus_minlos_le_mean L (refocus_set_thresh s thresh) m W hN hfact hmult
          hmin hnlca hfast hm hW habs r c

/-- C11 (amended) on the GPU pinhole path with the absolute threshold: two
cameras seeing `1/4` and `1/2`, threshold argument 64. -/
theorem C11_minlos_le_mean_witness :
    1 ≤ exGpu.num_cams_ ∧ exGpu.fact_ = 1 / (exGpu.num_cams_ : ℚ) ∧
    (exGpu.mult_ = 0 ∧ exGpu.minlos_ = 0 ∧ exGpu.nlca_ = 0 ∧ exGpu.nlca_fast_ = 0) ∧
    (∀ i r c, 0 ≤ exViews i r c) ∧
    (exGpu.GPU_FLAG = 0 ∨ exGpu.STDEV_THRESH = 0 ∨ exGpu.BENCHMARK_MODE ≠ 0
      ∨ (exGpu.REF_FLAG ≠ 0 ∧ exGpu.CORNER_FLAG = 0)) ∧
    ∀ r c, refocus (ratLib 1 1) { exGpu with minlos_ := 1 } exViews 64 r c
      ≤ refocus (ratLib 1 1) exGpu exViews 64 r c :=
  have hW : ∀ i r c, 0 ≤ exViews i r c := fun i _ _ => by
    simp only [exViews]
    positivity
  have hfact : exGpu.fact_ = 1 / (exGpu.num_cams_ : ℚ) := by
    norm_num [exGpu, exState]
  ⟨by decide, hfact, ⟨rfl, rfl, rfl, rfl⟩, hW, Or.inr (Or.inl rfl),
    C11_minlos_le_mean (ratLib 1 1) exGpu 1 exViews 64 (by decide) hfact ⟨rfl, rfl, rfl, rfl⟩
      (by decide) hW (Or.inr (Or.inl rfl))⟩

end Theorems

end OpenFV
